import Mathlib

/-!
Shallow embedding of the discrete-event simulation core in `src/engine.py`
(repository `social-feed-architecture`), together with proofs of the spec
claims about it.

Modelling conventions:
* Python floats are modelled as `Rat` (exact rational arithmetic); every
  comparison in the source is a plain `<` on times, which `Rat` mirrors.
* The global `random` module is modelled as an oracle stream `rng : Nat → Rat`
  together with a cursor `rngIdx`: each call of `next_delay` or
  `next_service_time` consumes one stream element and returns it directly
  (the uniform / inverse-CDF exponential transforms are monotone bijections
  onto the support, so quantifying over output streams is equivalent to
  quantifying over seeds).  Note that `Device.start_process` draws a service
  sample whose value every caller discards; the draw is still consumed, and
  the embedding consumes it too, keeping the stream aligned.
* The event calendar is the exact CPython `heapq` list: `heappush` /
  `heappop` below implement `_siftdown` / `_siftup` literally (with
  structural fuel in place of the unbounded `while`, sized so the recursion
  always runs to the loop's own exit condition).
* Log records keep the structured fields (kind, time, post, source, device);
  the human-readable `action` strings are dropped.
* `size` is a `Nat` as in the source it is a non-negative int on every state
  where it equals the number of occupied slots (the buffer invariant).
-/

/-- `Post` dataclass of engine.py. -/
structure Post where
  id : Nat
  source_id : Nat
  created_at : Rat
deriving DecidableEq

/-- `BufferSlot` dataclass: an optional post plus its enqueue timestamp
(`BufferSlot()` is `⟨none, 0⟩`). -/
structure BufferSlot where
  post : Option Post
  enqueued_at : Rat
deriving DecidableEq

/-- `Buffer` object state: capacity, the slot array, the ring probe start
`last_index` (−1 initially, hence an `Int`), and the occupancy counter. -/
structure Buffer where
  capacity : Nat
  slots : List BufferSlot
  last_index : Int
  size : Nat
deriving DecidableEq

namespace Buffer

/-- `Buffer.__init__`. -/
def init (capacity : Nat) : Buffer :=
  ⟨capacity, List.replicate capacity ⟨none, 0⟩, -1, 0⟩

/-- `Buffer.is_full`. -/
def is_full (b : Buffer) : Bool := b.size = b.capacity

/-- `Buffer.is_empty`. -/
def is_empty (b : Buffer) : Bool := b.size = 0

/-- The probe loop of `enqueue_d1031`: scan `fuel` slots starting at `idx`,
advancing circularly, writing `post` into the first empty slot found
(`fuel = capacity` at the top call, exactly the `for _ in range(self.capacity)`
loop). -/
def probeLoop (post : Post) (now : Rat) : Nat → Nat → Buffer → Bool × Buffer
  | _, 0, b => (false, b)
  | idx, fuel+1, b =>
    match b.slots[idx]? with
    | none => (false, b)
    | some s =>
      match s.post with
      | none =>
        (true, { b with slots := b.slots.set idx ⟨some post, now⟩,
                        last_index := (idx : Int),
                        size := b.size + 1 })
      | some _ => probeLoop post now ((idx + 1) % b.capacity) fuel b

/-- `Buffer.enqueue_d1031`: ring-probe insertion starting at
`(last_index + 1) % capacity`. -/
def enqueue_d1031 (b : Buffer) (post : Post) (now : Rat) : Bool × Buffer :=
  if b.is_full then (false, b)
  else
    let start : Nat := ((b.last_index + 1) % (b.capacity : Int)).toNat
    probeLoop post now start b.capacity b

/-- The argmin scan of `drop_oldest_d10o3`.  The Python code starts from
`oldest_t = inf`, `oldest_idx = -1`; `none` models the not-yet-found state,
which compares exactly like `inf` against every rational. -/
def oldestLoop : List BufferSlot → Nat → Option (Rat × Nat) → Option (Rat × Nat)
  | [], _, best => best
  | s :: rest, i, best =>
    let best' :=
      match s.post, best with
      | some _, none => some (s.enqueued_at, i)
      | some _, some (t, j) =>
        if s.enqueued_at < t then some (s.enqueued_at, i) else some (t, j)
      | none, b => b
    oldestLoop rest (i+1) best'

/-- `Buffer.drop_oldest_d10o3`: evict the occupied slot with minimal
`enqueued_at` (first-found index on ties). -/
def drop_oldest_d10o3 (b : Buffer) : Option Post × Buffer :=
  match oldestLoop b.slots 0 none with
  | none => (none, b)
  | some r =>
    match b.slots[r.2]? with
    | none => (none, b)
    | some s =>
      (s.post, { b with slots := b.slots.set r.2 ⟨none, 0⟩, size := b.size - 1 })

/-- The argmax scan of `pick_lifo_d2b2`, mirroring the source literally:
`newest_t` starts at the sentinel `-1.0` and a slot is taken only when its
`enqueued_at` is strictly greater than the best so far. -/
def newestLoop : List BufferSlot → Nat → Rat → Int → Rat × Int
  | [], _, t, j => (t, j)
  | s :: rest, i, t, j =>
    if s.post.isSome ∧ t < s.enqueued_at then
      newestLoop rest (i+1) s.enqueued_at (i : Int)
    else
      newestLoop rest (i+1) t j

/-- `Buffer.pick_lifo_d2b2`: extract the occupied slot with maximal
`enqueued_at` (first-found index on ties). -/
def pick_lifo_d2b2 (b : Buffer) : Option Post × Buffer :=
  let r := newestLoop b.slots 0 (-1) (-1)
  if r.2 < 0 then (none, b)
  else
    match b.slots[r.2.toNat]? with
    | none => (none, b)
    | some s =>
      (s.post, { b with slots := b.slots.set r.2.toNat ⟨none, 0⟩, size := b.size - 1 })

end Buffer

/-- `Device` object state.  The service law object carries no state that the
oracle-stream model does not already cover, so it is omitted. -/
structure Device where
  id : Nat
  busy : Bool
  current_post : Option Post
deriving DecidableEq

/-- `Device.is_free`. -/
def Device.is_free (d : Device) : Bool := !d.busy

/-- `DevicePool` object state: the device list plus the round-robin cursor. -/
structure DevicePool where
  devices : List Device
  cursor : Nat
deriving DecidableEq

namespace DevicePool

/-- The scan loop of `pick_cyclic_d2p2`; `i` is the probe position
`(cursor + k) % n` and `rem` the remaining iterations of
`for k in range(n)`.  Returns the index of the device found. -/
def pickLoop (devs : List Device) (n : Nat) : Nat → Nat → Option Nat
  | _, 0 => none
  | i, rem+1 =>
    match devs[i]? with
    | some d => if d.is_free then some i else pickLoop devs n ((i + 1) % n) rem
    | none => none

/-- `DevicePool.pick_cyclic_d2p2`: round-robin free-device selection.  The
Python method returns the device object (mutated in place by callers); the
embedding returns its index in the list, which is the same identity. -/
def pick_cyclic_d2p2 (p : DevicePool) : Option Nat × DevicePool :=
  let n := p.devices.length
  match pickLoop p.devices n (if n = 0 then 0 else p.cursor % n) n with
  | some i => (some i, { p with cursor := (i + 1) % n })
  | none => (none, p)

/-- `DevicePool.any_free`. -/
def any_free (p : DevicePool) : Bool := p.devices.any Device.is_free

/-- `Device.start_process` state change on the device at list index `i`
(the service-time draw it returns is consumed at the call sites). -/
def startAt (p : DevicePool) (i : Nat) (post : Post) : DevicePool :=
  match p.devices[i]? with
  | some d =>
    { p with devices := p.devices.set i { d with busy := true, current_post := some post } }
  | none => p

end DevicePool

/-- The two `Event` subclasses, tagged by their payload; `__lt__` compares
`time` only. -/
inductive Event where
  | arrival (time : Rat) (source : Nat)
  | completion (time : Rat) (dev_id : Nat)
deriving DecidableEq

/-- Timestamp key used by the heap comparisons. -/
def Event.time : Event → Rat
  | .arrival t _ => t
  | .completion t _ => t

instance : Inhabited Event := ⟨.arrival 0 0⟩

/-! CPython `heapq` on a `List Event`, comparing with `Event.time` only
(as `Event.__lt__` does). -/

/-- `heapq._siftdown(heap, 0, pos)` with the new item passed explicitly (the
source stores it at `pos` first; that cell is never read before being
overwritten, so the two forms coincide).  `fuel ≥ pos` makes the structural
recursion run to the loop's own exit. -/
def siftdownLoop : Nat → List Event → Event → Nat → List Event
  | 0, heap, newitem, pos => heap.set pos newitem
  | fuel+1, heap, newitem, pos =>
    if pos > 0 then
      let parentpos := (pos - 1) / 2
      let parent := (heap[parentpos]?).getD default
      if newitem.time < parent.time then
        siftdownLoop fuel (heap.set pos parent) newitem parentpos
      else heap.set pos newitem
    else heap.set pos newitem

/-- `heapq.heappush`. -/
def heappush (heap : List Event) (item : Event) : List Event :=
  let h := heap ++ [item]
  siftdownLoop (h.length - 1) h item (h.length - 1)

/-- The descent loop of `heapq._siftup(heap, 0)`: move the smaller child up
until a leaf is reached, returning the heap and the final position. -/
def siftupLoop : Nat → List Event → Nat → List Event × Nat
  | 0, heap, pos => (heap, pos)
  | fuel+1, heap, pos =>
    let endpos := heap.length
    let childpos := 2 * pos + 1
    if childpos < endpos then
      let rightpos := childpos + 1
      let cp :=
        if rightpos < endpos ∧
            ¬ (((heap[childpos]?).getD default).time <
               ((heap[rightpos]?).getD default).time)
        then rightpos else childpos
      siftupLoop fuel (heap.set pos ((heap[cp]?).getD default)) cp
    else (heap, pos)

/-- `heapq._siftup(heap, 0)` with the new root passed explicitly. -/
def siftup0 (heap : List Event) (newitem : Event) : List Event :=
  match siftupLoop heap.length heap 0 with
  | (h, pos) => siftdownLoop pos (h.set pos newitem) newitem pos

/-- `heapq.heappop`: pop the last element; if the heap is still non-empty the
root is returned and the last element sifted down from the root. -/
def heappop (heap : List Event) : Option (Event × List Event) :=
  match heap with
  | [] => none
  | x :: xs =>
    let lastelt := (x :: xs).getLast (by simp)
    let rest := (x :: xs).dropLast
    match rest with
    | [] => some (lastelt, [])
    | r :: rs =>
      some (r, siftup0 ((r :: rs).set 0 lastelt) lastelt)

/-- `AcceptedResult` dataclass. -/
structure AcceptedResult where
  status : Nat
  queued : Bool
  evicted_post_id : Option Nat
  assigned_device_id : Option Nat
deriving DecidableEq

/-- `Packet` dataclass. -/
structure Packet where
  source_id : Nat
  posts : List Post
deriving DecidableEq

/-- Structured log record kinds of `SimulationCore.log`. -/
inductive LogKind where
  | arrival
  | assignToDevice
  | bufferEvict
  | bufferEnqueue
  | bufferPick
  | packetFormed
  | serviceStart
  | serviceComplete
deriving DecidableEq

/-- A `log_output` record: kind, `current_time` at append, and the structured
`post` / `source` / `device` fields of the data dict (the free-text `action`
string is dropped). -/
structure LogEntry where
  kind : LogKind
  time : Rat
  post : Option Nat
  source : Option Nat
  device : Option Nat
deriving DecidableEq

/-- Whole-simulation state: `SimulationCore` fields plus the dispatcher state
(`PlacementDispatcher._direct` as `direct_assign`, `SelectionDispatcher._packet`
as `packet`) and the random-oracle stream. -/
structure SimState where
  current_time : Rat
  calendar : List Event
  buffer : Buffer
  pool : DevicePool
  next_post_id : Nat
  generated : Nat
  queued : Nat
  served : Nat
  evicted : Nat
  direct_stat : Nat
  direct_assign : Bool
  packet : Option Packet
  rng : Nat → Rat
  rngIdx : Nat
  log_output : List LogEntry

namespace SimState

/-- One draw from the shared random stream (used by both laws, and by
`start_process` for the sample its callers discard). -/
def draw (s : SimState) : Rat × SimState :=
  (s.rng s.rngIdx, { s with rngIdx := s.rngIdx + 1 })

/-- `SimulationCore.log`: append one structured record at `current_time`. -/
def addLog (s : SimState) (k : LogKind) (post source device : Option Nat) : SimState :=
  { s with log_output := s.log_output ++ [⟨k, s.current_time, post, source, device⟩] }

/-- `SimulationCore.schedule`. -/
def schedule (s : SimState) (e : Event) : SimState :=
  { s with calendar := heappush s.calendar e }

end SimState

/-- `PlacementDispatcher.handle_publish`. -/
def handle_publish (s : SimState) (post : Post) (now : Rat) : AcceptedResult × SimState :=
  let directHit : Option (Nat × DevicePool) :=
    if s.direct_assign then
      match s.pool.pick_cyclic_d2p2 with
      | (some i, pool1) => some (i, pool1)
      | (none, _) => none
    else none
  match directHit with
  | some (i, pool1) =>
    let devId := (((pool1.devices[i]?).map Device.id).getD i)
    let s1 := { s with pool := pool1.startAt i post }
    let s2 := (s1.draw).2
    let s3 := s2.addLog .assignToDevice (some post.id) (some post.source_id) (some devId)
    (⟨202, false, none, some devId⟩, s3)
  | none =>
    let evres : Option Nat × SimState :=
      if s.buffer.is_full then
        match s.buffer.drop_oldest_d10o3 with
        | (some dropped, b1) =>
          (some dropped.id,
           ({ s with buffer := b1, evicted := s.evicted + 1 }).addLog
             .bufferEvict (some dropped.id) (some dropped.source_id) none)
        | (none, b1) => (none, { s with buffer := b1 })
      else (none, s)
    match evres with
    | (evicted_id, sA) =>
      match sA.buffer.enqueue_d1031 post now with
      | (ok, b2) =>
        let sB := { sA with buffer := b2 }
        let sC := if ok then sB.addLog .bufferEnqueue (some post.id) (some post.source_id) none
                  else sB
        (⟨if ok then 202 else 500, ok, evicted_id, none⟩, sC)

/-- True when `SelectionDispatcher.on_device_freed` must form a new packet:
`self._packet is None or not self._packet.posts`. -/
def needForm : Option Packet → Bool
  | none => true
  | some pk => pk.posts.isEmpty

/-- The `while not self._buffer.is_empty()` pull loop (the first pick has
already been done).  `fuel = size + 1` always reaches the loop's own exit:
every successful pick decrements `size` and the loop stops at `size = 0`,
or breaks on a failed pick. -/
def drainLoop : Nat → SimState → List Post × SimState
  | 0, s => ([], s)
  | fuel+1, s =>
    if s.buffer.is_empty then ([], s)
    else
      match s.buffer.pick_lifo_d2b2 with
      | (none, b1) => ([], { s with buffer := b1 })
      | (some p, b1) =>
        match drainLoop fuel { s with buffer := b1 } with
        | (ps, s1) => (p :: ps, s1)

/-- `for p in reversed(other)` re-insertion loop: each post re-enqueued at a
timestamp increasing by `1e-6` per step (`ε = 1/1000000` exactly, the rational
value of the literal; the enqueue result is discarded and the log appended
unconditionally, as in the source). -/
def reinsertLoop : List Post → Rat → SimState → SimState
  | [], _, s => s
  | p :: rest, t, s =>
    let s1 := { s with buffer := (s.buffer.enqueue_d1031 p t).2 }
    let s2 := s1.addLog .bufferEnqueue (some p.id) (some p.source_id) none
    reinsertLoop rest (t + 1/1000000) s2

/-- Number of posts in the active packet, used as dispatch-loop fuel. -/
def packetLen : Option Packet → Nat
  | none => 0
  | some pk => pk.posts.length

/-- The `while self._packet and self._packet.posts` dispatch loop: pop one
post from the packet's end, hand it to the device from `pick_cyclic_d2p2`
(consuming the `start_process` service draw), until the packet empties or no
device is free. -/
def dispatchLoop : Nat → SimState → SimState
  | 0, s => s
  | fuel+1, s =>
    match s.packet with
    | none => s
    | some pk =>
      if pk.posts.isEmpty then s
      else
        match s.pool.pick_cyclic_d2p2 with
        | (none, pool1) => { s with pool := pool1 }
        | (some i, pool1) =>
          let post := (pk.posts.getLast?).getD ⟨0, 0, 0⟩
          let posts1 := pk.posts.dropLast
          let devId := (((pool1.devices[i]?).map Device.id).getD i)
          let s1 := { s with pool := pool1.startAt i post,
                             packet := some ⟨pk.source_id, posts1⟩ }
          let s2 := (s1.draw).2
          let s3 := s2.addLog .serviceStart (some post.id) (some post.source_id) (some devId)
          dispatchLoop fuel s3

/-- Dispatch phase of `on_device_freed`: the pop loop followed by the final
`if self._packet and not self._packet.posts: self._packet = None`. -/
def dispatchPhase (s : SimState) : SimState :=
  let s1 := dispatchLoop (packetLen s.packet) s
  match s1.packet with
  | some pk => if pk.posts.isEmpty then { s1 with packet := none } else s1
  | none => s1

/-- Packet-formation phase of `on_device_freed`, applied when a seed post
`first` has been pulled (buffer already updated to `b1`). -/
def formPhase (s : SimState) (now : Rat) (first : Post) : SimState :=
  let s1 := s.addLog .bufferPick (some first.id) (some first.source_id) none
  let src := first.source_id
  match drainLoop (s1.buffer.size + 1) s1 with
  | (pulledRest, s2) =>
    let pulled := first :: pulledRest
    let same := pulled.filter (fun p => p.source_id = src)
    let other := pulled.filter (fun p => ¬ (p.source_id = src))
    let s3 := reinsertLoop other.reverse now s2
    let s4 := { s3 with packet := some ⟨src, same⟩ }
    s4.addLog .packetFormed ((same.getLast?).map Post.id) (some src) none

/-- `SelectionDispatcher.on_device_freed`. -/
def on_device_freed (s : SimState) (now : Rat) : SimState :=
  if needForm s.packet then
    match s.buffer.pick_lifo_d2b2 with
    | (none, b1) => { s with buffer := b1 }
    | (some first, b1) => dispatchPhase (formPhase { s with buffer := b1 } now first)
  else dispatchPhase s

/-- Membership scan of the safety net: is a `CompletionEvent` for device `i`
pending in the calendar? -/
def hasCompletionFor (cal : List Event) (i : Nat) : Bool :=
  cal.any fun e => match e with
    | .completion _ j => j = i
    | .arrival _ _ => false

/-- The safety-net loop shared verbatim by `ArrivalEvent.process` and
`CompletionEvent.process`: for every busy device lacking a pending
completion, draw a service time and schedule one at `now + draw`. -/
def netLoop (now : Rat) : List Device → SimState → SimState
  | [], s => s
  | d :: rest, s =>
    let s1 :=
      if d.busy ∧ ¬ hasCompletionFor s.calendar d.id then
        match s.draw with
        | (tserv, sa) => sa.schedule (.completion (now + tserv) d.id)
      else s
    netLoop now rest s1

/-- Safety net entry point (iterates over the current device list). -/
def safetyNet (s : SimState) (now : Rat) : SimState :=
  netLoop now s.pool.devices s

/-- `ArrivalEvent.process` up to (and including) the direct-assignment
completion scheduling — everything before the opportunistic selection
block. -/
def arrivalCore (s : SimState) (t : Rat) (source : Nat) : SimState × AcceptedResult :=
  let s0 := { s with current_time := t }
  let post : Post := ⟨s0.next_post_id, source, t⟩
  let s1 := { s0 with next_post_id := s0.next_post_id + 1, generated := s0.generated + 1 }
  let s2 := s1.addLog .arrival (some post.id) (some source) none
  match handle_publish s2 post t with
  | (res, s3) =>
    let s4 := if res.queued then { s3 with queued := s3.queued + 1 } else s3
    match s4.draw with
    | (delay, s5) =>
      let s6 := s5.schedule (.arrival (t + delay) source)
      let s7 :=
        match res.assigned_device_id with
        | some devId =>
          match s6.draw with
          | (tserv, sa) =>
            let realId := (((s6.pool.devices[devId]?).map Device.id).getD devId)
            sa.schedule (.completion (t + tserv) realId)
        | none => s6
      (s7, res)

/-- The guard of the opportunistic selection block in `ArrivalEvent.process`:
`(not sim.placement._direct) and (not sim.buffer.is_empty()) and
sim.pool.any_free()`. -/
def selGuard (m : SimState) : Bool :=
  !m.direct_assign && !m.buffer.is_empty && m.pool.any_free

/-- `ArrivalEvent.process`. -/
def processArrival (s : SimState) (t : Rat) (source : Nat) : SimState :=
  match arrivalCore s t source with
  | (m, _) =>
    if selGuard m then safetyNet (on_device_freed m t) t else m

/-- `CompletionEvent.process`.  `devices[dev_id]` is in range on every
reachable state (completions are only ever scheduled with ids of existing
devices); the out-of-range case, a Python `IndexError`, is left as the
unreachable identity. -/
def processCompletion (s : SimState) (t : Rat) (devId : Nat) : SimState :=
  let s0 := { s with current_time := t }
  match s0.pool.devices[devId]? with
  | none => s0
  | some d =>
    let post := d.current_post
    let pool1 := { s0.pool with
      devices := s0.pool.devices.set devId { d with busy := false, current_post := none } }
    let s1 := { s0 with pool := pool1 }
    let s2 := if post.isSome then { s1 with served := s1.served + 1 } else s1
    let s3 := s2.addLog .serviceComplete (post.map Post.id) (post.map Post.source_id) (some devId)
    safetyNet (on_device_freed s3 t) t

/-- `SimulationCore.step`: pop the earliest event and process it; `false`
when the calendar is empty. -/
def stepB (s : SimState) : Bool × SimState :=
  match heappop s.calendar with
  | none => (false, s)
  | some (e, cal1) =>
    let s1 := { s with calendar := cal1 }
    (true,
      match e with
      | .arrival t src => processArrival s1 t src
      | .completion t d => processCompletion s1 t d)

/-- State component of `step`. -/
def stepState (s : SimState) : SimState := (stepB s).2

/-- Configuration bundle (the `params` dict).  The inter-arrival range,
`λ` and the seed act only through the random oracle and are absorbed by the
`rng` stream. -/
structure Params where
  buffer : Nat
  devices : Nat
  sources : Nat
  direct : Bool

/-- `SimulationCore.__init__` (statistics zeroed, empty calendar and log,
fresh buffer and pool). -/
def initSim (p : Params) (rng : Nat → Rat) : SimState :=
  { current_time := 0
    calendar := []
    buffer := Buffer.init p.buffer
    pool := ⟨(List.range p.devices).map (fun i => ⟨i, false, none⟩), 0⟩
    next_post_id := 1
    generated := 0
    queued := 0
    served := 0
    evicted := 0
    direct_stat := 0
    direct_assign := p.direct
    packet := none
    rng := rng
    rngIdx := 0
    log_output := [] }

/-- `SimulationCore.bootstrap`: one Arrival per source at time 0, in source
order `1..sources`. -/
def bootstrap (s : SimState) (sources : Nat) : SimState :=
  (List.range sources).foldl (fun st k => st.schedule (.arrival 0 (k + 1))) s

/-- A freshly constructed and bootstrapped simulation. -/
def startState (p : Params) (rng : Nat → Rat) : SimState :=
  bootstrap (initSim p rng) p.sources

/-- Reachability by repeated `step()` from a constructed-and-bootstrapped
simulation. -/
def Reachable (p : Params) (rng : Nat → Rat) (s : SimState) : Prop :=
  ∃ k, stepState^[k] (startState p rng) = s

/-- Summary record returned by the bulk run. -/
structure Summary where
  generated : Nat
  queued : Nat
  served : Nat
  evicted : Nat
  direct : Nat
  reject_pct : Rat
  final_time : Rat
  buffer_capacity : Nat
deriving DecidableEq

/-- Summary of a state per the spec's field list
(`reject_pct = evicted/generated×100`; `Rat` division by zero is zero, which
matches the GUI's guarded display for `generated = 0`). -/
def mkSummary (s : SimState) : Summary :=
  ⟨s.generated, s.queued, s.served, s.evicted, s.direct_stat,
   (s.evicted : Rat) / (s.generated : Rat) * 100, s.current_time, s.buffer.capacity⟩

/-- Modelled from the spec: `run_automatic` is code of this repository that is
missing from `src/` — `src/engine.py` does not define it and only its caller
`App.run_auto` (src/automatic/gui.py) appears.  Per spec §4.5/§6 it
"repeatedly calls `step()` until either the step budget is exhausted, the
calendar empties, or the clock would exceed `max_time`"; the loop below stops
before a step whenever the earliest pending event (the heap root) lies beyond
`max_time`. -/
def runLoop : Nat → Rat → SimState → SimState
  | 0, _, s => s
  | n+1, maxTime, s =>
    match s.calendar.head? with
    | none => s
    | some e => if maxTime < e.time then s else runLoop n maxTime (stepState s)

/-- Modelled from the spec: the bulk-run operation
`run_automatic(max_steps, max_time)` returning the summary record
`{generated, queued, served, evicted, direct, reject_pct, final_time,
buffer_capacity}` (spec §6). -/
def run_automatic (s : SimState) (max_steps : Nat) (max_time : Rat) : Summary :=
  mkSummary (runLoop max_steps max_time s)

/-! ## Buffer well-formedness and the newest-pick scan -/

/-- Occupied-slot test. -/
def slotOcc (s : BufferSlot) : Bool := s.post.isSome

/-- Structural buffer invariant maintained by every engine operation: the
slot list has length `capacity` and `size` counts the occupied slots. -/
def Buffer.WFB (b : Buffer) : Prop :=
  b.slots.length = b.capacity ∧ b.size = b.slots.countP slotOcc

/-- Timestamp invariant: occupied slots carry non-negative `enqueued_at`
(every `now` the engine passes to `enqueue_d1031` is a simulation time ≥ 0),
which keeps the `-1.0` sentinel of the newest scan strictly below every real
timestamp. -/
def Buffer.WFT (b : Buffer) : Prop :=
  ∀ s ∈ b.slots, slotOcc s → 0 ≤ s.enqueued_at

/-- Occupied contents with their timestamps, in slot order. -/
def Buffer.occList (b : Buffer) : List (Post × Rat) :=
  b.slots.filterMap (fun s => s.post.map (fun p => (p, s.enqueued_at)))

/-- Full case analysis of the `pick_lifo_d2b2` argmax scan: either no slot
improves on the accumulator (and the accumulator is returned), or the scan
returns the first occupied slot attaining the maximal timestamp above the
accumulator. -/
theorem Buffer.newestLoop_cases (l : List BufferSlot) (i : Nat) (t : Rat) (j : Int) :
    (newestLoop l i t j = (t, j) ∧ ∀ s ∈ l, slotOcc s → s.enqueued_at ≤ t) ∨
    (∃ (k : Nat) (s : BufferSlot), l[k]? = some s ∧ slotOcc s = true ∧ t < s.enqueued_at ∧
      newestLoop l i t j = (s.enqueued_at, ((i + k : Nat) : Int)) ∧
      (∀ (m : Nat) (sm : BufferSlot), l[m]? = some sm → slotOcc sm → sm.enqueued_at ≤ s.enqueued_at) ∧
      (∀ (m : Nat) (sm : BufferSlot), m < k → l[m]? = some sm → slotOcc sm → sm.enqueued_at < s.enqueued_at)) := by
  induction l generalizing i t j with
  | nil => left; exact ⟨rfl, by simp⟩
  | cons s0 rest ih =>
    have hk0 : (s0 :: rest)[0]? = some s0 := by simp
    by_cases hc : s0.post.isSome = true ∧ t < s0.enqueued_at
    · have hunf : newestLoop (s0 :: rest) i t j
          = newestLoop rest (i+1) s0.enqueued_at (i : Int) := by
        simp only [newestLoop]
        rw [if_pos]
        exact ⟨hc.1, hc.2⟩
      have hocc0 : slotOcc s0 = true := hc.1
      rcases ih (i+1) s0.enqueued_at (i : Int) with
        ⟨heq, hb⟩ | ⟨k, s, hk, hocc, hlt, heq, hmax, hfirst⟩
      · right
        refine ⟨0, s0, hk0, hocc0, hc.2, ?_, ?_, ?_⟩
        · rw [hunf, heq]; simp
        · intro m sm hm hoc
          cases m with
          | zero =>
            rw [hk0] at hm
            cases hm
            exact le_refl _
          | succ m' => exact hb sm (List.getElem?_mem (by simpa using hm)) hoc
        · intro m sm hmk _ _
          exact (Nat.not_lt_zero m hmk).elim
      · right
        refine ⟨k+1, s, by simpa using hk, hocc, lt_trans hc.2 hlt, ?_, ?_, ?_⟩
        · rw [hunf, heq]
          have hidx : (i + 1 + k : Nat) = (i + (k+1) : Nat) := by omega
          rw [hidx]
        · intro m sm hm hoc
          cases m with
          | zero =>
            rw [hk0] at hm
            cases hm
            exact le_of_lt hlt
          | succ m' => exact hmax m' sm (by simpa using hm) hoc
        · intro m sm hmk hm hoc
          cases m with
          | zero =>
            rw [hk0] at hm
            cases hm
            exact hlt
          | succ m' => exact hfirst m' sm (by omega) (by simpa using hm) hoc
    · have hunf : newestLoop (s0 :: rest) i t j = newestLoop rest (i+1) t j := by
        simp only [newestLoop]
        rw [if_neg]
        exact hc
      have hle0 : slotOcc s0 = true → s0.enqueued_at ≤ t := by
        intro hoc
        by_contra hgt
        exact hc ⟨hoc, lt_of_not_ge hgt⟩
      rcases ih (i+1) t j with ⟨heq, hb⟩ | ⟨k, s, hk, hocc, hlt, heq, hmax, hfirst⟩
      · left
        refine ⟨by rw [hunf, heq], ?_⟩
        intro s hs hoc
        rcases List.mem_cons.mp hs with h | h
        · subst h; exact hle0 hoc
        · exact hb s h hoc
      · right
        refine ⟨k+1, s, by simpa using hk, hocc, hlt, ?_, ?_, ?_⟩
        · rw [hunf, heq]
          have hidx : (i + 1 + k : Nat) = (i + (k+1) : Nat) := by omega
          rw [hidx]
        · intro m sm hm hoc
          cases m with
          | zero =>
            rw [hk0] at hm
            cases hm
            exact le_trans (hle0 hoc) (le_of_lt hlt)
          | succ m' => exact hmax m' sm (by simpa using hm) hoc
        · intro m sm hmk hm hoc
          cases m with
          | zero =>
            rw [hk0] at hm
            cases hm
            exact lt_of_le_of_lt (hle0 hoc) hlt
          | succ m' => exact hfirst m' sm (by omega) (by simpa using hm) hoc

/-- `pick_lifo_d2b2` on a buffer with no occupied slot returns `none` and
leaves the buffer unchanged (the scan keeps the `(-1, -1)` sentinel). -/
theorem Buffer.pick_lifo_none (b : Buffer) (h : b.slots.countP slotOcc = 0) :
    b.pick_lifo_d2b2 = (none, b) := by
  have hno : ∀ s ∈ b.slots, ¬ (slotOcc s = true) := List.countP_eq_zero.mp h
  rcases Buffer.newestLoop_cases b.slots 0 (-1) (-1) with
    ⟨heq, _⟩ | ⟨k, s, hk, hocc, _, _, _, _⟩
  · unfold pick_lifo_d2b2
    rw [heq]
    norm_num
  · exact absurd hocc (hno s (List.getElem?_mem hk))

/-- Removing a known occupied slot splits `occList` by one element. -/
theorem Buffer.occList_set_none (l : List BufferSlot) (k : Nat) (p : Post) (ts : Rat)
    (hk : l[k]? = some ⟨some p, ts⟩) :
    List.Perm (l.filterMap fun s => s.post.map (fun q => (q, s.enqueued_at)))
      ((p, ts) ::
        ((l.set k ⟨none, 0⟩).filterMap fun s => s.post.map (fun q => (q, s.enqueued_at)))) := by
  obtain ⟨hlt, hval⟩ := List.getElem?_eq_some_iff.mp hk
  have hdecomp : l = l.take k ++ l[k] :: l.drop (k+1) := by
    conv_lhs => rw [← List.take_append_drop k l]
    rw [List.getElem_cons_drop l k hlt]
  have hset : l.set k ⟨none, 0⟩ = l.take k ++ ⟨none, 0⟩ :: l.drop (k+1) := by
    rw [List.set_eq_take_append_cons_drop, if_pos hlt]
  rw [hset]
  conv_lhs => rw [hdecomp]
  rw [List.filterMap_append, List.filterMap_append, hval]
  simp only [List.filterMap_cons]
  exact List.perm_middle

/-- One successful `pick_lifo_d2b2` on a well-formed non-empty buffer:
it extracts the first occupied slot of maximal timestamp, clears it,
decrements `size`, and preserves well-formedness. -/
theorem Buffer.pick_lifo_step (b : Buffer) (hB : b.WFB) (hT : b.WFT) (h : b.size ≠ 0) :
    ∃ (k : Nat) (p : Post) (ts : Rat),
      b.slots[k]? = some ⟨some p, ts⟩ ∧ 0 ≤ ts ∧
      b.pick_lifo_d2b2 =
        (some p, { b with slots := b.slots.set k ⟨none, 0⟩, size := b.size - 1 }) ∧
      ({ b with slots := b.slots.set k ⟨none, 0⟩, size := b.size - 1 } : Buffer).WFB ∧
      ({ b with slots := b.slots.set k ⟨none, 0⟩, size := b.size - 1 } : Buffer).WFT ∧
      List.Perm b.occList ((p, ts) ::
        ({ b with slots := b.slots.set k ⟨none, 0⟩, size := b.size - 1 } : Buffer).occList) ∧
      (∀ (m : Nat) (sm : BufferSlot), b.slots[m]? = some sm → slotOcc sm →
        sm.enqueued_at ≤ ts) ∧
      (∀ (m : Nat) (sm : BufferSlot), m < k → b.slots[m]? = some sm → slotOcc sm →
        sm.enqueued_at < ts) ∧
      newestLoop b.slots 0 (-1) (-1) = (ts, (k : Int)) := by
  have hcnt : b.slots.countP slotOcc ≠ 0 := by
    intro h0
    exact h (hB.2.trans h0)
  rcases Buffer.newestLoop_cases b.slots 0 (-1) (-1) with
    ⟨_, hb⟩ | ⟨k, s, hk, hocc, _, heq, hmax, hfirst⟩
  · rcases List.countP_pos_iff.mp (Nat.pos_of_ne_zero hcnt) with ⟨s, hs, hso⟩
    have h0 : (0:Rat) ≤ s.enqueued_at := hT s hs hso
    have h1 : s.enqueued_at ≤ -1 := hb s hs hso
    linarith
  · obtain ⟨p, hp⟩ := Option.isSome_iff_exists.mp hocc
    have hsval : s = ⟨some p, s.enqueued_at⟩ := by
      cases s
      simp only at hp
      simp [hp]
    have hks : b.slots[k]? = some ⟨some p, s.enqueued_at⟩ := by rw [hk, hsval]
    have heq' : newestLoop b.slots 0 (-1) (-1) = (s.enqueued_at, (k : Int)) := by
      simpa using heq
    have hpick : b.pick_lifo_d2b2 =
        (some p, { b with slots := b.slots.set k ⟨none, 0⟩, size := b.size - 1 }) := by
      unfold pick_lifo_d2b2
      have hneg : ¬ ((k : Int) < 0) := by omega
      simp only [heq', if_neg hneg, Int.toNat_natCast, hks]
    obtain ⟨hlt, hval⟩ := List.getElem?_eq_some_iff.mp hks
    have hcount : (b.slots.set k ⟨none, 0⟩).countP slotOcc = b.slots.countP slotOcc - 1 := by
      rw [List.countP_set slotOcc b.slots k ⟨none, 0⟩ hlt, hval]
      simp [slotOcc]
    refine ⟨k, p, s.enqueued_at, hks, hT s (List.getElem?_mem hk) hocc, hpick, ?_, ?_, ?_,
      hmax, hfirst, heq'⟩
    · constructor
      · simpa using hB.1
      · simp only [hcount, ← hB.2]
    · intro s2 hs2 ho2
      rcases List.mem_or_eq_of_mem_set hs2 with h2 | h2
      · exact hT s2 h2 ho2
      · subst h2
        simp [slotOcc] at ho2
    · exact Buffer.occList_set_none b.slots k p s.enqueued_at hks

/-- Results of `n` successive `pick_lifo_d2b2` calls on a buffer. -/
def Buffer.pickN : Nat → Buffer → List (Option Post) × Buffer
  | 0, b => ([], b)
  | n+1, b =>
    let r := b.pick_lifo_d2b2
    let rest := pickN n r.2
    (r.1 :: rest.1, rest.2)

/-- Ghost drain sequence: the slot index, post and timestamp taken by each
successive newest-pick (the index and timestamp are those computed by the
same argmax scan the pick itself uses). -/
def Buffer.drainSeq : Nat → Buffer → List (Nat × Post × Rat)
  | 0, _ => []
  | n+1, b =>
    match b.pick_lifo_d2b2 with
    | (none, _) => []
    | (some p, b1) =>
      ((newestLoop b.slots 0 (-1) (-1)).2.toNat, p,
        (newestLoop b.slots 0 (-1) (-1)).1) :: drainSeq n b1

/-- Drain order demanded by the spec: strictly later-extracted entries carry
a strictly smaller timestamp, or the same timestamp at a strictly larger
slot index (first-found tie-break). -/
def drainRel (x y : Nat × Post × Rat) : Prop :=
  y.2.2 < x.2.2 ∨ (y.2.2 = x.2.2 ∧ x.1 < y.1)

/-- Complete drain of a well-formed buffer holding `n` posts: `n` successful
picks in `drainRel` order, ending on an empty well-formed buffer, visiting
each occupied slot exactly once. -/
theorem Buffer.drain_spec (n : Nat) (b : Buffer) (hB : b.WFB) (hT : b.WFT)
    (hn : b.size = n) :
    (b.pickN n).1 = (b.drainSeq n).map (fun x => some x.2.1) ∧
    (b.drainSeq n).length = n ∧
    (b.pickN n).2.WFB ∧ (b.pickN n).2.WFT ∧ (b.pickN n).2.size = 0 ∧
    (b.pickN n).2.capacity = b.capacity ∧
    List.Perm b.occList ((b.drainSeq n).map (fun x => x.2)) ∧
    List.Pairwise drainRel (b.drainSeq n) ∧
    (∀ x ∈ b.drainSeq n, b.slots[x.1]? = some ⟨some x.2.1, x.2.2⟩) := by
  induction n generalizing b with
  | zero =>
    have hocc0 : b.slots.countP slotOcc = 0 := by
      rw [← hB.2]; exact hn
    have hnil : b.occList = [] := by
      unfold occList
      rw [List.filterMap_eq_nil_iff]
      intro s hs
      have := List.countP_eq_zero.mp hocc0 s hs
      simp only [slotOcc] at this
      cases hpost : s.post with
      | none => simp
      | some p => rw [hpost] at this; simp at this
    refine ⟨rfl, rfl, hB, hT, hn, rfl, ?_, List.Pairwise.nil, by intro x hx; cases hx⟩
    rw [hnil]
    simp [Buffer.pickN, Buffer.drainSeq]
  | succ n ih =>
    have hne : b.size ≠ 0 := by omega
    obtain ⟨k, p, ts, hks, hts0, hpick, hWFB1, hWFT1, hperm1, hmax, hfirst, hscan⟩ :=
      Buffer.pick_lifo_step b hB hT hne
    set b1 : Buffer :=
      { b with slots := b.slots.set k ⟨none, 0⟩, size := b.size - 1 } with hb1
    have hsz1 : b1.size = n := by
      simp only [hb1]
      omega
    obtain ⟨ihmap, ihlen, ihWFB, ihWFT, ihsz, ihcap, ihperm, ihpair, ihmem⟩ :=
      ih b1 hWFB1 hWFT1 hsz1
    obtain ⟨hklt, _⟩ := List.getElem?_eq_some_iff.mp hks
    have hd : b.drainSeq (n+1) =
        (k, p, ts) :: b1.drainSeq n := by
      simp only [Buffer.drainSeq, hpick, hscan, Int.toNat_natCast]
    have hpN1 : (b.pickN (n+1)).1 = some p :: (b1.pickN n).1 := by
      simp only [Buffer.pickN, hpick]
    have hpN2 : (b.pickN (n+1)).2 = (b1.pickN n).2 := by
      simp only [Buffer.pickN, hpick]
    have hmem1 : ∀ x ∈ b1.drainSeq n, b.slots[x.1]? = some ⟨some x.2.1, x.2.2⟩ ∧ x.1 ≠ k := by
      intro x hx
      have hx1 := ihmem x hx
      have hxk : x.1 ≠ k := by
        intro hcon
        rw [hcon] at hx1
        have : b1.slots[k]? = some ⟨none, 0⟩ := by
          simp only [hb1]
          exact List.getElem?_set_self (by simpa using hklt)
        rw [this] at hx1
        cases hx1
      refine ⟨?_, hxk⟩
      have : b1.slots[x.1]? = b.slots[x.1]? := by
        simp only [hb1]
        exact List.getElem?_set_ne (fun hh => hxk hh.symm)
      rw [← this]
      exact hx1
    refine ⟨?_, ?_, ?_, ?_, ?_, ?_, ?_, ?_, ?_⟩
    · rw [hd, hpN1, ihmap]
      rfl
    · rw [hd]
      simp [ihlen]
    · rw [hpN2]; exact ihWFB
    · rw [hpN2]; exact ihWFT
    · rw [hpN2]; exact ihsz
    · rw [hpN2]; rw [ihcap]
    · rw [hd]
      refine hperm1.trans ?_
      simpa using ihperm.cons (p, ts)
    · rw [hd]
      refine List.Pairwise.cons ?_ ihpair
      intro y hy
      obtain ⟨hyslot, hyk⟩ := hmem1 y hy
      have hocc : slotOcc (⟨some y.2.1, y.2.2⟩ : BufferSlot) = true := by simp [slotOcc]
      have hle : y.2.2 ≤ ts := by
        have := hmax y.1 ⟨some y.2.1, y.2.2⟩ hyslot hocc
        simpa using this
      rcases lt_or_eq_of_le hle with hlt | heqts
      · exact Or.inl hlt
      · refine Or.inr ⟨heqts, ?_⟩
        by_contra hnk
        have hyk' : y.1 < k := by
          simp only at hnk
          omega
        have hcon := hfirst y.1 ⟨some y.2.1, y.2.2⟩ hyk' hyslot hocc
        simp only at hcon
        exact absurd (heqts ▸ hcon) (lt_irrefl ts)
    · rw [hd]
      intro x hx
      rcases List.mem_cons.mp hx with h | h
      · subst h; exact hks
      · exact (hmem1 x h).1

/-- C8: for every well-formed buffer with `N = size` occupied slots, `N`
successive `pick_lifo_d2b2` calls each return a post, the extraction order is
non-increasing in `enqueued_at` with first-found slot-index tie-break, and
the buffer is empty after exactly `N` calls. -/
theorem C8_pick_newest_drains (b : Buffer) (hB : b.WFB) (hT : b.WFT) :
    (∀ r ∈ (b.pickN b.size).1, r.isSome = true) ∧
    (b.pickN b.size).1 = (b.drainSeq b.size).map (fun x => some x.2.1) ∧
    (b.drainSeq b.size).length = b.size ∧
    List.Pairwise drainRel (b.drainSeq b.size) ∧
    (b.pickN b.size).2.size = 0 ∧ (b.pickN b.size).2.is_empty = true := by
  obtain ⟨hmap, hlen, _, _, hsz, _, _, hpair, _⟩ :=
    Buffer.drain_spec b.size b hB hT rfl
  refine ⟨?_, hmap, hlen, hpair, hsz, ?_⟩
  · intro r hr
    rw [hmap] at hr
    obtain ⟨x, _, rfl⟩ := List.mem_map.mp hr
    rfl
  · simp [Buffer.is_empty, hsz]

/-- Concrete witness buffer for C8: three slots, two occupied with equal
timestamps (exercising the slot-index tie-break). -/
def bufW : Buffer :=
  ⟨3, [⟨some ⟨1, 1, 0⟩, 5⟩, ⟨none, 0⟩, ⟨some ⟨2, 2, 0⟩, 5⟩], 2, 2⟩

theorem C8_pick_newest_drains_witness :
    (∀ r ∈ (bufW.pickN bufW.size).1, r.isSome = true) ∧
    (bufW.pickN bufW.size).1 = (bufW.drainSeq bufW.size).map (fun x => some x.2.1) ∧
    (bufW.drainSeq bufW.size).length = bufW.size ∧
    List.Pairwise drainRel (bufW.drainSeq bufW.size) ∧
    (bufW.pickN bufW.size).2.size = 0 ∧ (bufW.pickN bufW.size).2.is_empty = true :=
  C8_pick_newest_drains bufW (by unfold Buffer.WFB; decide) (by unfold Buffer.WFT; decide)

/-! ## Device-pool round-robin selection (C10) -/

theorem DevicePool.pickLoop_all_busy (devs : List Device) (n : Nat)
    (h : ∀ d ∈ devs, d.busy = true) :
    ∀ (rem i : Nat), pickLoop devs n i rem = none := by
  intro rem
  induction rem with
  | zero => intro i; rfl
  | succ rem ih =>
    intro i
    unfold pickLoop
    cases hd : devs[i]? with
    | none => rfl
    | some d =>
      have hbusy := h d (List.getElem?_mem hd)
      have hfree : d.is_free = false := by simp [Device.is_free, hbusy]
      show (if d.is_free = true then some i else pickLoop devs n ((i + 1) % n) rem) = none
      rw [hfree]
      simpa using ih ((i + 1) % n)

theorem DevicePool.pickLoop_some_free (devs : List Device) (n : Nat) :
    ∀ (rem i j : Nat), pickLoop devs n i rem = some j →
      ∃ d, devs[j]? = some d ∧ d.is_free = true := by
  intro rem
  induction rem with
  | zero => intro i j h; cases h
  | succ rem ih =>
    intro i j h
    unfold pickLoop at h
    cases hd : devs[i]? with
    | none => rw [hd] at h; cases h
    | some d =>
      rw [hd] at h
      have h' : (if d.is_free = true then some i
          else pickLoop devs n ((i + 1) % n) rem) = some j := h
      by_cases hf : d.is_free = true
      · rw [if_pos hf] at h'
        cases h'
        exact ⟨d, hd, hf⟩
      · rw [if_neg hf] at h'
        exact ih ((i + 1) % n) j h'

/-- C10: frame property of `pick_cyclic_d2p2`.  With every device busy it
returns `none` and leaves the pool (cursor included) untouched; when it
returns a device index, the only state change is the cursor moving to the
slot just past the returned device, which was free. -/
theorem C10_pick_cyclic_frame (p : DevicePool) :
    ((∀ d ∈ p.devices, d.busy = true) → p.pick_cyclic_d2p2 = (none, p)) ∧
    (∀ (i : Nat) (p1 : DevicePool), p.pick_cyclic_d2p2 = (some i, p1) →
      p1.devices = p.devices ∧ p1.cursor = (i + 1) % p.devices.length ∧
      ∃ d, p.devices[i]? = some d ∧ d.is_free = true) := by
  constructor
  · intro h
    have hpl := DevicePool.pickLoop_all_busy p.devices p.devices.length h
      p.devices.length (if p.devices.length = 0 then 0 else p.cursor % p.devices.length)
    simp only [DevicePool.pick_cyclic_d2p2, hpl]
  · intro i p1 h
    simp only [DevicePool.pick_cyclic_d2p2] at h
    cases hpl : DevicePool.pickLoop p.devices p.devices.length
        (if p.devices.length = 0 then 0 else p.cursor % p.devices.length)
        p.devices.length with
    | none => rw [hpl] at h; cases h
    | some i' =>
      rw [hpl] at h
      have hi : i' = i := by
        have hfst := congrArg Prod.fst h
        simpa using hfst
      subst hi
      have hp1 : p1 = { p with cursor := (i' + 1) % p.devices.length } := by
        have hsnd := congrArg Prod.snd h
        simpa using hsnd.symm
      subst hp1
      exact ⟨rfl, rfl, DevicePool.pickLoop_some_free p.devices p.devices.length _ _ i' hpl⟩

/-- Closed witness for C10: a one-device pool, busy. -/
theorem C10_pick_cyclic_frame_witness :
    (⟨[⟨0, true, none⟩], 0⟩ : DevicePool).pick_cyclic_d2p2 =
      (none, (⟨[⟨0, true, none⟩], 0⟩ : DevicePool)) :=
  (C10_pick_cyclic_frame ⟨[⟨0, true, none⟩], 0⟩).1 (by decide)

/-! ## Ring-probe insertion and oldest-eviction (C9) -/

/-- Probe step on an empty slot: the post is written there. -/
theorem Buffer.probeLoop_hit (post : Post) (now : Rat) (idx fuel : Nat) (b : Buffer)
    (en : Rat) (hs0 : b.slots[idx]? = some ⟨none, en⟩) :
    probeLoop post now idx (fuel+1) b =
      (true, { b with slots := b.slots.set idx ⟨some post, now⟩,
                      last_index := (idx : Int), size := b.size + 1 }) := by
  unfold probeLoop
  rw [hs0]

/-- Probe step on an occupied slot: advance circularly. -/
theorem Buffer.probeLoop_miss (post : Post) (now : Rat) (idx fuel : Nat) (b : Buffer)
    (q : Post) (en : Rat) (hs0 : b.slots[idx]? = some ⟨some q, en⟩) :
    probeLoop post now idx (fuel+1) b
      = probeLoop post now ((idx + 1) % b.capacity) fuel b := by
  conv_lhs => unfold probeLoop
  rw [hs0]

/-- The circular probe finds the empty slot it is promised within its fuel:
if some position `(idx + t) % capacity` with `t < fuel` holds an empty slot,
the scan writes the post into the first empty slot reached. -/
theorem Buffer.probeLoop_spec (post : Post) (now : Rat) :
    ∀ (fuel : Nat) (idx : Nat) (b : Buffer),
      b.slots.length = b.capacity → idx < b.capacity →
      (∃ t < fuel, ∃ s, b.slots[(idx + t) % b.capacity]? = some s ∧ s.post = none) →
      ∃ (j : Nat) (s : BufferSlot), b.slots[j]? = some s ∧ s.post = none ∧
        probeLoop post now idx fuel b =
          (true, { b with slots := b.slots.set j ⟨some post, now⟩,
                          last_index := (j : Int), size := b.size + 1 }) := by
  intro fuel
  induction fuel with
  | zero =>
    intro idx b _ _ hex
    obtain ⟨t, ht, _⟩ := hex
    exact absurd ht (Nat.not_lt_zero t)
  | succ fuel ih =>
    intro idx b hlen hidx hex
    have hcpos : 0 < b.capacity := by omega
    have hidx' : idx < b.slots.length := by rw [hlen]; exact hidx
    obtain ⟨s0, hs0x⟩ : ∃ s0 : BufferSlot, b.slots[idx]? = some s0 :=
      ⟨b.slots[idx], (List.getElem?_eq_some_iff).mpr ⟨hidx', rfl⟩⟩
    cases hpo : s0.post with
    | none =>
      refine ⟨idx, s0, hs0x, hpo, ?_⟩
      have hval : s0 = ⟨none, s0.enqueued_at⟩ := by
        cases s0
        simp only at hpo
        simp [hpo]
      rw [hval] at hs0x
      exact Buffer.probeLoop_hit post now idx fuel b s0.enqueued_at hs0x
    | some q =>
      have hval : s0 = ⟨some q, s0.enqueued_at⟩ := by
        cases s0
        simp only at hpo
        simp [hpo]
      rw [hval] at hs0x
      obtain ⟨t, ht, s, hst, hsp⟩ := hex
      have ht0 : t ≠ 0 := by
        intro h0
        subst h0
        rw [Nat.add_zero, Nat.mod_eq_of_lt hidx, hs0x] at hst
        cases hst
        cases hsp
      obtain ⟨t', rfl⟩ := Nat.exists_eq_succ_of_ne_zero ht0
      have hex' : ∃ t < fuel, ∃ s,
          b.slots[(((idx + 1) % b.capacity) + t) % b.capacity]? = some s ∧ s.post = none := by
        refine ⟨t', by omega, s, ?_, hsp⟩
        have harith : (((idx + 1) % b.capacity) + t') % b.capacity
            = (idx + (t' + 1)) % b.capacity := by
          rw [Nat.mod_add_mod]
          congr 1
          omega
        rw [harith]
        exact hst
      obtain ⟨j, s2, hj, hjp, hrec⟩ :=
        ih ((idx + 1) % b.capacity) b hlen (Nat.mod_lt _ hcpos) hex'
      refine ⟨j, s2, hj, hjp, ?_⟩
      rw [Buffer.probeLoop_miss post now idx fuel b q s0.enqueued_at hs0x, hrec]

/-- `enqueue_d1031` succeeds on every well-formed non-full buffer, adding the
post at timestamp `now` into some previously empty slot and preserving
well-formedness. -/
theorem Buffer.enqueue_spec (b : Buffer) (post : Post) (now : Rat)
    (hB : b.WFB) (hlt : b.size < b.capacity) :
    ∃ (j : Nat) (s : BufferSlot), b.slots[j]? = some s ∧ s.post = none ∧
      b.enqueue_d1031 post now =
        (true, { b with slots := b.slots.set j ⟨some post, now⟩,
                        last_index := (j : Int), size := b.size + 1 }) ∧
      ({ b with slots := b.slots.set j ⟨some post, now⟩,
                last_index := (j : Int), size := b.size + 1 } : Buffer).WFB ∧
      (b.WFT → 0 ≤ now →
        ({ b with slots := b.slots.set j ⟨some post, now⟩,
                  last_index := (j : Int), size := b.size + 1 } : Buffer).WFT) ∧
      List.Perm
        ({ b with slots := b.slots.set j ⟨some post, now⟩,
                  last_index := (j : Int), size := b.size + 1 } : Buffer).occList
        ((post, now) :: b.occList) := by
  have hcpos : 0 < b.capacity := by omega
  have hnotfull : b.is_full = false := by
    simp [Buffer.is_full]
    omega
  have hstart : ((b.last_index + 1) % (b.capacity : Int)).toNat < b.capacity := by
    have h1 : 0 ≤ (b.last_index + 1) % (b.capacity : Int) :=
      Int.emod_nonneg _ (by omega)
    have h2 : (b.last_index + 1) % (b.capacity : Int) < (b.capacity : Int) :=
      Int.emod_lt_of_pos _ (by exact_mod_cast hcpos)
    omega
  have hempty : ∃ (k : Nat), k < b.capacity ∧
      ∃ s, b.slots[k]? = some s ∧ s.post = none := by
    have hcount : b.slots.countP slotOcc < b.slots.length := by
      rw [hB.1, ← hB.2]
      exact hlt
    have hexists : ∃ s ∈ b.slots, ¬ slotOcc s = true := by
      by_contra hno
      push_neg at hno
      have := List.countP_eq_length.mpr hno
      omega
    obtain ⟨s, hs, hnocc⟩ := hexists
    obtain ⟨k, hk⟩ := List.getElem?_of_mem hs
    have hklt : k < b.capacity := by
      rw [← hB.1]
      exact (List.getElem?_eq_some_iff.mp hk).1
    have hps : s.post = none := by
      cases hps : s.post with
      | none => rfl
      | some q => exact absurd (by simp [slotOcc, hps]) hnocc
    exact ⟨k, hklt, s, hk, hps⟩
  obtain ⟨k, hkcap, s, hks, hkp⟩ := hempty
  set start : Nat := ((b.last_index + 1) % (b.capacity : Int)).toNat with hstartdef
  have hex : ∃ t < b.capacity, ∃ s,
      b.slots[(start + t) % b.capacity]? = some s ∧ s.post = none := by
    refine ⟨(k + b.capacity - start) % b.capacity, Nat.mod_lt _ hcpos, s, ?_, hkp⟩
    have harith : (start + (k + b.capacity - start) % b.capacity) % b.capacity = k := by
      rw [Nat.add_mod_mod]
      have h1 : start + (k + b.capacity - start) = k + b.capacity := by omega
      rw [h1, Nat.add_mod_right, Nat.mod_eq_of_lt hkcap]
    rw [harith]
    exact hks
  obtain ⟨j, s2, hj, hjp, hprobe⟩ :=
    Buffer.probeLoop_spec post now b.capacity start b hB.1 hstart hex
  obtain ⟨hjlt, hjval⟩ := List.getElem?_eq_some_iff.mp hj
  have henq : b.enqueue_d1031 post now =
      (true, { b with slots := b.slots.set j ⟨some post, now⟩,
                      last_index := (j : Int), size := b.size + 1 }) := by
    unfold enqueue_d1031
    rw [hnotfull]
    simpa using hprobe
  have hcnt : (b.slots.set j ⟨some post, now⟩).countP slotOcc
      = b.slots.countP slotOcc + 1 := by
    rw [List.countP_set slotOcc b.slots j ⟨some post, now⟩ hjlt, hjval]
    simp [slotOcc, hjp]
  refine ⟨j, s2, hj, hjp, henq, ?_, ?_, ?_⟩
  · constructor
    · simpa using hB.1
    · simp only [hcnt, ← hB.2]
  · intro hT hnow s3 hs3 ho3
    rcases List.mem_or_eq_of_mem_set hs3 with h3 | h3
    · exact hT s3 h3 ho3
    · subst h3
      simpa using hnow
  · have hdecomp : b.slots = b.slots.take j ++ b.slots[j] :: b.slots.drop (j+1) := by
      conv_lhs => rw [← List.take_append_drop j b.slots]
      rw [List.getElem_cons_drop b.slots j hjlt]
    have hset : b.slots.set j ⟨some post, now⟩
        = b.slots.take j ++ ⟨some post, now⟩ :: b.slots.drop (j+1) := by
      rw [List.set_eq_take_append_cons_drop, if_pos hjlt]
    have hfL : (fun (s : BufferSlot) => s.post.map (fun q => (q, s.enqueued_at)))
        ⟨some post, now⟩ = some (post, now) := rfl
    have hfN : (fun (s : BufferSlot) => s.post.map (fun q => (q, s.enqueued_at))) s2
        = none := by simp [hjp]
    show List.Perm ((b.slots.set j ⟨some post, now⟩).filterMap
        (fun s => s.post.map (fun q => (q, s.enqueued_at)))) _
    rw [hset]
    conv_rhs => rw [show b.occList = b.slots.filterMap
        (fun s => s.post.map (fun q => (q, s.enqueued_at))) from rfl]
    conv_rhs => rw [hdecomp, hjval]
    rw [List.filterMap_append, List.filterMap_append]
    have hL : List.filterMap (fun s => Option.map (fun q => (q, s.enqueued_at)) s.post)
        ((⟨some post, now⟩ : BufferSlot) :: b.slots.drop (j+1))
        = (post, now) :: List.filterMap
            (fun s => Option.map (fun q => (q, s.enqueued_at)) s.post)
            (b.slots.drop (j+1)) := by
      simp [List.filterMap_cons]
    have hR : List.filterMap (fun s => Option.map (fun q => (q, s.enqueued_at)) s.post)
        (s2 :: b.slots.drop (j+1))
        = List.filterMap (fun s => Option.map (fun q => (q, s.enqueued_at)) s.post)
            (b.slots.drop (j+1)) := by
      simp [List.filterMap_cons, hjp]
    rw [hL, hR]
    exact List.perm_middle

/-- Validity transfer through the argmin scan: any property holding for the
accumulator and for every occupied slot (at its absolute index) holds for the
scan result. -/
theorem Buffer.oldestLoop_valid (Q : Rat × Nat → Prop) :
    ∀ (l : List BufferSlot) (i : Nat) (best : Option (Rat × Nat)),
      (∀ r, best = some r → Q r) →
      (∀ (k : Nat) (s : BufferSlot), l[k]? = some s → s.post.isSome = true →
        Q (s.enqueued_at, i + k)) →
      ∀ r, oldestLoop l i best = some r → Q r := by
  intro l
  induction l with
  | nil =>
    intro i best hbest _ r h
    exact hbest r h
  | cons s0 rest ih =>
    intro i best hbest hocc r h
    have hocc' : ∀ (k : Nat) (s : BufferSlot), rest[k]? = some s → s.post.isSome = true →
        Q (s.enqueued_at, (i+1) + k) := by
      intro k s hk hs
      have hq := hocc (k+1) s (by simpa using hk) hs
      have harith : i + (k+1) = (i+1) + k := by omega
      rw [harith] at hq
      exact hq
    have h0 : (s0 :: rest)[0]? = some s0 := by simp
    cases hpo : s0.post with
    | none =>
      have hstep : oldestLoop (s0 :: rest) i best = oldestLoop rest (i+1) best := by
        conv_lhs => unfold oldestLoop
        rw [hpo]
      rw [hstep] at h
      exact ih (i+1) best hbest hocc' r h
    | some q =>
      have hQ0 : Q (s0.enqueued_at, i) := by
        have hq := hocc 0 s0 h0 (by simp [hpo])
        simpa using hq
      cases best with
      | none =>
        have hstep : oldestLoop (s0 :: rest) i none
            = oldestLoop rest (i+1) (some (s0.enqueued_at, i)) := by
          conv_lhs => unfold oldestLoop
          rw [hpo]
        rw [hstep] at h
        refine ih (i+1) (some (s0.enqueued_at, i)) ?_ hocc' r h
        intro r0 hr0
        cases hr0
        exact hQ0
      | some acc =>
        obtain ⟨t, jj⟩ := acc
        have hstep : oldestLoop (s0 :: rest) i (some (t, jj))
            = oldestLoop rest (i+1)
                (if s0.enqueued_at < t then some (s0.enqueued_at, i) else some (t, jj)) := by
          conv_lhs => unfold oldestLoop
          rw [hpo]
        rw [hstep] at h
        by_cases hcmp : s0.enqueued_at < t
        · rw [if_pos hcmp] at h
          refine ih (i+1) (some (s0.enqueued_at, i)) ?_ hocc' r h
          intro r0 hr0
          cases hr0
          exact hQ0
        · rw [if_neg hcmp] at h
          refine ih (i+1) (some (t, jj)) ?_ hocc' r h
          intro r0 hr0
          cases hr0
          exact hbest (t, jj) rfl

/-- Once the argmin accumulator is set, the scan always returns a result. -/
theorem Buffer.oldestLoop_some_acc :
    ∀ (l : List BufferSlot) (i : Nat) (r0 : Rat × Nat),
      ∃ r, oldestLoop l i (some r0) = some r := by
  intro l
  induction l with
  | nil => intro i r0; exact ⟨r0, rfl⟩
  | cons s0 rest ih =>
    intro i r0
    obtain ⟨t, jj⟩ := r0
    cases hpo : s0.post with
    | none =>
      have hstep : oldestLoop (s0 :: rest) i (some (t, jj))
          = oldestLoop rest (i+1) (some (t, jj)) := by
        conv_lhs => unfold oldestLoop
        rw [hpo]
      rw [hstep]
      exact ih (i+1) (t, jj)
    | some q =>
      have hstep : oldestLoop (s0 :: rest) i (some (t, jj))
          = oldestLoop rest (i+1)
              (if s0.enqueued_at < t then some (s0.enqueued_at, i) else some (t, jj)) := by
        conv_lhs => unfold oldestLoop
        rw [hpo]
      rw [hstep]
      by_cases hcmp : s0.enqueued_at < t
      · rw [if_pos hcmp]; exact ih (i+1) (s0.enqueued_at, i)
      · rw [if_neg hcmp]; exact ih (i+1) (t, jj)

/-- With an occupied slot present, the argmin scan returns a result. -/
theorem Buffer.oldestLoop_occupied_some :
    ∀ (l : List BufferSlot) (i : Nat) (best : Option (Rat × Nat)),
      (∃ s ∈ l, s.post.isSome = true) → ∃ r, oldestLoop l i best = some r := by
  intro l
  induction l with
  | nil =>
    intro i best h
    obtain ⟨s, hs, _⟩ := h
    cases hs
  | cons s0 rest ih =>
    intro i best h
    cases hpo : s0.post with
    | some q =>
      cases best with
      | none =>
        have hstep : oldestLoop (s0 :: rest) i none
            = oldestLoop rest (i+1) (some (s0.enqueued_at, i)) := by
          conv_lhs => unfold oldestLoop
          rw [hpo]
        rw [hstep]
        exact Buffer.oldestLoop_some_acc rest (i+1) (s0.enqueued_at, i)
      | some acc =>
        obtain ⟨t, jj⟩ := acc
        have hstep : oldestLoop (s0 :: rest) i (some (t, jj))
            = oldestLoop rest (i+1)
                (if s0.enqueued_at < t then some (s0.enqueued_at, i) else some (t, jj)) := by
          conv_lhs => unfold oldestLoop
          rw [hpo]
        rw [hstep]
        by_cases hcmp : s0.enqueued_at < t
        · rw [if_pos hcmp]; exact Buffer.oldestLoop_some_acc rest (i+1) (s0.enqueued_at, i)
        · rw [if_neg hcmp]; exact Buffer.oldestLoop_some_acc rest (i+1) (t, jj)
    | none =>
      have hstep : oldestLoop (s0 :: rest) i best = oldestLoop rest (i+1) best := by
        conv_lhs => unfold oldestLoop
        rw [hpo]
      rw [hstep]
      refine ih (i+1) best ?_
      obtain ⟨s, hs, hocc⟩ := h
      rcases List.mem_cons.mp hs with hh | hh
      · subst hh
        rw [hpo] at hocc
        cases hocc
      · exact ⟨s, hh, hocc⟩

/-- `drop_oldest_d10o3` on a well-formed non-empty buffer always evicts an
occupied slot, clearing it and decrementing `size`. -/
theorem Buffer.drop_oldest_spec (b : Buffer) (hB : b.WFB) (hsz : b.size ≠ 0) :
    ∃ (j : Nat) (q : Post) (ts : Rat), b.slots[j]? = some ⟨some q, ts⟩ ∧
      b.drop_oldest_d10o3 =
        (some q, { b with slots := b.slots.set j ⟨none, 0⟩, size := b.size - 1 }) ∧
      ({ b with slots := b.slots.set j ⟨none, 0⟩, size := b.size - 1 } : Buffer).WFB := by
  have hcnt : b.slots.countP slotOcc ≠ 0 := fun h0 => hsz (hB.2.trans h0)
  have hex : ∃ s ∈ b.slots, s.post.isSome = true := by
    obtain ⟨s, hs, hP⟩ := List.countP_pos_iff.mp (Nat.pos_of_ne_zero hcnt)
    exact ⟨s, hs, hP⟩
  obtain ⟨r, hr⟩ := Buffer.oldestLoop_occupied_some b.slots 0 none hex
  have hQ : ∃ s, b.slots[r.2]? = some s ∧ s.post.isSome = true := by
    refine Buffer.oldestLoop_valid (fun r => ∃ s, b.slots[r.2]? = some s ∧ s.post.isSome = true)
      b.slots 0 none ?_ ?_ r hr
    · intro r0 h0
      cases h0
    · intro k s hk hs
      exact ⟨s, by simpa using hk, hs⟩
  obtain ⟨s, hs, hocc⟩ := hQ
  obtain ⟨q, hq⟩ := Option.isSome_iff_exists.mp hocc
  have hsval : s = ⟨some q, s.enqueued_at⟩ := by
    cases s
    simp only at hq
    simp [hq]
  rw [hsval] at hs
  obtain ⟨hjlt, hjval⟩ := List.getElem?_eq_some_iff.mp hs
  have hdrop : b.drop_oldest_d10o3 =
      (some q, { b with slots := b.slots.set r.2 ⟨none, 0⟩, size := b.size - 1 }) := by
    unfold drop_oldest_d10o3
    rw [hr]
    show (match b.slots[r.2]? with
      | none => (none, b)
      | some s => (s.post,
          { b with slots := b.slots.set r.2 ⟨none, 0⟩, size := b.size - 1 })) = _
    rw [hs]
  have hcount : (b.slots.set r.2 ⟨none, 0⟩).countP slotOcc
      = b.slots.countP slotOcc - 1 := by
    rw [List.countP_set slotOcc b.slots r.2 ⟨none, 0⟩ hjlt, hjval]
    simp [slotOcc]
  refine ⟨r.2, q, s.enqueued_at, hs, hdrop, ?_⟩
  constructor
  · simpa using hB.1
  · simp only [hcount, ← hB.2]

/-- Result shape of `handle_publish` on the buffer-admission path: the
status/queued flags come from the enqueue attempted after the conditional
eviction, and the evicted id from `drop_oldest_d10o3`. -/
theorem handle_publish_buffer_path (s : SimState) (post : Post) (now : Rat)
    (hpath : s.direct_assign = false ∨ (s.pool.pick_cyclic_d2p2).1 = none) :
    (handle_publish s post now).1 =
      ⟨if ((if s.buffer.is_full then (s.buffer.drop_oldest_d10o3).2
            else s.buffer).enqueue_d1031 post now).1 then 202 else 500,
       ((if s.buffer.is_full then (s.buffer.drop_oldest_d10o3).2
            else s.buffer).enqueue_d1031 post now).1,
       (if s.buffer.is_full then (s.buffer.drop_oldest_d10o3).1.map Post.id else none),
       none⟩ := by
  have hdirNone :
      (if s.direct_assign then
        match s.pool.pick_cyclic_d2p2 with
        | (some i, pool1) => some (i, pool1)
        | (none, _) => none
      else none) = (none : Option (Nat × DevicePool)) := by
    by_cases hda : s.direct_assign = true
    · rcases hpath with hfa | hpk
      · rw [hfa] at hda; cases hda
      · rw [if_pos hda]
        cases hpick : s.pool.pick_cyclic_d2p2 with
        | mk o pool1 =>
          rw [hpick] at hpk
          simp only at hpk
          subst hpk
          rfl
    · have : s.direct_assign = false := by
        cases hv : s.direct_assign
        · rfl
        · rw [hv] at hda; exact absurd rfl hda
      rw [this]
      rfl
  unfold handle_publish
  rw [hdirNone]
  by_cases hfull : s.buffer.is_full = true
  · simp only [hfull, if_true]
    cases hdrop : s.buffer.drop_oldest_d10o3 with
    | mk o b1 =>
      cases o with
      | none =>
        simp only [SimState.addLog]
        cases henq : b1.enqueue_d1031 post now with
        | mk ok b2 => cases ok <;> simp [hdrop, henq]
      | some dropped =>
        simp only [SimState.addLog]
        simp
  · have hfull' : s.buffer.is_full = false := by
      cases hv : s.buffer.is_full
      · rfl
      · exact absurd hv hfull
    rw [hfull']
    simp only [Bool.false_eq_true, if_false]

/-- C9: on the buffer-admission path (direct mode disabled, or the direct
branch found no free device), `handle_publish` never reports the hard-failure
status for a well-formed buffer of capacity ≥ 1: a full buffer is first
relieved by `drop_oldest_d10o3` (which always succeeds and frees a slot), the
subsequent `enqueue_d1031` always succeeds, and the result is status 202 with
`queued = true` — status 500 is unreachable on this path. -/
theorem C9_no_hard_failure (s : SimState) (post : Post) (now : Rat)
    (hcap : 1 ≤ s.buffer.capacity) (hB : s.buffer.WFB)
    (hpath : s.direct_assign = false ∨ (s.pool.pick_cyclic_d2p2).1 = none) :
    (handle_publish s post now).1.status = 202 ∧
    (handle_publish s post now).1.queued = true ∧
    (s.buffer.is_full = true →
      ((handle_publish s post now).1.evicted_post_id).isSome = true) := by
  have hshape := handle_publish_buffer_path s post now hpath
  have hok : ((if s.buffer.is_full then (s.buffer.drop_oldest_d10o3).2
      else s.buffer).enqueue_d1031 post now).1 = true := by
    by_cases hfull : s.buffer.is_full = true
    · have hszcap : s.buffer.size = s.buffer.capacity := by
        have hf := hfull
        simp only [Buffer.is_full, decide_eq_true_eq] at hf
        exact hf
      have hsz : s.buffer.size ≠ 0 := by omega
      obtain ⟨j, q, ts, hjs, hdrop, hWFB1⟩ := Buffer.drop_oldest_spec s.buffer hB hsz
      have hsz1 : s.buffer.size - 1 < s.buffer.capacity := by omega
      obtain ⟨j2, s2, _, _, henq, _, _, _⟩ :=
        Buffer.enqueue_spec _ post now hWFB1 hsz1
      rw [if_pos hfull, hdrop]
      rw [henq]
    · have hszlt : s.buffer.size < s.buffer.capacity := by
        have hne : s.buffer.size ≠ s.buffer.capacity := by
          intro hcon
          have hft : s.buffer.is_full = true := by
            simp [Buffer.is_full, hcon]
          exact hfull hft
        have hle : s.buffer.size ≤ s.buffer.capacity := by
          rw [hB.2, ← hB.1]
          exact List.countP_le_length slotOcc
        omega
      obtain ⟨j2, s2, _, _, henq, _, _, _⟩ :=
        Buffer.enqueue_spec s.buffer post now hB hszlt
      rw [if_neg hfull, henq]
  refine ⟨?_, ?_, ?_⟩
  · rw [hshape]
    simp [hok]
  · rw [hshape]
    simpa using hok
  · intro hfull
    rw [hshape]
    have hszcap : s.buffer.size = s.buffer.capacity := by
      have hf := hfull
      simp only [Buffer.is_full, decide_eq_true_eq] at hf
      exact hf
    have hsz : s.buffer.size ≠ 0 := by omega
    obtain ⟨j, q, ts, hjs, hdrop, hWFB1⟩ := Buffer.drop_oldest_spec s.buffer hB hsz
    simp [hfull, hdrop]

/-- Concrete witness state for C9: capacity-1 buffer, already full, direct
mode off. -/
def simW9 : SimState :=
  { current_time := 0
    calendar := []
    buffer := ⟨1, [⟨some ⟨1, 1, 0⟩, 0⟩], 0, 1⟩
    pool := ⟨[⟨0, false, none⟩], 0⟩
    next_post_id := 2
    generated := 1
    queued := 1
    served := 0
    evicted := 0
    direct_stat := 0
    direct_assign := false
    packet := none
    rng := fun _ => 0
    rngIdx := 0
    log_output := [] }

theorem C9_no_hard_failure_witness :
    (handle_publish simW9 ⟨2, 1, 1⟩ 1).1.status = 202 ∧
    (handle_publish simW9 ⟨2, 1, 1⟩ 1).1.queued = true ∧
    (simW9.buffer.is_full = true →
      ((handle_publish simW9 ⟨2, 1, 1⟩ 1).1.evicted_post_id).isSome = true) :=
  C9_no_hard_failure simW9 ⟨2, 1, 1⟩ 1 (by decide)
    (by unfold Buffer.WFB; decide) (Or.inl rfl)

/-! ## C4: the direct-assignment statistic is never incremented -/

/-- C4 (code bug): with `direct = true`, one device, one source, processing
the first arrival assigns the post directly (buffer stays empty, `queued`
stays 0, the device becomes busy) — but the `direct` statistics counter is
never incremented anywhere in engine.py (`stats["direct"]` is initialized to
0 and no statement updates it), so it stays 0 while `generated` is 1,
contradicting the claimed `direct = generated`. -/
theorem C4_direct_stat_never_incremented :
    (stepState (startState ⟨1, 1, 1, true⟩ (fun _ => 1))).generated = 1 ∧
    (stepState (startState ⟨1, 1, 1, true⟩ (fun _ => 1))).queued = 0 ∧
    (stepState (startState ⟨1, 1, 1, true⟩ (fun _ => 1))).buffer.size = 0 ∧
    ((stepState (startState ⟨1, 1, 1, true⟩ (fun _ => 1))).pool.devices.map
      (fun d => d.busy)) = [true] ∧
    (stepState (startState ⟨1, 1, 1, true⟩ (fun _ => 1))).direct_stat = 0 ∧
    (stepState (startState ⟨1, 1, 1, true⟩ (fun _ => 1))).direct_stat ≠
      (stepState (startState ⟨1, 1, 1, true⟩ (fun _ => 1))).generated := by
  refine ⟨rfl, rfl, rfl, rfl, rfl, ?_⟩
  decide

/-! ## C1: the bulk-run operation (modelled from the spec) -/

/-- `runLoop` is a guarded iteration of `step()`: it performs `k ≤ max_steps`
steps, each taken only while the calendar is non-empty and the earliest event
does not lie beyond `max_time`, and stops as soon as the budget is exhausted,
the calendar empties, or the clock would exceed `max_time`. -/
theorem runLoop_spec (T : Rat) :
    ∀ (n : Nat) (s : SimState), ∃ k, k ≤ n ∧
      runLoop n T s = stepState^[k] s ∧
      (k = n ∨ (stepState^[k] s).calendar = [] ∨
        (∃ e, (stepState^[k] s).calendar.head? = some e ∧ T < e.time)) ∧
      (∀ j, j < k → ∃ e, (stepState^[j] s).calendar.head? = some e ∧ ¬ T < e.time) := by
  intro n
  induction n with
  | zero =>
    intro s
    exact ⟨0, le_refl 0, rfl, Or.inl rfl, by intro j hj; omega⟩
  | succ n ih =>
    intro s
    cases hh : s.calendar.head? with
    | none =>
      refine ⟨0, by omega, ?_, ?_, by intro j hj; omega⟩
      · unfold runLoop
        rw [hh]
        rfl
      · right; left
        simpa using List.head?_eq_none_iff.mp hh
    | some e =>
      by_cases hT : T < e.time
      · refine ⟨0, by omega, ?_, ?_, by intro j hj; omega⟩
        · unfold runLoop
          rw [hh]
          show (if T < e.time then s else runLoop n T (stepState s)) = stepState^[0] s
          rw [if_pos hT]
          rfl
        · right; right
          exact ⟨e, hh, hT⟩
      · obtain ⟨k, hk, heq, hstop, hprog⟩ := ih (stepState s)
        refine ⟨k + 1, by omega, ?_, ?_, ?_⟩
        · have hunf : runLoop (n+1) T s = runLoop n T (stepState s) := by
            conv_lhs => unfold runLoop
            rw [hh]
            show (if T < e.time then s else runLoop n T (stepState s))
              = runLoop n T (stepState s)
            rw [if_neg hT]
          rw [hunf, heq, Function.iterate_succ_apply]
        · rw [Function.iterate_succ_apply]
          rcases hstop with h | h | h
          · left; omega
          · right; left; exact h
          · right; right; exact h
        · intro j hj
          cases j with
          | zero => exact ⟨e, hh, hT⟩
          | succ j' =>
            rw [Function.iterate_succ_apply]
            exact hprog j' (by omega)

/-- C1 (modelled from the spec): `run_automatic(max_steps, max_time)`
repeatedly calls `step()` until the step budget is exhausted, the calendar
empties, or the clock would exceed `max_time`, and returns the summary
record whose fields are the statistics of the final state together with
`reject_pct = evicted/generated × 100`, `final_time` and
`buffer_capacity`. -/
theorem C1_run_automatic_spec (s : SimState) (n : Nat) (T : Rat) :
    ∃ k, k ≤ n ∧
      (k = n ∨ (stepState^[k] s).calendar = [] ∨
        (∃ e, (stepState^[k] s).calendar.head? = some e ∧ T < e.time)) ∧
      (∀ j, j < k → ∃ e, (stepState^[j] s).calendar.head? = some e ∧ ¬ T < e.time) ∧
      run_automatic s n T =
        ⟨(stepState^[k] s).generated, (stepState^[k] s).queued,
         (stepState^[k] s).served, (stepState^[k] s).evicted,
         (stepState^[k] s).direct_stat,
         ((stepState^[k] s).evicted : Rat) / ((stepState^[k] s).generated : Rat) * 100,
         (stepState^[k] s).current_time, (stepState^[k] s).buffer.capacity⟩ := by
  obtain ⟨k, hk, heq, hstop, hprog⟩ := runLoop_spec T n s
  refine ⟨k, hk, hstop, hprog, ?_⟩
  show mkSummary (runLoop n T s) = _
  rw [heq]
  rfl

/-! ## Selection Dispatcher: packet formation (C3) and dispatch order (C6) -/

/-- Timestamps assigned by the re-insertion loop: `t0, t0+ε, t0+2ε, …` with
`ε = 1/1000000` (the rational value of the source's `1e-6`). -/
def stamped : List Post → Rat → List (Post × Rat)
  | [], _ => []
  | p :: ps, t => (p, t) :: stamped ps (t + 1/1000000)

/-- The state-level pull loop equals the buffer-level drain: it returns the
posts of the drain sequence and only replaces the buffer by the drained
buffer. -/
theorem drainLoop_eq (n : Nat) :
    ∀ (s : SimState), s.buffer.WFB → s.buffer.WFT → s.buffer.size = n →
      drainLoop (n + 1) s =
        ((s.buffer.drainSeq n).map (fun x => x.2.1),
          { s with buffer := (s.buffer.pickN n).2 }) := by
  induction n with
  | zero =>
    intro s hB hT h0
    have hemp : s.buffer.is_empty = true := by
      simp [Buffer.is_empty, h0]
    unfold drainLoop
    rw [hemp]
    rfl
  | succ n ih =>
    intro s hB hT hsz
    have hne : s.buffer.size ≠ 0 := by omega
    have hemp : s.buffer.is_empty = false := by
      simp [Buffer.is_empty]
      omega
    obtain ⟨k, p, ts, hks, hts0, hpick, hWFB1, hWFT1, hperm1, hmax, hfirst, hscan⟩ :=
      Buffer.pick_lifo_step s.buffer hB hT hne
    set b1 : Buffer :=
      { s.buffer with slots := s.buffer.slots.set k ⟨none, 0⟩,
                      size := s.buffer.size - 1 } with hb1
    have hsz1 : ({ s with buffer := b1 } : SimState).buffer.size = n := by
      simp only [hb1]
      omega
    have hrec := ih { s with buffer := b1 } hWFB1 hWFT1 hsz1
    have hd : s.buffer.drainSeq (n+1) = (k, p, ts) :: b1.drainSeq n := by
      simp only [Buffer.drainSeq, hpick, hscan, Int.toNat_natCast]
    have hpN2 : (s.buffer.pickN (n+1)).2 = (b1.pickN n).2 := by
      simp only [Buffer.pickN, hpick]
    conv_lhs => unfold drainLoop
    rw [hemp]
    show (match s.buffer.pick_lifo_d2b2 with
      | (none, b2) => ([], { s with buffer := b2 })
      | (some q, b2) =>
        match drainLoop (n+1) { s with buffer := b2 } with
        | (ps, s1) => (q :: ps, s1)) = _
    rw [hpick]
    show (match drainLoop (n+1) { s with buffer := b1 } with
      | (ps, s1) => (p :: ps, s1)) = _
    rw [hrec, hd, hpN2]
    rfl

/-- The re-insertion loop enqueues each post once at strictly increasing
timestamps `t0 + jε`, preserving buffer well-formedness; only the buffer and
the log change. -/
theorem reinsertLoop_spec :
    ∀ (ps : List Post) (t0 : Rat) (s : SimState),
      s.buffer.WFB → s.buffer.WFT → 0 ≤ t0 →
      s.buffer.size + ps.length ≤ s.buffer.capacity →
      ∃ (b2 : Buffer) (lg : List LogEntry),
        reinsertLoop ps t0 s = { s with buffer := b2, log_output := lg } ∧
        b2.WFB ∧ b2.WFT ∧ b2.capacity = s.buffer.capacity ∧
        b2.size = s.buffer.size + ps.length ∧
        List.Perm b2.occList (stamped ps t0 ++ s.buffer.occList) := by
  intro ps
  induction ps with
  | nil =>
    intro t0 s hB hT ht0 hcap
    exact ⟨s.buffer, s.log_output, rfl, hB, hT, rfl, by simp, by simp [stamped]⟩
  | cons p ps ih =>
    intro t0 s hB hT ht0 hcap
    have hlt : s.buffer.size < s.buffer.capacity := by
      have := hcap
      simp only [List.length_cons] at this
      omega
    obtain ⟨j, sj, hjs, hjp, henq, hWFB1, hWFT1, hperm1⟩ :=
      Buffer.enqueue_spec s.buffer p t0 hB hlt
    set b1 : Buffer :=
      { s.buffer with slots := s.buffer.slots.set j ⟨some p, t0⟩,
                      last_index := (j : Int), size := s.buffer.size + 1 } with hb1
    have hstep : reinsertLoop (p :: ps) t0 s
        = reinsertLoop ps (t0 + 1/1000000)
            (({ s with buffer := b1 }).addLog .bufferEnqueue (some p.id)
              (some p.source_id) none) := by
      conv_lhs => unfold reinsertLoop
      rw [henq]
    set sMid : SimState := ({ s with buffer := b1 }).addLog .bufferEnqueue (some p.id)
        (some p.source_id) none with hsMid
    have hMidB : sMid.buffer = b1 := rfl
    have hcap1 : sMid.buffer.size + ps.length ≤ sMid.buffer.capacity := by
      rw [hMidB]
      simp only [hb1]
      simp only [List.length_cons] at hcap
      omega
    obtain ⟨b2, lg, heq, hWFB2, hWFT2, hcap2, hsz2, hperm2⟩ :=
      ih (t0 + 1/1000000) sMid (by rw [hMidB]; exact hWFB1)
        (by rw [hMidB]; exact hWFT1 hT ht0) (by positivity) hcap1
    refine ⟨b2, lg, ?_, hWFB2, hWFT2, ?_, ?_, ?_⟩
    · rw [hstep, heq]
      rfl
    · rw [hcap2, hMidB]
    · rw [hsz2, hMidB]
      simp only [hb1]
      simp only [List.length_cons]
      omega
    · refine hperm2.trans ?_
      rw [hMidB]
      show List.Perm (stamped ps (t0 + 1/1000000) ++ b1.occList) _
      have hb1occ : List.Perm b1.occList ((p, t0) :: s.buffer.occList) := hperm1
      refine (List.Perm.append_left _ hb1occ).trans ?_
      show List.Perm (stamped ps (t0 + 1/1000000) ++ (p, t0) :: s.buffer.occList)
        ((p, t0) :: (stamped ps (t0 + 1/1000000) ++ s.buffer.occList))
      exact List.perm_middle

/-- An empty well-formed buffer holds nothing. -/
theorem Buffer.occList_eq_nil (b : Buffer) (hB : b.WFB) (h0 : b.size = 0) :
    b.occList = [] := by
  have hocc0 : b.slots.countP slotOcc = 0 := by
    rw [← hB.2]
    exact h0
  unfold occList
  rw [List.filterMap_eq_nil_iff]
  intro s hs
  have hno := List.countP_eq_zero.mp hocc0 s hs
  simp only [slotOcc] at hno
  cases hpost : s.post with
  | none => simp
  | some p => rw [hpost] at hno; simp at hno

/-- Characterization of the packet-formation phase applied to the post-pick
state: the packet receives exactly the pulled posts of the seed's source (in
pull order), the buffer is left holding the other-source posts re-inserted
in reverse pull order at timestamps `now, now+ε, …`, and neither calendar
nor device pool is touched. -/
theorem formPhase_spec (s' : SimState) (now : Rat) (first : Post)
    (hB : s'.buffer.WFB) (hT : s'.buffer.WFT) (hnow : 0 ≤ now) :
    (let pulled := first :: (s'.buffer.drainSeq s'.buffer.size).map
        (fun x : Nat × Post × Rat => x.2.1)
     let same := pulled.filter (fun q : Post => q.source_id = first.source_id)
     let other := pulled.filter (fun q : Post => ¬ (q.source_id = first.source_id))
     (formPhase s' now first).packet = some ⟨first.source_id, same⟩ ∧
     (formPhase s' now first).buffer.WFB ∧
     (formPhase s' now first).buffer.WFT ∧
     List.Perm (formPhase s' now first).buffer.occList
       (stamped other.reverse now ++
         (s'.buffer.pickN s'.buffer.size).2.occList) ∧
     (formPhase s' now first).calendar = s'.calendar ∧
     (formPhase s' now first).pool = s'.pool ∧
     (formPhase s' now first).current_time = s'.current_time) := by
  have hdl := drainLoop_eq s'.buffer.size
    (s'.addLog .bufferPick (some first.id) (some first.source_id) none) hB hT rfl
  obtain ⟨_, hlen0, hdWFB, hdWFT, hdsz, hdcap, _, _, _⟩ :=
    Buffer.drain_spec s'.buffer.size s'.buffer hB hT rfl
  have hflen : ((first :: (s'.buffer.drainSeq s'.buffer.size).map
      (fun x : Nat × Post × Rat => x.2.1)).filter
      (fun q : Post => ¬ (q.source_id = first.source_id))).length
      ≤ s'.buffer.size := by
    have hstep : ((first :: (s'.buffer.drainSeq s'.buffer.size).map
        (fun x : Nat × Post × Rat => x.2.1)).filter
        (fun q : Post => ¬ (q.source_id = first.source_id)))
        = ((s'.buffer.drainSeq s'.buffer.size).map
            (fun x : Nat × Post × Rat => x.2.1)).filter
            (fun q : Post => ¬ (q.source_id = first.source_id)) := by
      rw [List.filter_cons]
      simp
    rw [hstep]
    have h1 := List.length_filter_le (fun q : Post => ¬ (q.source_id = first.source_id))
      ((s'.buffer.drainSeq s'.buffer.size).map (fun x : Nat × Post × Rat => x.2.1))
    have h2 : ((s'.buffer.drainSeq s'.buffer.size).map
        (fun x : Nat × Post × Rat => x.2.1)).length = s'.buffer.size := by
      rw [List.length_map]
      exact hlen0
    omega
  have hszcap : s'.buffer.size ≤ s'.buffer.capacity := by
    rw [hB.2, ← hB.1]
    exact List.countP_le_length slotOcc
  have hreins := reinsertLoop_spec
    (((first :: (s'.buffer.drainSeq s'.buffer.size).map
        (fun x : Nat × Post × Rat => x.2.1)).filter
        (fun q : Post => ¬ (q.source_id = first.source_id))).reverse) now
    { s'.addLog .bufferPick (some first.id) (some first.source_id) none with
        buffer := (s'.buffer.pickN s'.buffer.size).2 }
    hdWFB hdWFT hnow
    (by
      show (s'.buffer.pickN s'.buffer.size).2.size + _
        ≤ (s'.buffer.pickN s'.buffer.size).2.capacity
      rw [hdsz, hdcap]
      simp only [List.length_reverse, Nat.zero_add]
      omega)
  obtain ⟨b2, lg, hreq, hWFB2, hWFT2, hcap2, hsz2, hperm2⟩ := hreins
  unfold formPhase
  simp only [SimState.addLog] at hdl hreq hperm2 ⊢
  rw [hdl]
  rw [hreq]
  refine ⟨rfl, hWFB2, hWFT2, ?_, rfl, rfl, rfl⟩
  exact hperm2

/-- One packet-formation pass of the Selection Dispatcher on a well-formed
non-empty buffer (shared workhorse behind the packet-formation and
dispatch-order theorems). -/
theorem odf_form_spec (s : SimState) (now : Rat)
    (hB : s.buffer.WFB) (hT : s.buffer.WFT) (hsz : s.buffer.size ≠ 0)
    (hnow : 0 ≤ now) (hform : needForm s.packet = true) :
    ∃ (first : Post) (b1 : Buffer),
      s.buffer.pick_lifo_d2b2 = (some first, b1) ∧
      on_device_freed s now
        = dispatchPhase (formPhase { s with buffer := b1 } now first) ∧
      (let pairs : List (Post × Rat) :=
        (s.buffer.drainSeq s.buffer.size).map (fun x : Nat × Post × Rat => x.2)
       let src := first.source_id
       let samePairs := pairs.filter (fun pr : Post × Rat => pr.1.source_id = src)
       let otherPosts := (pairs.map Prod.fst).filter
         (fun q : Post => ¬ (q.source_id = src))
       let f := formPhase { s with buffer := b1 } now first
       (pairs.map Prod.fst).head? = some first ∧
       f.packet = some ⟨src, samePairs.map Prod.fst⟩ ∧
       List.Pairwise (fun x y : Post × Rat => y.2 ≤ x.2) samePairs ∧
       List.Perm s.buffer.occList pairs ∧
       List.Perm f.buffer.occList (stamped otherPosts.reverse now) ∧
       List.Perm (samePairs.map Prod.fst ++ otherPosts) (pairs.map Prod.fst) ∧
       f.calendar = s.calendar ∧ f.pool = s.pool) := by
  obtain ⟨k, p, ts, hks, hts0, hpick, hWFB1, hWFT1, hperm1, hmax, hfirst, hscan⟩ :=
    Buffer.pick_lifo_step s.buffer hB hT hsz
  set b1 : Buffer :=
    { s.buffer with slots := s.buffer.slots.set k ⟨none, 0⟩,
                    size := s.buffer.size - 1 } with hb1
  obtain ⟨_, hlen0, _, _, _, _, hpermAll, hpairAll, _⟩ :=
    Buffer.drain_spec s.buffer.size s.buffer hB hT rfl
  have hd : s.buffer.drainSeq s.buffer.size
      = (k, p, ts) :: b1.drainSeq (s.buffer.size - 1) := by
    obtain ⟨m, hm⟩ := Nat.exists_eq_succ_of_ne_zero hsz
    rw [hm]
    have hm1 : Nat.succ m - 1 = m := rfl
    rw [hm1]
    have hm2 : s.buffer.size - 1 = m := by omega
    rw [← hm2]
    simp only [Buffer.drainSeq, hpick, hscan, Int.toNat_natCast]
  have hodf : on_device_freed s now
      = dispatchPhase (formPhase { s with buffer := b1 } now p) := by
    unfold on_device_freed
    rw [hform, if_pos rfl, hpick]
  have hd2 : s.buffer.drainSeq s.buffer.size = (k, p, ts) :: b1.drainSeq b1.size := hd
  have hs'buf : ({ s with buffer := b1 } : SimState).buffer = b1 := rfl
  have hfs := formPhase_spec { s with buffer := b1 } now p hWFB1 hWFT1 hnow
  simp only [hs'buf] at hfs
  obtain ⟨hpk, hfWFB, hfWFT, hfocc, hfcal, hfpool, hftime⟩ := hfs
  -- the pulled list equals the drain projection of the original buffer
  have hplist : ((s.buffer.drainSeq s.buffer.size).map
      (fun x : Nat × Post × Rat => x.2)).map Prod.fst
      = p :: (b1.drainSeq b1.size).map
          (fun x : Nat × Post × Rat => x.2.1) := by
    rw [hd2]
    simp [List.map_map]
  obtain ⟨_, hlen1, hd1WFB, _, hd1sz, _, _, _, _⟩ :=
    Buffer.drain_spec b1.size b1 hWFB1 hWFT1 rfl
  have hdrained_occ : (b1.pickN b1.size).2.occList = [] :=
    Buffer.occList_eq_nil _ hd1WFB hd1sz
  refine ⟨p, b1, hpick, hodf, ?_, ?_, ?_, ?_, ?_, ?_, ?_, ?_⟩
  · -- head of pulled list is the seed
    rw [hplist]
    rfl
  · -- the packet contents
    rw [hpk]
    congr 1
    congr 1
    have hmf : (((s.buffer.drainSeq s.buffer.size).map
        (fun x : Nat × Post × Rat => x.2)).filter
        (fun pr : Post × Rat => pr.1.source_id = p.source_id)).map Prod.fst
        = (((s.buffer.drainSeq s.buffer.size).map
            (fun x : Nat × Post × Rat => x.2)).map Prod.fst).filter
            (fun q : Post => q.source_id = p.source_id) := by
      conv_rhs => rw [List.filter_map]
      rfl
    rw [hmf, hplist]
  · -- newest-first order inside the packet
    have hPW : List.Pairwise (fun x y : Post × Rat => y.2 ≤ x.2)
        ((s.buffer.drainSeq s.buffer.size).map (fun x : Nat × Post × Rat => x.2)) := by
      rw [List.pairwise_map]
      refine hpairAll.imp ?_
      intro a b hab
      rcases hab with h | h
      · exact le_of_lt h
      · exact le_of_eq h.1
    exact hPW.filter _
  · exact hpermAll
  · -- buffer contents after the pass
    rw [hdrained_occ, List.append_nil] at hfocc
    refine hfocc.trans ?_
    have hof : ((p :: (b1.drainSeq b1.size).map
        (fun x : Nat × Post × Rat => x.2.1)).filter
        (fun q : Post => ¬ (q.source_id = p.source_id)))
        = (((s.buffer.drainSeq s.buffer.size).map
            (fun x : Nat × Post × Rat => x.2)).map Prod.fst).filter
            (fun q : Post => ¬ (q.source_id = p.source_id)) := by
      rw [hplist]
    rw [hof]
  · -- partition: nothing lost, nothing duplicated
    have hmf : (((s.buffer.drainSeq s.buffer.size).map
        (fun x : Nat × Post × Rat => x.2)).filter
        (fun pr : Post × Rat => pr.1.source_id = p.source_id)).map Prod.fst
        = (((s.buffer.drainSeq s.buffer.size).map
            (fun x : Nat × Post × Rat => x.2)).map Prod.fst).filter
            (fun q : Post => q.source_id = p.source_id) := by
      conv_rhs => rw [List.filter_map]
      rfl
    rw [hmf]
    have hsplit := List.filter_append_perm
      (fun q : Post => decide (q.source_id = p.source_id))
      (((s.buffer.drainSeq s.buffer.size).map
        (fun x : Nat × Post × Rat => x.2)).map Prod.fst)
    refine List.Perm.trans ?_ hsplit
    refine List.Perm.append_left _ ?_
    have hnot : (fun q : Post => !(decide (q.source_id = p.source_id)))
        = (fun q : Post => decide (¬ (q.source_id = p.source_id))) := by
      funext q
      simp [decide_not]
    rw [← hnot]
  · exact hfcal
  · exact hfpool

/-- C3: one packet-formation pass of the Selection Dispatcher on a
well-formed non-empty buffer.  The formed packet holds exactly the pulled
posts whose source equals the seed's (the newest post's) source, in
newest-first `enqueued_at` order; the buffer afterwards holds exactly the
other-source posts, each re-inserted once in reverse pull order at strictly
increasing timestamps `now, now+ε, now+2ε, …`; no post is lost and none is
duplicated; calendar and device pool are untouched. -/
theorem C3_packet_formation (s : SimState) (now : Rat)
    (hB : s.buffer.WFB) (hT : s.buffer.WFT) (hsz : s.buffer.size ≠ 0)
    (hnow : 0 ≤ now) (hform : needForm s.packet = true) :
    ∃ (first : Post) (b1 : Buffer),
      s.buffer.pick_lifo_d2b2 = (some first, b1) ∧
      on_device_freed s now
        = dispatchPhase (formPhase { s with buffer := b1 } now first) ∧
      (let pairs : List (Post × Rat) :=
        (s.buffer.drainSeq s.buffer.size).map (fun x : Nat × Post × Rat => x.2)
       let src := first.source_id
       let samePairs := pairs.filter (fun pr : Post × Rat => pr.1.source_id = src)
       let otherPosts := (pairs.map Prod.fst).filter
         (fun q : Post => ¬ (q.source_id = src))
       let f := formPhase { s with buffer := b1 } now first
       (pairs.map Prod.fst).head? = some first ∧
       f.packet = some ⟨src, samePairs.map Prod.fst⟩ ∧
       List.Pairwise (fun x y : Post × Rat => y.2 ≤ x.2) samePairs ∧
       List.Perm s.buffer.occList pairs ∧
       List.Perm f.buffer.occList (stamped otherPosts.reverse now) ∧
       List.Perm (samePairs.map Prod.fst ++ otherPosts) (pairs.map Prod.fst) ∧
       f.calendar = s.calendar ∧ f.pool = s.pool) :=
  odf_form_spec s now hB hT hsz hnow hform

/-- Concrete witness state for C3: five slots holding sources
`{A, A, B, A, C}` (A = 1, B = 2, C = 3), the newest post being an A-post. -/
def simW3 : SimState :=
  { current_time := 10
    calendar := []
    buffer := ⟨5, [⟨some ⟨1, 1, 0⟩, 1⟩, ⟨some ⟨2, 1, 0⟩, 2⟩, ⟨some ⟨3, 2, 0⟩, 3⟩,
      ⟨some ⟨4, 1, 0⟩, 5⟩, ⟨some ⟨5, 3, 0⟩, 4⟩], 4, 5⟩
    pool := ⟨[⟨0, true, some ⟨9, 9, 0⟩⟩], 0⟩
    next_post_id := 6
    generated := 5
    queued := 5
    served := 0
    evicted := 0
    direct_stat := 0
    direct_assign := false
    packet := none
    rng := fun _ => 1
    rngIdx := 0
    log_output := [] }

theorem C3_packet_formation_witness :
    ∃ (first : Post) (b1 : Buffer),
      simW3.buffer.pick_lifo_d2b2 = (some first, b1) ∧
      on_device_freed simW3 10
        = dispatchPhase (formPhase { simW3 with buffer := b1 } 10 first) ∧
      (let pairs : List (Post × Rat) :=
        (simW3.buffer.drainSeq simW3.buffer.size).map (fun x : Nat × Post × Rat => x.2)
       let src := first.source_id
       let samePairs := pairs.filter (fun pr : Post × Rat => pr.1.source_id = src)
       let otherPosts := (pairs.map Prod.fst).filter
         (fun q : Post => ¬ (q.source_id = src))
       let f := formPhase { simW3 with buffer := b1 } 10 first
       (pairs.map Prod.fst).head? = some first ∧
       f.packet = some ⟨src, samePairs.map Prod.fst⟩ ∧
       List.Pairwise (fun x y : Post × Rat => y.2 ≤ x.2) samePairs ∧
       List.Perm simW3.buffer.occList pairs ∧
       List.Perm f.buffer.occList (stamped otherPosts.reverse 10) ∧
       List.Perm (samePairs.map Prod.fst ++ otherPosts) (pairs.map Prod.fst) ∧
       f.calendar = simW3.calendar ∧ f.pool = simW3.pool) :=
  C3_packet_formation simW3 10 (by unfold Buffer.WFB; decide)
    (by unfold Buffer.WFT; decide) (by decide) (by decide) rfl

/-! ## Dispatch order within a packet (C6) -/

/-- Post ids of the `SERVICE_START` records among a run of log entries. -/
def dispatchedIds (entries : List LogEntry) : List Nat :=
  entries.filterMap (fun e =>
    match e.kind with
    | .serviceStart => e.post
    | _ => none)

/-- A pick that finds nothing changes nothing. -/
theorem DevicePool.pick_none_frame (p : DevicePool)
    (h : (p.pick_cyclic_d2p2).1 = none) : p.pick_cyclic_d2p2 = (none, p) := by
  have hexp : p.pick_cyclic_d2p2 =
      (match pickLoop p.devices p.devices.length
          (if p.devices.length = 0 then 0 else p.cursor % p.devices.length)
          p.devices.length with
        | some i => (some i, { p with cursor := (i + 1) % p.devices.length })
        | none => (none, p)) := rfl
  rw [hexp] at h ⊢
  cases hpl : pickLoop p.devices p.devices.length
      (if p.devices.length = 0 then 0 else p.cursor % p.devices.length)
      p.devices.length with
  | none => rfl
  | some i =>
    rw [hpl] at h
    cases h

/-- Splitting a non-empty list at its last element, in reverse. -/
theorem reverse_eq_getLastD_cons (posts : List Post) (h : posts ≠ []) (d : Post) :
    posts.reverse = ((posts.getLast?).getD d) :: posts.dropLast.reverse := by
  have hlast : posts.getLast? = some (posts.getLast h) := List.getLast?_eq_getLast posts h
  rw [hlast]
  conv_lhs => rw [← List.dropLast_append_getLast h]
  rw [List.reverse_append]
  rfl

/-- One successful iteration of the dispatch loop: pop the packet's last post
and start it on the freshly picked device `i`. -/
def dispatchStep (s : SimState) (src : Nat) (posts : List Post) (i : Nat)
    (pool1 : DevicePool) : SimState :=
  let post := (posts.getLast?).getD ⟨0, 0, 0⟩
  let s1 := { s with pool := pool1.startAt i post,
                     packet := some ⟨src, posts.dropLast⟩ }
  let s2 := (s1.draw).2
  s2.addLog .serviceStart (some post.id) (some post.source_id)
    (some (((pool1.devices[i]?).map Device.id).getD i))

/-- The dispatch loop pops posts from the packet's END: it emits
`SERVICE_START` records for a reversed suffix of the packet (the last-listed,
i.e. oldest-pulled, posts first), leaves the unreached prefix in the packet,
and touches neither calendar nor buffer. -/
theorem dispatchLoop_spec :
    ∀ (n : Nat) (posts : List Post) (src : Nat) (s : SimState),
      posts.length = n → s.packet = some ⟨src, posts⟩ →
      ∃ (m : Nat) (tail : List LogEntry), m ≤ n ∧
        (dispatchLoop n s).log_output = s.log_output ++ tail ∧
        dispatchedIds tail = ((posts.reverse).take m).map Post.id ∧
        (dispatchLoop n s).packet = some ⟨src, posts.take (n - m)⟩ ∧
        (dispatchLoop n s).calendar = s.calendar ∧
        (dispatchLoop n s).buffer = s.buffer ∧
        (dispatchLoop n s).current_time = s.current_time := by
  intro n
  induction n with
  | zero =>
    intro posts src s hlen hpk
    have hnil : posts = [] := List.length_eq_zero.mp hlen
    subst hnil
    have h0 : dispatchLoop 0 s = s := rfl
    exact ⟨0, [], le_refl 0, by rw [h0, List.append_nil], rfl,
      by rw [h0]; exact hpk, by rw [h0], by rw [h0], by rw [h0]⟩
  | succ n ih =>
    intro posts src s hlen hpk
    obtain ⟨q, qs, rfl⟩ : ∃ q qs, posts = q :: qs := by
      cases posts with
      | nil => cases hlen
      | cons q qs => exact ⟨q, qs, rfl⟩
    have hne : q :: qs ≠ ([] : List Post) := by intro hcon; cases hcon
    obtain ⟨ct, cal, buf, pl, npi, gen, qd, srv, ev, ds, da, pkt, rg, ri, lo⟩ := s
    simp only at hpk
    subst hpk
    set S : SimState :=
      ⟨ct, cal, buf, pl, npi, gen, qd, srv, ev, ds, da, some ⟨src, q :: qs⟩, rg, ri, lo⟩
      with hS
    cases hpick : pl.pick_cyclic_d2p2 with
    | mk o pool1 =>
      cases o with
      | none =>
        have hpool : pool1 = pl := by
          have hfr := DevicePool.pick_none_frame pl (by rw [hpick])
          rw [hpick] at hfr
          cases hfr
          rfl
        subst hpool
        have hres : dispatchLoop (n+1) S = S := by
          rw [hS]
          conv_lhs => unfold dispatchLoop
          rw [hpick]
          rfl
        refine ⟨0, [], by omega, by rw [hres, List.append_nil], rfl, ?_,
          by rw [hres], by rw [hres], by rw [hres]⟩
        rw [hres]
        have htk : (q :: qs).take (n + 1 - 0) = q :: qs := by
          rw [Nat.sub_zero, ← hlen]
          exact List.take_length (q :: qs)
        rw [htk]
      | some i =>
        have hres : dispatchLoop (n+1) S =
            dispatchLoop n (dispatchStep S src (q :: qs) i pool1) := by
          rw [hS]
          conv_lhs => unfold dispatchLoop
          rw [hpick]
          rfl
        set pD : Post := ((q :: qs).getLast?).getD ⟨0, 0, 0⟩ with hpD
        set s3 : SimState := dispatchStep S src (q :: qs) i pool1 with hs3
        have hs3pk : s3.packet = some ⟨src, (q :: qs).dropLast⟩ := rfl
        have hs3len : (q :: qs).dropLast.length = n := by
          rw [List.length_dropLast, hlen]
          omega
        obtain ⟨m, tail, hm, hlog, hids, hpk2, hcal2, hbuf2, htime2⟩ :=
          ih (q :: qs).dropLast src s3 hs3len hs3pk
        have hs3log : s3.log_output = S.log_output ++
            [⟨.serviceStart, S.current_time, some pD.id, some pD.source_id,
              some (((pool1.devices[i]?).map Device.id).getD i)⟩] := rfl
        refine ⟨m + 1,
          ⟨.serviceStart, S.current_time, some pD.id, some pD.source_id,
            some (((pool1.devices[i]?).map Device.id).getD i)⟩ :: tail,
          by omega, ?_, ?_, ?_, ?_, ?_, ?_⟩
        · rw [hres, hlog, hs3log]
          simp
        · show pD.id :: dispatchedIds tail = _
          rw [hids]
          rw [reverse_eq_getLastD_cons (q :: qs) hne ⟨0, 0, 0⟩]
          rfl
        · rw [hres, hpk2]
          have harith : n + 1 - (m + 1) = n - m := by omega
          rw [harith]
          have htt : (q :: qs).dropLast.take (n - m) = (q :: qs).take (n - m) := by
            rw [List.dropLast_eq_take, hlen]
            have hmin : n + 1 - 1 = n := by omega
            rw [hmin, List.take_take]
            have hmin2 : min (n - m) n = n - m := by omega
            rw [hmin2]
          rw [htt]
        · rw [hres, hcal2]
          rfl
        · rw [hres, hbuf2]
          rfl
        · rw [hres, htime2]
          rfl

/-- The final packet-clearing step of `dispatchPhase` writes no log entry. -/
theorem dispatchPhase_log (s : SimState) :
    (dispatchPhase s).log_output = (dispatchLoop (packetLen s.packet) s).log_output := by
  unfold dispatchPhase
  show (match (dispatchLoop (packetLen s.packet) s).packet with
    | some pk => if pk.posts.isEmpty then
        { dispatchLoop (packetLen s.packet) s with packet := none }
      else dispatchLoop (packetLen s.packet) s
    | none => dispatchLoop (packetLen s.packet) s).log_output = _
  cases hq : (dispatchLoop (packetLen s.packet) s).packet with
  | none => rfl
  | some pk =>
    cases hpe : pk.posts.isEmpty with
    | true => simp [hpe]
    | false => simp [hpe]

/-- C6 (amended): after packet formation the dispatch loop hands the packet's
posts to devices OLDEST first — it pops from the end of the newest-first
packet list, so the `SERVICE_START` records it emits cover a suffix of the
packet in reverse, with non-decreasing original `enqueued_at` stamps. -/
theorem C6_dispatch_oldest_first (s : SimState) (now : Rat)
    (hB : s.buffer.WFB) (hT : s.buffer.WFT) (hsz : s.buffer.size ≠ 0)
    (hnow : 0 ≤ now) (hform : needForm s.packet = true) :
    ∃ (first : Post) (b1 : Buffer),
      s.buffer.pick_lifo_d2b2 = (some first, b1) ∧
      on_device_freed s now
        = dispatchPhase (formPhase { s with buffer := b1 } now first) ∧
      (let f := formPhase { s with buffer := b1 } now first
       let pairs : List (Post × Rat) :=
         (s.buffer.drainSeq s.buffer.size).map (fun x : Nat × Post × Rat => x.2)
       let samePairs := pairs.filter
         (fun pr : Post × Rat => pr.1.source_id = first.source_id)
       ∃ (m : Nat) (tail : List LogEntry), m ≤ samePairs.length ∧
         (dispatchPhase f).log_output = f.log_output ++ tail ∧
         dispatchedIds tail
           = ((samePairs.reverse).take m).map (fun pr : Post × Rat => pr.1.id) ∧
         List.Pairwise (fun x y : Post × Rat => x.2 ≤ y.2)
           ((samePairs.reverse).take m)) := by
  obtain ⟨first, b1, hpick, hodf, hrest⟩ := odf_form_spec s now hB hT hsz hnow hform
  obtain ⟨hhead, hpk, hPW, hperm, hfocc, hpart, hfcal, hfpool⟩ := hrest
  refine ⟨first, b1, hpick, hodf, ?_⟩
  set pairs : List (Post × Rat) :=
    (s.buffer.drainSeq s.buffer.size).map (fun x : Nat × Post × Rat => x.2)
    with hpairs
  set samePairs : List (Post × Rat) :=
    pairs.filter (fun pr : Post × Rat => pr.1.source_id = first.source_id)
    with hsp
  set f : SimState := formPhase { s with buffer := b1 } now first with hf
  obtain ⟨m, tail, hm, hlog, hids, hpk2, hcal2, hbuf2, htime2⟩ :=
    dispatchLoop_spec (samePairs.map Prod.fst).length (samePairs.map Prod.fst)
      first.source_id f rfl hpk
  have hplen : packetLen f.packet = (samePairs.map Prod.fst).length := by
    rw [hpk]
    rfl
  have hdlog := dispatchPhase_log f
  rw [hplen] at hdlog
  have hids' : dispatchedIds tail
      = ((samePairs.reverse).take m).map (fun pr : Post × Rat => pr.1.id) := by
    rw [hids]
    rw [← List.map_reverse]
    rw [← List.map_take]
    rw [List.map_map]
    rfl
  have hrev : List.Pairwise (fun x y : Post × Rat => x.2 ≤ y.2) samePairs.reverse := by
    rw [List.pairwise_reverse]
    exact hPW
  have htake : List.Pairwise (fun x y : Post × Rat => x.2 ≤ y.2)
      ((samePairs.reverse).take m) :=
    List.Pairwise.sublist (List.take_sublist m samePairs.reverse) hrev
  have hm' : m ≤ samePairs.length := by
    rw [List.length_map] at hm
    exact hm
  exact ⟨m, tail, hm', hdlog.trans hlog, hids', htake⟩

/-- Concrete state for C6: two posts of the same source (id 7) sit in the
buffer, post 1 enqueued at `t = 1` and post 2 at `t = 2`; both devices are
free, so one `on_device_freed` pass forms the packet and dispatches both. -/
def simW6 : SimState :=
  { current_time := 5
    calendar := []
    buffer := ⟨2, [⟨some ⟨1, 7, 0⟩, 1⟩, ⟨some ⟨2, 7, 0⟩, 2⟩], 1, 2⟩
    pool := ⟨[⟨0, false, none⟩, ⟨1, false, none⟩], 0⟩
    next_post_id := 3
    generated := 2
    queued := 2
    served := 0
    evicted := 0
    direct_stat := 0
    direct_assign := false
    packet := none
    rng := fun _ => 1
    rngIdx := 0
    log_output := [] }

/-- C6 counterexample: post 1 (enqueued at `t = 1`, the OLDER) reaches a
device before post 2 (enqueued at `t = 2`, the newer), so within one packet
dispatch is oldest-first, not newest-first as claimed. -/
theorem C6_newest_first_refuted :
    simW6.buffer.occList = [(⟨1, 7, 0⟩, 1), (⟨2, 7, 0⟩, 2)] ∧
    dispatchedIds ((on_device_freed simW6 5).log_output) = [1, 2] ∧
    dispatchedIds ((on_device_freed simW6 5).log_output) ≠ [2, 1] := by
  refine ⟨rfl, rfl, by decide⟩

theorem C6_dispatch_oldest_first_witness :
    ∃ (first : Post) (b1 : Buffer),
      simW6.buffer.pick_lifo_d2b2 = (some first, b1) ∧
      on_device_freed simW6 5
        = dispatchPhase (formPhase { simW6 with buffer := b1 } 5 first) ∧
      (let f := formPhase { simW6 with buffer := b1 } 5 first
       let pairs : List (Post × Rat) :=
         (simW6.buffer.drainSeq simW6.buffer.size).map (fun x : Nat × Post × Rat => x.2)
       let samePairs := pairs.filter
         (fun pr : Post × Rat => pr.1.source_id = first.source_id)
       ∃ (m : Nat) (tail : List LogEntry), m ≤ samePairs.length ∧
         (dispatchPhase f).log_output = f.log_output ++ tail ∧
         dispatchedIds tail
           = ((samePairs.reverse).take m).map (fun pr : Post × Rat => pr.1.id) ∧
         List.Pairwise (fun x y : Post × Rat => x.2 ≤ y.2)
           ((samePairs.reverse).take m)) :=
  C6_dispatch_oldest_first simW6 5 (by unfold Buffer.WFB; decide)
    (by unfold Buffer.WFT; decide) (by decide) (by decide) rfl

/-! ## The capacity-1 end-to-end scenario (C2) -/

/-- Configuration of the spec's end-to-end scenario: buffer capacity 1, one
device, one source, buffered (non-direct) placement. -/
def pC2 : Params := ⟨1, 1, 1, false⟩

/-- An oracle stream on which the second arrival (at `t = 1`) is processed
before the first completion (at `t = 5`). -/
def rngC2 : Nat → Rat := fun k => if k = 2 then 5 else 1

/-- C2 counterexample: even on a run where the second arrival is processed
strictly before the first Completion (`served = 0` when it is handled), the
second arrival evicts nothing — the first arrival's own opportunistic
selection pass already dispatched P1 at `t = 0`, so P2 meets an empty buffer
and the eviction counter stays 0, not 1 as claimed. -/
theorem C2_eviction_refuted :
    (stepState (stepState (startState pC2 rngC2))).generated = 2 ∧
    (stepState (stepState (startState pC2 rngC2))).served = 0 ∧
    (stepState (stepState (startState pC2 rngC2))).queued = 2 ∧
    (stepState (stepState (startState pC2 rngC2))).buffer.size = 1 ∧
    (stepState (stepState (startState pC2 rngC2))).evicted = 0 ∧
    ¬ (stepState (stepState (startState pC2 rngC2))).evicted = 1 := by
  have h : (stepState (stepState (startState pC2 rngC2))).evicted = 0 := by
    with_unfolding_all rfl
  refine ⟨by with_unfolding_all rfl, by with_unfolding_all rfl,
    by with_unfolding_all rfl, by with_unfolding_all rfl, h, ?_⟩
  rw [h]
  decide

/-- Oracle stream of the corrected scenario: interarrival draws 1 and 100,
service draws 2 and 1 (indices 1 and 4 feed the draws the engine discards at
`start_process`). -/
def c2rngA : Nat → Rat := fun k =>
  if k = 2 then 2 else if k = 3 then 100 else 1

/-- C2 (amended): in the capacity-1/1-device/1-source buffered scenario where
the second arrival is processed before the first Completion, NO eviction
happens: P1 is dispatched at `t = 0` by its own arrival's opportunistic
selection pass, P2 is enqueued into the empty buffer, the first Completion
serves P1 and dispatches P2, and the second Completion serves P2 — final
statistics `generated = 2, queued = 2, served = 2, evicted = 0`. -/
theorem C2_scenario_corrected :
    (stepState^[2] (startState pC2 c2rngA)).generated = 2 ∧
    (stepState^[2] (startState pC2 c2rngA)).served = 0 ∧
    (stepState^[2] (startState pC2 c2rngA)).evicted = 0 ∧
    (stepState^[2] (startState pC2 c2rngA)).queued = 2 ∧
    (stepState^[2] (startState pC2 c2rngA)).buffer.size = 1 ∧
    (stepState^[3] (startState pC2 c2rngA)).served = 1 ∧
    (stepState^[3] (startState pC2 c2rngA)).buffer.size = 0 ∧
    (stepState^[4] (startState pC2 c2rngA)).generated = 2 ∧
    (stepState^[4] (startState pC2 c2rngA)).queued = 2 ∧
    (stepState^[4] (startState pC2 c2rngA)).served = 2 ∧
    (stepState^[4] (startState pC2 c2rngA)).evicted = 0 := by
  refine ⟨?_, ?_, ?_, ?_, ?_, ?_, ?_, ?_, ?_, ?_, ?_⟩ <;> with_unfolding_all rfl

/-! ## Heap permutation facts (towards the pending-completion invariant) -/

/-- Swapping an element out to another position is a permutation:
`(l.set p l[q]).set q a ~ l.set p a`. -/
theorem cons_middle_swap {α : Type} (a y : α) (T D : List α) :
    List.Perm (a :: (T ++ y :: D)) (y :: (T ++ a :: D)) := by
  refine List.Perm.trans (List.Perm.cons a List.perm_middle) ?_
  refine List.Perm.trans (List.Perm.swap y a (T ++ D)) ?_
  exact List.Perm.cons y List.perm_middle.symm

theorem set_swap_perm {α : Type} :
    ∀ (l : List α) (p q : Nat) (y a : α), l[q]? = some y → p ≠ q →
      p < l.length → List.Perm ((l.set p y).set q a) (l.set p a)
  | [], p, q, y, a, hq, hpq, hp => by cases hq
  | x :: xs, 0, 0, y, a, hq, hpq, hp => absurd rfl hpq
  | x :: xs, 0, k+1, y, a, hq, hpq, hp => by
    show List.Perm (y :: xs.set k a) (a :: xs)
    have hq2 : xs[k]? = some y := by simpa using hq
    have hk : k < xs.length := (List.getElem?_eq_some_iff.mp hq2).1
    have hxy : xs[k] = y := by
      obtain ⟨h, he⟩ := List.getElem?_eq_some_iff.mp hq2
      exact he
    have hset : xs.set k a = xs.take k ++ a :: xs.drop (k+1) := by
      rw [List.set_eq_take_append_cons_drop, if_pos hk]
    have hxs : xs = xs.take k ++ y :: xs.drop (k+1) := by
      conv_lhs => rw [← List.take_append_drop k xs]
      rw [← List.getElem_cons_drop xs k hk, hxy]
    rw [hset]
    conv_rhs => rw [hxs]
    exact (cons_middle_swap a y (xs.take k) (xs.drop (k+1))).symm
  | x :: xs, j+1, 0, y, a, hq, hpq, hp => by
    have h0 : some x = some y := by simpa using hq
    injection h0 with h1
    subst h1
    show List.Perm (a :: xs.set j x) (x :: xs.set j a)
    have hj : j < xs.length := by
      have hlen : j + 1 < (x :: xs).length := hp
      simp only [List.length_cons] at hlen
      omega
    have hset1 : xs.set j x = xs.take j ++ x :: xs.drop (j+1) := by
      rw [List.set_eq_take_append_cons_drop, if_pos hj]
    have hset2 : xs.set j a = xs.take j ++ a :: xs.drop (j+1) := by
      rw [List.set_eq_take_append_cons_drop, if_pos hj]
    rw [hset1, hset2]
    exact cons_middle_swap a x (xs.take j) (xs.drop (j+1))
  | x :: xs, j+1, k+1, y, a, hq, hpq, hp => by
    show List.Perm (x :: ((xs.set j y).set k a)) (x :: xs.set j a)
    refine List.Perm.cons x ?_
    have hq2 : xs[k]? = some y := by simpa using hq
    refine set_swap_perm xs j k y a hq2 ?_ ?_
    · intro hcon
      exact hpq (by rw [hcon])
    · have hlen : j + 1 < (x :: xs).length := hp
      simp only [List.length_cons] at hlen
      omega

/-- The sift-down loop permutes the heap with the new item written at the
starting position. -/
theorem siftdownLoop_perm :
    ∀ (fuel : Nat) (heap : List Event) (newitem : Event) (pos : Nat),
      pos < heap.length →
      List.Perm (siftdownLoop fuel heap newitem pos) (heap.set pos newitem)
  | 0, heap, newitem, pos, hp => List.Perm.refl _
  | fuel+1, heap, newitem, pos, hp => by
    show List.Perm
      (if pos > 0 then
        let parentpos := (pos - 1) / 2
        let parent := (heap[parentpos]?).getD default
        if newitem.time < parent.time then
          siftdownLoop fuel (heap.set pos parent) newitem parentpos
        else heap.set pos newitem
      else heap.set pos newitem) _
    by_cases h0 : pos > 0
    · rw [if_pos h0]
      have hpp : (pos - 1) / 2 < pos := by
        have h1 : (pos - 1) / 2 ≤ pos - 1 := Nat.div_le_self _ _
        omega
      have hplt : (pos - 1) / 2 < heap.length := lt_trans hpp hp
      have hpar : heap[(pos - 1) / 2]? = some heap[(pos - 1) / 2] :=
        List.getElem?_eq_getElem hplt
      by_cases hc : newitem.time < ((heap[(pos - 1) / 2]?).getD default).time
      · rw [if_pos hc]
        have hrec := siftdownLoop_perm fuel
          (heap.set pos ((heap[(pos - 1) / 2]?).getD default)) newitem ((pos - 1) / 2)
          (by rw [List.length_set]; exact hplt)
        refine hrec.trans ?_
        have hgd : (heap[(pos - 1) / 2]?).getD default = heap[(pos - 1) / 2] := by
          rw [hpar]
          rfl
        rw [hgd]
        exact set_swap_perm heap pos ((pos - 1) / 2) heap[(pos - 1) / 2] newitem hpar
          (by omega) hp
      · rw [if_neg hc]
    · rw [if_neg h0]

/-- `heappush` is, up to order, just a cons. -/
theorem heappush_perm (l : List Event) (e : Event) :
    List.Perm (heappush l e) (e :: l) := by
  unfold heappush
  show List.Perm
    (siftdownLoop ((l ++ [e]).length - 1) (l ++ [e]) e ((l ++ [e]).length - 1)) (e :: l)
  have hpos : (l ++ [e]).length - 1 = l.length := by
    rw [List.length_append]
    simp
  rw [hpos]
  have hlen : l.length < (l ++ [e]).length := by
    rw [List.length_append]
    simp
  refine (siftdownLoop_perm l.length (l ++ [e]) e l.length hlen).trans ?_
  have hset : (l ++ [e]).set l.length e = l ++ [e] := by
    rw [List.set_eq_take_append_cons_drop, if_pos hlen]
    rw [List.take_left]
    have hdrop : (l ++ [e]).drop (l.length + 1) = [] := by
      apply List.drop_eq_nil_of_le
      rw [List.length_append]
      simp
    rw [hdrop]
  rw [hset]
  exact List.perm_append_singleton e l

/-- The child chosen by one `_siftup` descent step. -/
def siftupCp (heap : List Event) (pos : Nat) : Nat :=
  if 2 * pos + 1 + 1 < heap.length ∧
      ¬ (((heap[2 * pos + 1]?).getD default).time <
         ((heap[2 * pos + 1 + 1]?).getD default).time)
  then 2 * pos + 1 + 1 else 2 * pos + 1

theorem siftupCp_lt (heap : List Event) (pos : Nat)
    (hc : 2 * pos + 1 < heap.length) : siftupCp heap pos < heap.length := by
  unfold siftupCp
  by_cases hr : 2 * pos + 1 + 1 < heap.length ∧
      ¬ (((heap[2 * pos + 1]?).getD default).time <
         ((heap[2 * pos + 1 + 1]?).getD default).time)
  · rw [if_pos hr]
    exact hr.1
  · rw [if_neg hr]
    exact hc

theorem siftupCp_ne (heap : List Event) (pos : Nat) : pos ≠ siftupCp heap pos := by
  unfold siftupCp
  by_cases hr : 2 * pos + 1 + 1 < heap.length ∧
      ¬ (((heap[2 * pos + 1]?).getD default).time <
         ((heap[2 * pos + 1 + 1]?).getD default).time)
  · rw [if_pos hr]; omega
  · rw [if_neg hr]; omega

theorem siftupLoop_step (fuel : Nat) (heap : List Event) (pos : Nat)
    (hc : 2 * pos + 1 < heap.length) :
    siftupLoop (fuel+1) heap pos = siftupLoop fuel
      (heap.set pos ((heap[siftupCp heap pos]?).getD default)) (siftupCp heap pos) := by
  conv_lhs => unfold siftupLoop
  show (if 2 * pos + 1 < heap.length then
      siftupLoop fuel (heap.set pos ((heap[siftupCp heap pos]?).getD default))
        (siftupCp heap pos)
    else (heap, pos)) = _
  rw [if_pos hc]

theorem siftupLoop_leaf (fuel : Nat) (heap : List Event) (pos : Nat)
    (hc : ¬ 2 * pos + 1 < heap.length) :
    siftupLoop (fuel+1) heap pos = (heap, pos) := by
  conv_lhs => unfold siftupLoop
  show (if 2 * pos + 1 < heap.length then
      siftupLoop fuel (heap.set pos ((heap[siftupCp heap pos]?).getD default))
        (siftupCp heap pos)
    else (heap, pos)) = _
  rw [if_neg hc]

/-- The sift-up descent keeps the length, ends inside the heap, and carries a
"hole": writing any item at the final position permutes with writing it at the
start. -/
theorem siftupLoop_spec :
    ∀ (fuel : Nat) (heap : List Event) (pos : Nat), pos < heap.length →
      (siftupLoop fuel heap pos).2 < (siftupLoop fuel heap pos).1.length ∧
      (siftupLoop fuel heap pos).1.length = heap.length ∧
      ∀ a, List.Perm ((siftupLoop fuel heap pos).1.set (siftupLoop fuel heap pos).2 a)
        (heap.set pos a) := by
  intro fuel
  induction fuel with
  | zero =>
    intro heap pos hp
    exact ⟨hp, rfl, fun a => List.Perm.refl _⟩
  | succ fuel ih =>
    intro heap pos hp
    by_cases hc : 2 * pos + 1 < heap.length
    · rw [siftupLoop_step fuel heap pos hc]
      have hcplt := siftupCp_lt heap pos hc
      have hcpne := siftupCp_ne heap pos
      obtain ⟨h1, h2, h3⟩ := ih (heap.set pos ((heap[siftupCp heap pos]?).getD default))
        (siftupCp heap pos) (by rw [List.length_set]; exact hcplt)
      refine ⟨h1, by rw [h2, List.length_set], ?_⟩
      intro a
      refine (h3 a).trans ?_
      have hget : heap[siftupCp heap pos]? = some heap[siftupCp heap pos] :=
        List.getElem?_eq_getElem hcplt
      have hgd : (heap[siftupCp heap pos]?).getD default = heap[siftupCp heap pos] := by
        rw [hget]
        rfl
      rw [hgd]
      exact set_swap_perm heap pos (siftupCp heap pos) heap[siftupCp heap pos] a hget
        hcpne hp
    · rw [siftupLoop_leaf fuel heap pos hc]
      exact ⟨hp, rfl, fun a => List.Perm.refl _⟩

/-- `_siftup` from the root permutes with writing the new item at the root. -/
theorem siftup0_perm (H : List Event) (new : Event) (h0 : 0 < H.length) :
    List.Perm (siftup0 H new) (H.set 0 new) := by
  obtain ⟨h1, h2, h3⟩ := siftupLoop_spec H.length H 0 h0
  unfold siftup0
  cases hloop : siftupLoop H.length H 0 with
  | mk h' pos =>
    show List.Perm (siftdownLoop pos (h'.set pos new) new pos) _
    rw [hloop] at h1 h3
    have hd := siftdownLoop_perm pos (h'.set pos new) new pos
      (by rw [List.length_set]; exact h1)
    refine hd.trans ?_
    rw [List.set_set]
    exact h3 new

/-- `heappop` is, up to order, removal of the returned element. -/
theorem heappop_perm (l : List Event) :
    (heappop l = none → l = []) ∧
    ∀ e rest, heappop l = some (e, rest) → List.Perm l (e :: rest) := by
  cases l with
  | nil => exact ⟨fun _ => rfl, fun e rest h => by cases h⟩
  | cons x xs =>
    cases xs with
    | nil =>
      have hstep : heappop [x] = some (x, []) := rfl
      refine ⟨fun h => ?_, fun e rest h => ?_⟩
      · rw [hstep] at h
        cases h
      · rw [hstep] at h
        injection h with h1
        injection h1 with he hrest
        subst he
        subst hrest
        exact List.Perm.refl _
    | cons y t =>
      have hne : (y :: t) ≠ ([] : List Event) := by intro hcon; cases hcon
      have hstep : heappop (x :: y :: t)
          = some (x, siftup0 ((x :: (y :: t).dropLast).set 0
              ((x :: y :: t).getLast (by simp)))
              ((x :: y :: t).getLast (by simp))) := rfl
      refine ⟨fun h => ?_, fun e rest h => ?_⟩
      · rw [hstep] at h
        cases h
      · rw [hstep] at h
        injection h with h1
        injection h1 with he hrest
        subst he
        subst hrest
        set lastelt : Event := (x :: y :: t).getLast (by simp) with hle
        have hH : ((x :: (y :: t).dropLast).set 0 lastelt)
            = lastelt :: (y :: t).dropLast := rfl
        have hsp := siftup0_perm ((x :: (y :: t).dropLast).set 0 lastelt) lastelt
          (by rw [List.length_set]; simp)
        rw [List.set_set] at hsp
        rw [hH] at hsp
        refine List.Perm.cons x ?_
        refine List.Perm.trans ?_ hsp.symm
        show List.Perm (y :: t) (lastelt :: (y :: t).dropLast)
        have hl2 : lastelt = (y :: t).getLast hne := by
          rw [hle]
          exact List.getLast_cons hne
        rw [hl2]
        conv_lhs => rw [← List.dropLast_append_getLast hne]
        exact List.perm_append_singleton _ _

/-! ## Device-pool facts -/

/-- The round-robin scan finds a device whenever a free one lies within its
remaining probe window. -/
theorem DevicePool.pickLoop_finds_free (devs : List Device) (n : Nat)
    (hn : n = devs.length) :
    ∀ (rem i : Nat), i < n →
      (∃ k, k < rem ∧ ∃ d, devs[(i + k) % n]? = some d ∧ d.is_free = true) →
      ∃ j, DevicePool.pickLoop devs n i rem = some j := by
  intro rem
  induction rem with
  | zero =>
    rintro i hi ⟨k, hk, _⟩
    omega
  | succ rem ih =>
    rintro i hi ⟨k, hk, d0, hd0, hfree0⟩
    have hilen : i < devs.length := by omega
    have hgi : devs[i]? = some devs[i] := List.getElem?_eq_getElem hilen
    unfold DevicePool.pickLoop
    rw [hgi]
    show ∃ j, (if devs[i].is_free = true then some i
      else DevicePool.pickLoop devs n ((i + 1) % n) rem) = some j
    by_cases hf : devs[i].is_free = true
    · rw [if_pos hf]
      exact ⟨i, rfl⟩
    · rw [if_neg hf]
      have hn0 : 0 < n := by omega
      apply ih ((i + 1) % n) (Nat.mod_lt _ hn0)
      have hk0 : k ≠ 0 := by
        intro h0
        subst h0
        rw [Nat.add_zero, Nat.mod_eq_of_lt hi, hgi] at hd0
        injection hd0 with hd1
        rw [hd1] at hf
        exact hf hfree0
      refine ⟨k - 1, by omega, d0, ?_, hfree0⟩
      have harith : ((i + 1) % n + (k - 1)) % n = (i + k) % n := by
        rw [Nat.mod_add_mod]
        congr 1
        omega
      rw [harith]
      exact hd0

/-- If any device is free, `pick_cyclic_d2p2` succeeds. -/
theorem DevicePool.pick_of_any_free (p : DevicePool) (h : p.any_free = true) :
    ∃ i, p.pick_cyclic_d2p2
      = (some i, { p with cursor := (i + 1) % p.devices.length }) := by
  obtain ⟨d, hdmem, hdfree⟩ := List.any_eq_true.mp h
  obtain ⟨j, hj, hdj⟩ := List.getElem_of_mem hdmem
  have hn0 : 0 < p.devices.length := by omega
  have hi0 : p.cursor % p.devices.length < p.devices.length := Nat.mod_lt _ hn0
  have hcov : (p.cursor % p.devices.length +
      (j + p.devices.length - p.cursor % p.devices.length) % p.devices.length)
      % p.devices.length = j := by
    rw [Nat.add_mod_mod]
    have he : p.cursor % p.devices.length +
        (j + p.devices.length - p.cursor % p.devices.length)
        = j + p.devices.length := by omega
    rw [he, Nat.add_mod_right]
    exact Nat.mod_eq_of_lt hj
  obtain ⟨j', hj'⟩ := DevicePool.pickLoop_finds_free p.devices p.devices.length rfl
    p.devices.length (p.cursor % p.devices.length) hi0
    ⟨(j + p.devices.length - p.cursor % p.devices.length) % p.devices.length,
     Nat.mod_lt _ hn0, d, by rw [hcov, List.getElem?_eq_getElem hj, hdj], hdfree⟩
  refine ⟨j', ?_⟩
  unfold DevicePool.pick_cyclic_d2p2
  show (match DevicePool.pickLoop p.devices p.devices.length
      (if p.devices.length = 0 then 0 else p.cursor % p.devices.length)
      p.devices.length with
    | some i => (some i, { p with cursor := (i + 1) % p.devices.length })
    | none => (none, p)) = _
  rw [if_neg (by omega), hj']

/-! ## Pending-completion counting -/

/-- Is this event a `CompletionEvent` for device id `i`? -/
def isCompFor (i : Nat) : Event → Bool
  | .completion _ j => j = i
  | .arrival _ _ => false

/-- Number of pending completions for device id `i`. -/
def cnt (cal : List Event) (i : Nat) : Nat := cal.countP (isCompFor i)

theorem hasCompletionFor_eq (cal : List Event) (i : Nat) :
    hasCompletionFor cal i = cal.any (isCompFor i) := by
  unfold hasCompletionFor
  congr 1

theorem hasCompletionFor_iff (cal : List Event) (i : Nat) :
    hasCompletionFor cal i = true ↔ 0 < cnt cal i := by
  rw [hasCompletionFor_eq, List.any_eq_true]
  unfold cnt
  rw [List.countP_pos_iff]

theorem cnt_perm {c1 c2 : List Event} (h : List.Perm c1 c2) (i : Nat) :
    cnt c1 i = cnt c2 i := h.countP_eq _

theorem cnt_heappush (l : List Event) (e : Event) (i : Nat) :
    cnt (heappush l e) i = cnt l i + (if isCompFor i e = true then 1 else 0) := by
  rw [cnt_perm (heappush_perm l e) i]
  unfold cnt
  rw [List.countP_cons]

theorem cnt_heappop (l : List Event) (e : Event) (rest : List Event)
    (h : heappop l = some (e, rest)) (i : Nat) :
    cnt l i = cnt rest i + (if isCompFor i e = true then 1 else 0) := by
  rw [cnt_perm ((heappop_perm l).2 e rest h) i]
  unfold cnt
  rw [List.countP_cons]

/-! ## How one dispatcher pass changes the pool -/

/-- One pass over the pool either leaves a device untouched or turns a free
device busy, keeping ids and length. -/
def PoolStep (p q : DevicePool) : Prop :=
  q.devices.length = p.devices.length ∧
  ∀ (i : Nat), i < p.devices.length →
    q.devices[i]? = p.devices[i]? ∨
    ((p.devices[i]?).map Device.busy = some false ∧
     (q.devices[i]?).map Device.busy = some true ∧
     (q.devices[i]?).map Device.id = (p.devices[i]?).map Device.id)

theorem PoolStep.self (p : DevicePool) : PoolStep p p :=
  ⟨Eq.refl _, fun i h => Or.inl (Eq.refl _)⟩

theorem PoolStep.comp {p q r : DevicePool} (h1 : PoolStep p q) (h2 : PoolStep q r) :
    PoolStep p r := by
  obtain ⟨hl1, he1⟩ := h1
  obtain ⟨hl2, he2⟩ := h2
  refine ⟨by omega, fun i hi => ?_⟩
  have hiq : i < q.devices.length := by omega
  rcases he1 i hi with hq | ⟨hb1, hb2, hid1⟩
  · rcases he2 i hiq with hr | ⟨hb3, hb4, hid2⟩
    · exact Or.inl (hr.trans hq)
    · exact Or.inr ⟨by rw [← hq]; exact hb3, hb4, by rw [hid2, hq]⟩
  · rcases he2 i hiq with hr | ⟨hb3, hb4, hid2⟩
    · exact Or.inr ⟨hb1, by rw [hr]; exact hb2, by rw [hr]; exact hid1⟩
    · rw [hb2] at hb3
      cases hb3

/-- Starting a free device turns exactly that slot busy, keeping its id. -/
theorem DevicePool.startAt_poolStep (p : DevicePool) (i : Nat) (post : Post)
    (hfree : (p.devices[i]?).map Device.busy = some false) :
    PoolStep p (p.startAt i post) := by
  obtain ⟨d, hd⟩ : ∃ d, p.devices[i]? = some d := by
    cases hp : p.devices[i]? with
    | none => rw [hp] at hfree; cases hfree
    | some d => exact ⟨d, rfl⟩
  have hdb : d.busy = false := by
    rw [hd] at hfree
    injection hfree
  have hilt : i < p.devices.length := (List.getElem?_eq_some_iff.mp hd).1
  unfold DevicePool.startAt
  rw [hd]
  refine ⟨by rw [List.length_set], fun j hj => ?_⟩
  show (p.devices.set i { d with busy := true, current_post := some post })[j]? = _ ∨ _
  by_cases hij : j = i
  · subst hij
    refine Or.inr ?_
    rw [hd, List.getElem?_set_self hilt]
    refine ⟨?_, rfl, rfl⟩
    show some d.busy = some false
    rw [hdb]
  · refine Or.inl ?_
    exact List.getElem?_set_ne (fun hh => hij hh.symm)

/-! ## Step equations of the dispatch loop -/

theorem dispatchLoop_succ_none (fuel : Nat) (s : SimState) (h : s.packet = none) :
    dispatchLoop (fuel+1) s = s := by
  obtain ⟨ct, cal, buf, pl, npi, gen, qd, srv, ev, ds, da, pkt, rg, ri, lo⟩ := s
  simp only at h
  subst h
  rfl

theorem dispatchLoop_succ_empty (fuel : Nat) (s : SimState) (src : Nat)
    (h : s.packet = some ⟨src, []⟩) : dispatchLoop (fuel+1) s = s := by
  obtain ⟨ct, cal, buf, pl, npi, gen, qd, srv, ev, ds, da, pkt, rg, ri, lo⟩ := s
  simp only at h
  subst h
  rfl

theorem dispatchLoop_succ_nofree (fuel : Nat) (s : SimState) (src : Nat)
    (q : Post) (qs : List Post) (hpk : s.packet = some ⟨src, q :: qs⟩)
    (hpick : s.pool.pick_cyclic_d2p2 = (none, s.pool)) :
    dispatchLoop (fuel+1) s = s := by
  obtain ⟨ct, cal, buf, pl, npi, gen, qd, srv, ev, ds, da, pkt, rg, ri, lo⟩ := s
  simp only at hpk hpick
  subst hpk
  conv_lhs => unfold dispatchLoop
  rw [hpick]
  rfl

theorem dispatchLoop_succ_go (fuel : Nat) (s : SimState) (src : Nat)
    (q : Post) (qs : List Post) (i : Nat) (pool1 : DevicePool)
    (hpk : s.packet = some ⟨src, q :: qs⟩)
    (hpick : s.pool.pick_cyclic_d2p2 = (some i, pool1)) :
    dispatchLoop (fuel+1) s = dispatchLoop fuel (dispatchStep s src (q :: qs) i pool1) := by
  obtain ⟨ct, cal, buf, pl, npi, gen, qd, srv, ev, ds, da, pkt, rg, ri, lo⟩ := s
  simp only at hpk hpick
  subst hpk
  conv_lhs => unfold dispatchLoop
  rw [hpick]
  rfl

/-- The dispatch loop never touches calendar, buffer, clock or mode, and only
ever turns free devices busy. -/
theorem dispatchLoop_frame :
    ∀ (fuel : Nat) (s : SimState),
      (dispatchLoop fuel s).calendar = s.calendar ∧
      (dispatchLoop fuel s).buffer = s.buffer ∧
      (dispatchLoop fuel s).current_time = s.current_time ∧
      (dispatchLoop fuel s).direct_assign = s.direct_assign ∧
      (dispatchLoop fuel s).rng = s.rng ∧
      PoolStep s.pool (dispatchLoop fuel s).pool := by
  intro fuel
  induction fuel with
  | zero =>
    intro s
    exact ⟨rfl, rfl, rfl, rfl, rfl, PoolStep.self _⟩
  | succ fuel ih =>
    intro s
    cases hpk : s.packet with
    | none =>
      rw [dispatchLoop_succ_none fuel s hpk]
      exact ⟨rfl, rfl, rfl, rfl, rfl, PoolStep.self _⟩
    | some pk =>
      cases pk with
      | mk src posts =>
        cases posts with
        | nil =>
          rw [dispatchLoop_succ_empty fuel s src hpk]
          exact ⟨rfl, rfl, rfl, rfl, rfl, PoolStep.self _⟩
        | cons q qs =>
          cases hpick : s.pool.pick_cyclic_d2p2 with
          | mk o pool1 =>
            cases o with
            | none =>
              have hpool : pool1 = s.pool := by
                have hfr := DevicePool.pick_none_frame s.pool (by rw [hpick])
                rw [hpick] at hfr
                cases hfr
                rfl
              subst hpool
              rw [dispatchLoop_succ_nofree fuel s src q qs hpk hpick]
              exact ⟨rfl, rfl, rfl, rfl, rfl, PoolStep.self _⟩
            | some i =>
              rw [dispatchLoop_succ_go fuel s src q qs i pool1 hpk hpick]
              obtain ⟨h1, h2, h3, h4, h5, h6⟩ := ih (dispatchStep s src (q :: qs) i pool1)
              have hfree := (C10_pick_cyclic_frame s.pool).2 i pool1 hpick
              obtain ⟨hdev, hcur, d, hd, hdfree⟩ := hfree
              have hstep : (dispatchStep s src (q :: qs) i pool1).pool
                  = pool1.startAt i (((q :: qs).getLast?).getD ⟨0, 0, 0⟩) := rfl
              have hps1 : PoolStep s.pool
                  (pool1.startAt i (((q :: qs).getLast?).getD ⟨0, 0, 0⟩)) := by
                have hfree2 : (pool1.devices[i]?).map Device.busy = some false := by
                  rw [hdev, hd]
                  have hb : d.busy = false := by
                    unfold Device.is_free at hdfree
                    cases hb : d.busy
                    · rfl
                    · rw [hb] at hdfree; cases hdfree
                  show some d.busy = some false
                  rw [hb]
                have hps := DevicePool.startAt_poolStep pool1 i
                  (((q :: qs).getLast?).getD ⟨0, 0, 0⟩) hfree2
                obtain ⟨hl, he⟩ := hps
                refine ⟨by rw [hl, hdev], fun j hj => ?_⟩
                have hj1 : j < pool1.devices.length := by rw [hdev]; exact hj
                rcases he j hj1 with hq | ⟨hb1, hb2, hid⟩
                · rw [hdev] at hq
                  exact Or.inl hq
                · rw [hdev] at hb1 hid
                  exact Or.inr ⟨hb1, hb2, hid⟩
              exact ⟨h1, h2, h3, h4, h5, PoolStep.comp hps1 h6⟩

/-! ## Frame facts for the formation phase -/

/-- The pull loop touches only buffer and log. -/
theorem drainLoop_frame :
    ∀ (fuel : Nat) (s : SimState),
      (drainLoop fuel s).2.calendar = s.calendar ∧
      (drainLoop fuel s).2.pool = s.pool ∧
      (drainLoop fuel s).2.packet = s.packet ∧
      (drainLoop fuel s).2.current_time = s.current_time ∧
      (drainLoop fuel s).2.direct_assign = s.direct_assign ∧
      (drainLoop fuel s).2.rng = s.rng := by
  intro fuel
  induction fuel with
  | zero => intro s; exact ⟨rfl, rfl, rfl, rfl, rfl, rfl⟩
  | succ fuel ih =>
    intro s
    by_cases he : s.buffer.is_empty = true
    · have hstep : drainLoop (fuel+1) s = ([], s) := by
        conv_lhs => unfold drainLoop
        rw [if_pos he]
      rw [hstep]
      exact ⟨rfl, rfl, rfl, rfl, rfl, rfl⟩
    · cases hp : s.buffer.pick_lifo_d2b2 with
      | mk o b1 =>
        cases o with
        | none =>
          have hstep : drainLoop (fuel+1) s = ([], { s with buffer := b1 }) := by
            conv_lhs => unfold drainLoop
            rw [if_neg he, hp]
          rw [hstep]
          exact ⟨rfl, rfl, rfl, rfl, rfl, rfl⟩
        | some p =>
          have hstep : drainLoop (fuel+1) s
              = (p :: (drainLoop fuel { s with buffer := b1 }).1,
                 (drainLoop fuel { s with buffer := b1 }).2) := by
            conv_lhs => unfold drainLoop
            rw [if_neg he, hp]
          rw [hstep]
          obtain ⟨h1, h2, h3, h4, h5, h6⟩ := ih { s with buffer := b1 }
          exact ⟨h1, h2, h3, h4, h5, h6⟩

/-- The re-insertion loop touches only buffer and log. -/
theorem reinsertLoop_frame :
    ∀ (ps : List Post) (t : Rat) (s : SimState),
      (reinsertLoop ps t s).calendar = s.calendar ∧
      (reinsertLoop ps t s).pool = s.pool ∧
      (reinsertLoop ps t s).packet = s.packet ∧
      (reinsertLoop ps t s).current_time = s.current_time ∧
      (reinsertLoop ps t s).direct_assign = s.direct_assign ∧
      (reinsertLoop ps t s).rng = s.rng := by
  intro ps
  induction ps with
  | nil => intro t s; exact ⟨rfl, rfl, rfl, rfl, rfl, rfl⟩
  | cons p rest ih =>
    intro t s
    show (reinsertLoop rest (t + 1/1000000)
        ((({ s with buffer := (s.buffer.enqueue_d1031 p t).2 } : SimState)).addLog
          .bufferEnqueue (some p.id) (some p.source_id) none)).calendar = _ ∧ _
    obtain ⟨h1, h2, h3, h4, h5, h6⟩ := ih (t + 1/1000000)
      ((({ s with buffer := (s.buffer.enqueue_d1031 p t).2 } : SimState)).addLog
        .bufferEnqueue (some p.id) (some p.source_id) none)
    exact ⟨h1, h2, h3, h4, h5, h6⟩

/-- Packet formation: everything except buffer, log and packet is untouched,
and the formed packet is non-empty, led by the seed. -/
theorem formPhase_frame (s : SimState) (now : Rat) (first : Post) :
    (formPhase s now first).calendar = s.calendar ∧
    (formPhase s now first).pool = s.pool ∧
    (formPhase s now first).current_time = s.current_time ∧
    (formPhase s now first).direct_assign = s.direct_assign ∧
    (formPhase s now first).rng = s.rng ∧
    ∃ ps, (formPhase s now first).packet = some ⟨first.source_id, first :: ps⟩ := by
  obtain ⟨hd1, hd2, hd3, hd4, hd5, hd6⟩ := drainLoop_frame
    ((s.addLog .bufferPick (some first.id) (some first.source_id) none).buffer.size + 1)
    (s.addLog .bufferPick (some first.id) (some first.source_id) none)
  cases hd : drainLoop
      ((s.addLog .bufferPick (some first.id) (some first.source_id) none).buffer.size + 1)
      (s.addLog .bufferPick (some first.id) (some first.source_id) none) with
  | mk pulledRest s2 =>
    rw [hd] at hd1 hd2 hd3 hd4 hd5 hd6
    have hstep : formPhase s now first =
        ((({ (reinsertLoop (((first :: pulledRest).filter
            (fun p : Post => ¬ (p.source_id = first.source_id))).reverse) now s2) with
          packet := some ⟨first.source_id,
            (first :: pulledRest).filter
              (fun p : Post => p.source_id = first.source_id)⟩ } : SimState)).addLog
          .packetFormed ((((first :: pulledRest).filter
            (fun p : Post => p.source_id = first.source_id)).getLast?).map Post.id)
          (some first.source_id) none) := by
      unfold formPhase
      simp only [SimState.addLog] at hd ⊢
      rw [hd]
    rw [hstep]
    obtain ⟨hr1, hr2, hr3, hr4, hr5, hr6⟩ := reinsertLoop_frame
      (((first :: pulledRest).filter
        (fun p : Post => ¬ (p.source_id = first.source_id))).reverse) now s2
    refine ⟨hr1.trans hd1, hr2.trans hd2, hr4.trans hd4, hr5.trans hd5,
      hr6.trans hd6, ?_⟩
    refine ⟨(pulledRest.filter (fun p : Post => p.source_id = first.source_id)), ?_⟩
    have hfc : List.filter (fun p : Post => decide (p.source_id = first.source_id))
        (first :: pulledRest)
        = first :: List.filter (fun p : Post => decide (p.source_id = first.source_id))
            pulledRest := List.filter_cons_of_pos (by simp)
    rw [← hfc]
    rfl

theorem dispatchPhase_eq_none (s : SimState)
    (hq : (dispatchLoop (packetLen s.packet) s).packet = none) :
    dispatchPhase s = dispatchLoop (packetLen s.packet) s := by
  unfold dispatchPhase
  show (match (dispatchLoop (packetLen s.packet) s).packet with
    | some pk => if pk.posts.isEmpty then
        { dispatchLoop (packetLen s.packet) s with packet := none }
      else dispatchLoop (packetLen s.packet) s
    | none => dispatchLoop (packetLen s.packet) s) = _
  rw [hq]

theorem dispatchPhase_eq_some_empty (s : SimState) (pk : Packet)
    (hq : (dispatchLoop (packetLen s.packet) s).packet = some pk)
    (hpe : pk.posts.isEmpty = true) :
    dispatchPhase s = { dispatchLoop (packetLen s.packet) s with packet := none } := by
  unfold dispatchPhase
  show (match (dispatchLoop (packetLen s.packet) s).packet with
    | some pk => if pk.posts.isEmpty then
        { dispatchLoop (packetLen s.packet) s with packet := none }
      else dispatchLoop (packetLen s.packet) s
    | none => dispatchLoop (packetLen s.packet) s) = _
  rw [hq]
  show (if pk.posts.isEmpty = true then
      { dispatchLoop (packetLen s.packet) s with packet := none }
    else dispatchLoop (packetLen s.packet) s) = _
  rw [if_pos hpe]

theorem dispatchPhase_eq_some_ne (s : SimState) (pk : Packet)
    (hq : (dispatchLoop (packetLen s.packet) s).packet = some pk)
    (hpe : pk.posts.isEmpty = false) :
    dispatchPhase s = dispatchLoop (packetLen s.packet) s := by
  unfold dispatchPhase
  show (match (dispatchLoop (packetLen s.packet) s).packet with
    | some pk => if pk.posts.isEmpty then
        { dispatchLoop (packetLen s.packet) s with packet := none }
      else dispatchLoop (packetLen s.packet) s
    | none => dispatchLoop (packetLen s.packet) s) = _
  rw [hq]
  show (if pk.posts.isEmpty = true then
      { dispatchLoop (packetLen s.packet) s with packet := none }
    else dispatchLoop (packetLen s.packet) s) = _
  rw [if_neg (by rw [hpe]; intro hcon; cases hcon)]

/-- `dispatchPhase` is the loop's result, possibly with the packet cleared. -/
theorem dispatchPhase_eq (s : SimState) :
    dispatchPhase s = dispatchLoop (packetLen s.packet) s ∨
    dispatchPhase s = { dispatchLoop (packetLen s.packet) s with packet := none } := by
  cases hq : (dispatchLoop (packetLen s.packet) s).packet with
  | none => exact Or.inl (dispatchPhase_eq_none s hq)
  | some pk =>
    cases hpe : pk.posts.isEmpty with
    | true => exact Or.inr (dispatchPhase_eq_some_empty s pk hq hpe)
    | false => exact Or.inl (dispatchPhase_eq_some_ne s pk hq hpe)

/-- `dispatchPhase` touches only pool (free → busy), packet, draws and log. -/
theorem dispatchPhase_frame (s : SimState) :
    (dispatchPhase s).calendar = s.calendar ∧
    (dispatchPhase s).buffer = s.buffer ∧
    (dispatchPhase s).current_time = s.current_time ∧
    (dispatchPhase s).direct_assign = s.direct_assign ∧
    (dispatchPhase s).rng = s.rng ∧
    PoolStep s.pool (dispatchPhase s).pool := by
  obtain ⟨h1, h2, h3, h4, h5, h6⟩ := dispatchLoop_frame (packetLen s.packet) s
  rcases dispatchPhase_eq s with he | he <;> rw [he] <;>
    exact ⟨h1, h2, h3, h4, h5, h6⟩

/-- With enough fuel the dispatch loop runs to its own exit: the packet is
exhausted or no device is free. -/
theorem dispatchLoop_exit :
    ∀ (fuel : Nat) (s : SimState), packetLen s.packet ≤ fuel →
      needForm (dispatchLoop fuel s).packet = true ∨
      (dispatchLoop fuel s).pool.any_free = false := by
  intro fuel
  induction fuel with
  | zero =>
    intro s hf
    cases hpk : s.packet with
    | none =>
      refine Or.inl ?_
      show needForm s.packet = true
      rw [hpk]
      rfl
    | some pk =>
      cases pk with
      | mk src posts =>
        cases posts with
        | nil =>
          refine Or.inl ?_
          show needForm s.packet = true
          rw [hpk]
          rfl
        | cons q qs =>
          exfalso
          have : packetLen s.packet = qs.length + 1 := by
            rw [hpk]
            rfl
          omega
  | succ fuel ih =>
    intro s hf
    cases hpk : s.packet with
    | none =>
      rw [dispatchLoop_succ_none fuel s hpk]
      refine Or.inl ?_
      rw [hpk]
      rfl
    | some pk =>
      cases pk with
      | mk src posts =>
        cases posts with
        | nil =>
          rw [dispatchLoop_succ_empty fuel s src hpk]
          refine Or.inl ?_
          rw [hpk]
          rfl
        | cons q qs =>
          cases hpick : s.pool.pick_cyclic_d2p2 with
          | mk o pool1 =>
            cases o with
            | none =>
              have hpool : pool1 = s.pool := by
                have hfr := DevicePool.pick_none_frame s.pool (by rw [hpick])
                rw [hpick] at hfr
                cases hfr
                rfl
              subst hpool
              rw [dispatchLoop_succ_nofree fuel s src q qs hpk hpick]
              refine Or.inr ?_
              cases haf : s.pool.any_free with
              | false => rfl
              | true =>
                exfalso
                obtain ⟨i, hi⟩ := DevicePool.pick_of_any_free s.pool haf
                rw [hpick] at hi
                cases hi
            | some i =>
              rw [dispatchLoop_succ_go fuel s src q qs i pool1 hpk hpick]
              apply ih
              have hpl : packetLen (dispatchStep s src (q :: qs) i pool1).packet
                  = qs.length := by
                show packetLen (some ⟨src, (q :: qs).dropLast⟩) = qs.length
                show (q :: qs).dropLast.length = qs.length
                rw [List.length_dropLast]
                rfl
              rw [hpl]
              have hlen : packetLen s.packet = qs.length + 1 := by
                rw [hpk]
                rfl
              omega

/-- After `dispatchPhase`, either the packet is spent or every device is busy. -/
theorem dispatchPhase_exit (s : SimState) :
    needForm (dispatchPhase s).packet = true ∨
    (dispatchPhase s).pool.any_free = false := by
  rcases dispatchLoop_exit (packetLen s.packet) s (le_refl _) with h | h <;>
    rcases dispatchPhase_eq s with he | he <;> rw [he]
  · exact Or.inl h
  · exact Or.inl rfl
  · exact Or.inr h
  · exact Or.inr h

/-- A pool pass never frees a device. -/
theorem PoolStep.no_new_free {p q : DevicePool} (h : PoolStep p q)
    (hb : p.any_free = false) : q.any_free = false := by
  obtain ⟨hl, he⟩ := h
  unfold DevicePool.any_free at hb ⊢
  rw [List.any_eq_false] at hb ⊢
  intro d hd
  obtain ⟨j, hj, hdj⟩ := List.getElem_of_mem hd
  have hjp : j < p.devices.length := by omega
  rcases he j hjp with hq | ⟨hb1, hb2, hid⟩
  · have hmem : d ∈ p.devices := by
      have : p.devices[j]? = some d := by
        rw [← hq, List.getElem?_eq_getElem hj, hdj]
      exact List.getElem?_mem this
    exact hb d hmem
  · have : q.devices[j]? = some d := by
      rw [List.getElem?_eq_getElem hj, hdj]
    rw [this] at hb2
    injection hb2 with hb3
    unfold Device.is_free
    rw [hb3]
    decide

/-! ## `on_device_freed` case equations and frame -/

theorem odf_noform (s : SimState) (now : Rat) (h : needForm s.packet = false) :
    on_device_freed s now = dispatchPhase s := by
  unfold on_device_freed
  rw [if_neg (by rw [h]; intro hcon; cases hcon)]

theorem odf_form_none (s : SimState) (now : Rat) (b1 : Buffer)
    (hform : needForm s.packet = true)
    (hp : s.buffer.pick_lifo_d2b2 = (none, b1)) :
    on_device_freed s now = { s with buffer := b1 } := by
  unfold on_device_freed
  rw [hform, if_pos rfl, hp]

theorem odf_form_some (s : SimState) (now : Rat) (first : Post) (b1 : Buffer)
    (hform : needForm s.packet = true)
    (hp : s.buffer.pick_lifo_d2b2 = (some first, b1)) :
    on_device_freed s now
      = dispatchPhase (formPhase { s with buffer := b1 } now first) := by
  unfold on_device_freed
  rw [hform, if_pos rfl, hp]

/-- `on_device_freed` touches only buffer, packet, pool (free → busy), draws
and log. -/
theorem odf_frame (s : SimState) (now : Rat) :
    (on_device_freed s now).calendar = s.calendar ∧
    (on_device_freed s now).current_time = s.current_time ∧
    (on_device_freed s now).direct_assign = s.direct_assign ∧
    (on_device_freed s now).rng = s.rng ∧
    PoolStep s.pool (on_device_freed s now).pool := by
  cases hform : needForm s.packet with
  | false =>
    rw [odf_noform s now hform]
    obtain ⟨h1, h2, h3, h4, h5, h6⟩ := dispatchPhase_frame s
    exact ⟨h1, h3, h4, h5, h6⟩
  | true =>
    cases hp : s.buffer.pick_lifo_d2b2 with
    | mk o b1 =>
      cases o with
      | none =>
        rw [odf_form_none s now b1 hform hp]
        exact ⟨rfl, rfl, rfl, rfl, PoolStep.self _⟩
      | some first =>
        rw [odf_form_some s now first b1 hform hp]
        obtain ⟨hf1, hf2, hf3, hf4, hf5, hf6⟩ :=
          formPhase_frame { s with buffer := b1 } now first
        obtain ⟨hd1, hd2, hd3, hd4, hd5, hd6⟩ :=
          dispatchPhase_frame (formPhase { s with buffer := b1 } now first)
        refine ⟨hd1.trans hf1, hd3.trans hf3, hd4.trans hf4, hd5.trans hf5, ?_⟩
        rw [hf2] at hd6
        exact hd6

/-! ## The safety net -/

/-- Full characterisation of the safety-net loop: afterwards every busy device
of the scanned list has exactly one pending completion, counts for other ids
are untouched, everything but calendar, draws and log is framed, and every new
calendar entry is a completion at `now + draw` for a scanned device. -/
theorem netLoop_spec (now : Rat) :
    ∀ (ds : List Device) (s : SimState),
      List.Pairwise (fun d1 d2 : Device => d1.id ≠ d2.id) ds →
      (∀ d ∈ ds, d.busy = true → cnt s.calendar d.id ≤ 1) →
      (∀ d ∈ ds, d.busy = true → cnt (netLoop now ds s).calendar d.id = 1) ∧
      (∀ j, (∀ d ∈ ds, d.busy = true → d.id ≠ j) →
        cnt (netLoop now ds s).calendar j = cnt s.calendar j) ∧
      (netLoop now ds s).pool = s.pool ∧
      (netLoop now ds s).buffer = s.buffer ∧
      (netLoop now ds s).packet = s.packet ∧
      (netLoop now ds s).current_time = s.current_time ∧
      (netLoop now ds s).direct_assign = s.direct_assign ∧
      (netLoop now ds s).rng = s.rng ∧
      (∀ e ∈ (netLoop now ds s).calendar, e ∈ s.calendar ∨
        ∃ d, d ∈ ds ∧ ∃ k, e = .completion (now + s.rng k) d.id) := by
  intro ds
  induction ds with
  | nil =>
    intro s hpw hpre
    exact ⟨fun d hd => absurd hd (List.not_mem_nil d),
      fun j hj => rfl, rfl, rfl, rfl, rfl, rfl, rfl,
      fun e he => Or.inl he⟩
  | cons d rest ih =>
    intro s hpw hpre
    have hpwrest : List.Pairwise (fun d1 d2 : Device => d1.id ≠ d2.id) rest :=
      (List.pairwise_cons.mp hpw).2
    have hdistinct : ∀ d2 ∈ rest, d.id ≠ d2.id := (List.pairwise_cons.mp hpw).1
    by_cases hcond : (d.busy = true ∧ ¬ (hasCompletionFor s.calendar d.id = true))
    · -- the net schedules one completion for `d`
      set ev : Event := .completion (now + s.rng s.rngIdx) d.id with hev
      set s1 : SimState :=
        ({ s with rngIdx := s.rngIdx + 1 } : SimState).schedule ev with hs1
      have hstep : netLoop now (d :: rest) s = netLoop now rest s1 := by
        show netLoop now rest
          (if d.busy = true ∧ ¬ (hasCompletionFor s.calendar d.id = true) then
            match s.draw with
            | (tserv, sa) => sa.schedule (.completion (now + tserv) d.id)
          else s) = _
        rw [if_pos hcond]
        rfl
      rw [hstep]
      have hs1cal : s1.calendar = heappush s.calendar ev := rfl
      have hcnt0 : cnt s.calendar d.id = 0 := by
        have hn := hcond.2
        rw [hasCompletionFor_iff] at hn
        omega
      have hcnts1 : ∀ j, cnt s1.calendar j
          = cnt s.calendar j + (if d.id = j then 1 else 0) := by
        intro j
        rw [hs1cal, cnt_heappush]
        congr 1
        rw [hev]
        show (if (decide (d.id = j)) = true then 1 else 0) = _
        by_cases hdj : d.id = j
        · rw [if_pos (by rw [hdj]; simp), if_pos hdj]
        · rw [if_neg (by simpa using hdj), if_neg hdj]
      have hpre1 : ∀ d2 ∈ rest, d2.busy = true → cnt s1.calendar d2.id ≤ 1 := by
        intro d2 hd2 hb2
        rw [hcnts1, if_neg (hdistinct d2 hd2)]
        have := hpre d2 (List.mem_cons_of_mem d hd2) hb2
        omega
      obtain ⟨g1, g2, g3, g4, g5, g6, g7, g8, g9⟩ := ih s1 hpwrest hpre1
      refine ⟨?_, ?_, g3, g4, g5, g6, g7, g8, ?_⟩
      · intro d2 hd2 hb2
        rcases List.mem_cons.mp hd2 with hh | hh
        · subst hh
          rw [g2 d2.id (fun d3 hd3 _ => (hdistinct d3 hd3).symm)]
          rw [hcnts1, if_pos rfl, hcnt0]
        · exact g1 d2 hh hb2
      · intro j hj
        rw [g2 j (fun d3 hd3 hb3 => hj d3 (List.mem_cons_of_mem d hd3) hb3)]
        rw [hcnts1, if_neg (hj d (List.mem_cons_self d rest) hcond.1)]
        omega
      · intro e he
        rcases g9 e he with hin | ⟨d2, hd2, k, hk⟩
        · rw [hs1cal] at hin
          rcases List.mem_cons.mp ((heappush_perm s.calendar ev).mem_iff.mp hin)
            with hh | hh
          · exact Or.inr ⟨d, List.mem_cons_self d rest, s.rngIdx, by rw [hh, hev]⟩
          · exact Or.inl hh
        · refine Or.inr ⟨d2, List.mem_cons_of_mem d hd2, k, ?_⟩
          have hrg : s1.rng = s.rng := rfl
          rw [hk, hrg]
    · -- nothing to schedule for `d`
      have hstep : netLoop now (d :: rest) s = netLoop now rest s := by
        show netLoop now rest
          (if d.busy = true ∧ ¬ (hasCompletionFor s.calendar d.id = true) then
            match s.draw with
            | (tserv, sa) => sa.schedule (.completion (now + tserv) d.id)
          else s) = _
        rw [if_neg hcond]
      rw [hstep]
      have hpre1 : ∀ d2 ∈ rest, d2.busy = true → cnt s.calendar d2.id ≤ 1 :=
        fun d2 hd2 hb2 => hpre d2 (List.mem_cons_of_mem d hd2) hb2
      obtain ⟨g1, g2, g3, g4, g5, g6, g7, g8, g9⟩ := ih s hpwrest hpre1
      refine ⟨?_, ?_, g3, g4, g5, g6, g7, g8, ?_⟩
      · intro d2 hd2 hb2
        rcases List.mem_cons.mp hd2 with hh | hh
        · subst hh
          have hhas : hasCompletionFor s.calendar d2.id = true := by
            by_cases hv : hasCompletionFor s.calendar d2.id = true
            · exact hv
            · exact absurd ⟨hb2, hv⟩ hcond
          have hpos : 0 < cnt s.calendar d2.id := (hasCompletionFor_iff _ _).mp hhas
          have hle := hpre d2 (List.mem_cons_self d2 rest) hb2
          rw [g2 d2.id (fun d3 hd3 _ => (hdistinct d3 hd3).symm)]
          omega
        · exact g1 d2 hh hb2
      · intro j hj
        exact g2 j (fun d3 hd3 hb3 => hj d3 (List.mem_cons_of_mem d hd3) hb3)
      · intro e he
        rcases g9 e he with hin | ⟨d2, hd2, k, hk⟩
        · exact Or.inl hin
        · exact Or.inr ⟨d2, List.mem_cons_of_mem d hd2, k, hk⟩

/-! ## `handle_publish` state effects -/

/-- Direct-assignment hit: the post goes straight to device index `i`. -/
theorem handle_publish_direct (s : SimState) (post : Post) (now : Rat)
    (i : Nat) (pool1 : DevicePool)
    (hda : s.direct_assign = true)
    (hpick : s.pool.pick_cyclic_d2p2 = (some i, pool1)) :
    handle_publish s post now =
      (⟨202, false, none, some (((pool1.devices[i]?).map Device.id).getD i)⟩,
       ((({ s with pool := pool1.startAt i post } : SimState).draw).2).addLog
         .assignToDevice (some post.id) (some post.source_id)
         (some (((pool1.devices[i]?).map Device.id).getD i))) := by
  obtain ⟨ct, cal, buf, pl, npi, gen, qd, srv, ev, ds, da, pkt, rg, ri, lo⟩ := s
  simp only at hda hpick
  subst hda
  conv_lhs => unfold handle_publish
  rw [hpick]
  rfl

/-- Buffer-admission path: calendar, pool and packet are untouched, the buffer
takes the (drop-oldest-then-) enqueue result, and no device is assigned. -/
theorem handle_publish_buffer_state (s : SimState) (post : Post) (now : Rat)
    (hpath : s.direct_assign = false ∨ (s.pool.pick_cyclic_d2p2).1 = none) :
    (handle_publish s post now).2.calendar = s.calendar ∧
    (handle_publish s post now).2.pool = s.pool ∧
    (handle_publish s post now).2.packet = s.packet ∧
    (handle_publish s post now).2.current_time = s.current_time ∧
    (handle_publish s post now).2.direct_assign = s.direct_assign ∧
    (handle_publish s post now).2.rng = s.rng ∧
    (handle_publish s post now).2.buffer =
      ((if s.buffer.is_full then (s.buffer.drop_oldest_d10o3).2
        else s.buffer).enqueue_d1031 post now).2 ∧
    (handle_publish s post now).1.assigned_device_id = none := by
  have hdirNone :
      (if s.direct_assign then
        match s.pool.pick_cyclic_d2p2 with
        | (some i, pool1) => some (i, pool1)
        | (none, _) => none
      else none) = (none : Option (Nat × DevicePool)) := by
    by_cases hda : s.direct_assign = true
    · rcases hpath with hfa | hpk
      · rw [hfa] at hda; cases hda
      · rw [if_pos hda]
        cases hpick : s.pool.pick_cyclic_d2p2 with
        | mk o pool1 =>
          rw [hpick] at hpk
          simp only at hpk
          subst hpk
          rfl
    · have hda' : s.direct_assign = false := by
        cases hv : s.direct_assign
        · rfl
        · rw [hv] at hda; exact absurd rfl hda
      rw [if_neg hda]
  unfold handle_publish
  rw [hdirNone]
  by_cases hfull : s.buffer.is_full = true
  · simp only [hfull, if_true]
    cases hdrop : s.buffer.drop_oldest_d10o3 with
    | mk o b1 =>
      cases o with
      | none =>
        simp only [SimState.addLog]
        cases henq : b1.enqueue_d1031 post now with
        | mk ok b2 => cases ok <;> simp [hdrop, henq, SimState.addLog]
      | some dropped =>
        simp only [SimState.addLog]
        cases henq : b1.enqueue_d1031 post now with
        | mk ok b2 => cases ok <;> simp [hdrop, henq, SimState.addLog]
  · have hfull' : s.buffer.is_full = false := by
      cases hv : s.buffer.is_full
      · rfl
      · exact absurd hv hfull
    rw [hfull']
    simp only [Bool.false_eq_true, if_false]
    cases henq : s.buffer.enqueue_d1031 post now with
    | mk ok b2 => cases ok <;> simp [henq, SimState.addLog]

/-! ## `ArrivalEvent.process` core effects -/

/-- Buffer-path arrival: one arrival is rescheduled, placement touches only
the buffer, and no completion is scheduled. -/
theorem arrivalCore_buffer (s : SimState) (t : Rat) (source : Nat)
    (hpath : s.direct_assign = false ∨ (s.pool.pick_cyclic_d2p2).1 = none) :
    ∃ k, (arrivalCore s t source).1.calendar
        = heappush s.calendar (.arrival (t + s.rng k) source) ∧
      (arrivalCore s t source).1.pool = s.pool ∧
      (arrivalCore s t source).1.packet = s.packet ∧
      (arrivalCore s t source).1.current_time = t ∧
      (arrivalCore s t source).1.direct_assign = s.direct_assign ∧
      (arrivalCore s t source).1.rng = s.rng ∧
      (arrivalCore s t source).1.buffer =
        ((if s.buffer.is_full then (s.buffer.drop_oldest_d10o3).2
          else s.buffer).enqueue_d1031 ⟨s.next_post_id, source, t⟩ t).2 := by
  obtain ⟨ct, cal, buf, pl, npi, gen, qd, srv, ev, ds, da, pkt, rg, ri, lo⟩ := s
  simp only at hpath
  unfold arrivalCore
  dsimp only
  obtain ⟨res, s3, hhp⟩ : ∃ res s3,
      handle_publish
        (({ current_time := t, calendar := cal, buffer := buf, pool := pl,
            next_post_id := npi + 1, generated := gen + 1, queued := qd, served := srv,
            evicted := ev, direct_stat := ds, direct_assign := da, packet := pkt,
            rng := rg, rngIdx := ri, log_output := lo } : SimState).addLog
          .arrival (some npi) (some source) none)
        ⟨npi, source, t⟩ t = (res, s3) := ⟨_, _, rfl⟩
  obtain ⟨hc1, hc2, hc3, hc4, hc5, hc6, hc7, hc8⟩ :=
    handle_publish_buffer_state
      (({ current_time := t, calendar := cal, buffer := buf, pool := pl,
          next_post_id := npi + 1, generated := gen + 1, queued := qd, served := srv,
          evicted := ev, direct_stat := ds, direct_assign := da, packet := pkt,
          rng := rg, rngIdx := ri, log_output := lo } : SimState).addLog
        .arrival (some npi) (some source) none)
      ⟨npi, source, t⟩ t hpath
  rw [hhp] at hc1 hc2 hc3 hc4 hc5 hc6 hc7 hc8
  simp only at hc1 hc2 hc3 hc4 hc5 hc6 hc7 hc8
  simp only [hhp]
  rw [hc8]
  cases hresq : res.queued with
  | true =>
    refine ⟨s3.rngIdx, ?_, ?_, ?_, ?_, ?_, ?_, ?_⟩
    · show heappush s3.calendar (.arrival (t + s3.rng s3.rngIdx) source)
        = heappush cal (.arrival (t + rg s3.rngIdx) source)
      rw [hc1, hc6]
      rfl
    · exact hc2
    · exact hc3
    · exact hc4
    · exact hc5
    · exact hc6
    · exact hc7
  | false =>
    refine ⟨s3.rngIdx, ?_, ?_, ?_, ?_, ?_, ?_, ?_⟩
    · show heappush s3.calendar (.arrival (t + s3.rng s3.rngIdx) source)
        = heappush cal (.arrival (t + rg s3.rngIdx) source)
      rw [hc1, hc6]
      rfl
    · exact hc2
    · exact hc3
    · exact hc4
    · exact hc5
    · exact hc6
    · exact hc7

/-- Direct-path arrival: the post starts on the picked device, one arrival is
rescheduled and one completion is scheduled for the resolved device id. -/
theorem arrivalCore_direct (s : SimState) (t : Rat) (source : Nat)
    (i : Nat) (pool1 : DevicePool)
    (hda : s.direct_assign = true)
    (hpick : s.pool.pick_cyclic_d2p2 = (some i, pool1)) :
    ∃ k1 k2,
      (arrivalCore s t source).1.calendar
        = heappush (heappush s.calendar (.arrival (t + s.rng k1) source))
            (.completion (t + s.rng k2)
              ((((pool1.startAt i ⟨s.next_post_id, source, t⟩).devices[
                  (((pool1.devices[i]?).map Device.id).getD i)]?).map Device.id).getD
                (((pool1.devices[i]?).map Device.id).getD i))) ∧
      (arrivalCore s t source).1.pool
        = pool1.startAt i ⟨s.next_post_id, source, t⟩ ∧
      (arrivalCore s t source).1.packet = s.packet ∧
      (arrivalCore s t source).1.current_time = t ∧
      (arrivalCore s t source).1.direct_assign = s.direct_assign ∧
      (arrivalCore s t source).1.rng = s.rng ∧
      (arrivalCore s t source).1.buffer = s.buffer := by
  obtain ⟨ct, cal, buf, pl, npi, gen, qd, srv, ev, ds, da, pkt, rg, ri, lo⟩ := s
  simp only at hda hpick
  subst hda
  unfold arrivalCore
  dsimp only
  have hhp := handle_publish_direct
    (({ current_time := t, calendar := cal, buffer := buf, pool := pl,
        next_post_id := npi + 1, generated := gen + 1, queued := qd, served := srv,
        evicted := ev, direct_stat := ds, direct_assign := true, packet := pkt,
        rng := rg, rngIdx := ri, log_output := lo } : SimState).addLog
      .arrival (some npi) (some source) none)
    ⟨npi, source, t⟩ t i pool1 rfl hpick
  simp only [hhp]
  exact ⟨ri + 1, ri + 2, rfl, rfl, rfl, rfl, rfl, rfl, rfl⟩

/-! ## Step equations -/

theorem processArrival_eq (s : SimState) (t : Rat) (src : Nat) :
    processArrival s t src
      = (if selGuard (arrivalCore s t src).1
         then safetyNet (on_device_freed (arrivalCore s t src).1 t) t
         else (arrivalCore s t src).1) := rfl

theorem stepState_none (s : SimState) (h : heappop s.calendar = none) :
    stepState s = s := by
  unfold stepState stepB
  rw [h]

theorem stepState_arrival (s : SimState) (t : Rat) (src : Nat) (cal1 : List Event)
    (h : heappop s.calendar = some (.arrival t src, cal1)) :
    stepState s = processArrival { s with calendar := cal1 } t src := by
  unfold stepState stepB
  rw [h]

theorem stepState_completion (s : SimState) (t : Rat) (devId : Nat)
    (cal1 : List Event)
    (h : heappop s.calendar = some (.completion t devId, cal1)) :
    stepState s = processCompletion { s with calendar := cal1 } t devId := by
  unfold stepState stepB
  rw [h]

theorem processCompletion_eq (s : SimState) (t : Rat) (devId : Nat) (d : Device)
    (hd : s.pool.devices[devId]? = some d) :
    processCompletion s t devId
      = safetyNet (on_device_freed
          ((if (d.current_post).isSome = true then
              ({ s with current_time := t, pool := { s.pool with devices := s.pool.devices.set devId ⟨d.id, false, none⟩ }, served := s.served + 1 } : SimState)
            else
              ({ s with current_time := t, pool := { s.pool with devices := s.pool.devices.set devId ⟨d.id, false, none⟩ } } : SimState)).addLog
            .serviceComplete ((d.current_post).map Post.id)
            ((d.current_post).map Post.source_id) (some devId)) t) t := by
  obtain ⟨ct, cal, buf, pl, npi, gen, qd, srv, ev, ds, da, pkt, rg, ri, lo⟩ := s
  simp only at hd
  unfold processCompletion
  dsimp only
  rw [hd]

/-! ## Buffer helper facts for the invariant -/

/-- A failed newest-pick leaves the buffer untouched. -/
theorem Buffer.pick_lifo_none_snd (b : Buffer)
    (h : (b.pick_lifo_d2b2).1 = none) : b.pick_lifo_d2b2 = (none, b) := by
  unfold Buffer.pick_lifo_d2b2 at h ⊢
  by_cases hneg : (Buffer.newestLoop b.slots 0 (-1) (-1)).2 < 0
  · rw [if_pos hneg]
  · exfalso
    rcases Buffer.newestLoop_cases b.slots 0 (-1) (-1) with
      ⟨heq, _⟩ | ⟨k, sl, hk, hocc, _, heq, _, _⟩
    · rw [heq] at hneg
      exact hneg (by norm_num)
    · rw [if_neg hneg] at h
      rw [heq] at h
      have hk2 : b.slots[((0 + k : Nat) : Int).toNat]? = some sl := by
        have hz : ((0 + k : Nat) : Int).toNat = k := by omega
        rw [hz]
        exact hk
      rw [hk2] at h
      have h2 : sl.post = none := h
      unfold slotOcc at hocc
      rw [h2] at hocc
      cases hocc

/-- Clearing a slot preserves the timestamp bound. -/
theorem Buffer.WFT_set_none (b : Buffer) (j : Nat)
    (hT : b.WFT) : Buffer.WFT { b with slots := b.slots.set j ⟨none, 0⟩, size := b.size - 1 } := by
  intro sl hsl hocc
  show 0 ≤ sl.enqueued_at
  rcases List.mem_or_eq_of_mem_set hsl with hmem | heq
  · exact hT sl hmem hocc
  · rw [heq] at hocc
    cases hocc

theorem length_filterMap_occ :
    ∀ (l : List BufferSlot),
      (l.filterMap (fun s => s.post.map (fun p => (p, s.enqueued_at)))).length
        = l.countP slotOcc
  | [] => rfl
  | s :: rest => by
    rw [List.filterMap_cons, List.countP_cons]
    cases hp : s.post with
    | none =>
      have hocc : slotOcc s = false := by unfold slotOcc; rw [hp]; rfl
      rw [hocc]
      show (rest.filterMap (fun s => s.post.map (fun p => (p, s.enqueued_at)))).length
        = rest.countP slotOcc + if false = true then 1 else 0
      rw [length_filterMap_occ rest]
      rfl
    | some p =>
      have hocc : slotOcc s = true := by unfold slotOcc; rw [hp]; rfl
      rw [hocc]
      show ((p, s.enqueued_at) ::
        rest.filterMap (fun s => s.post.map (fun p => (p, s.enqueued_at)))).length
        = rest.countP slotOcc + if true = true then 1 else 0
      rw [List.length_cons, length_filterMap_occ rest]
      rfl

theorem Buffer.size_eq_occList_length (b : Buffer) (hB : b.WFB) :
    b.size = b.occList.length := by
  rw [hB.2]
  unfold Buffer.occList
  rw [length_filterMap_occ]

/-- Effect of the publish buffer path on the buffer: well-formedness is kept,
and if the buffer was empty with positive capacity the post lands in it. -/
theorem buffer_path_wf (b : Buffer) (post : Post) (now : Rat)
    (hB : b.WFB) (hT : b.WFT) (hnow : 0 ≤ now) :
    (((if b.is_full then (b.drop_oldest_d10o3).2
      else b).enqueue_d1031 post now).2).WFB ∧
    (((if b.is_full then (b.drop_oldest_d10o3).2
      else b).enqueue_d1031 post now).2).WFT := by
  by_cases hfull : b.is_full = true
  · rw [if_pos hfull]
    by_cases hsz : b.size = 0
    · -- zero-capacity buffer: both operations are identity
      have hcnt : b.slots.countP slotOcc = 0 := hB.2 ▸ hsz
      have hcap : b.capacity = 0 := by
        have : (b.size : Nat) = b.capacity := by
          have hf := hfull
          unfold Buffer.is_full at hf
          exact of_decide_eq_true hf
        omega
      have hdrop : b.drop_oldest_d10o3 = (none, b) := by
        unfold Buffer.drop_oldest_d10o3
        cases hol : Buffer.oldestLoop b.slots 0 none with
        | none => rfl
        | some r =>
          exfalso
          have hno : ∀ sl ∈ b.slots, ¬ (slotOcc sl = true) := List.countP_eq_zero.mp hcnt
          have hQ : ∃ sl, b.slots[r.2]? = some sl ∧ sl.post.isSome = true := by
            refine Buffer.oldestLoop_valid
              (fun r => ∃ sl, b.slots[r.2]? = some sl ∧ sl.post.isSome = true)
              b.slots 0 none ?_ ?_ r hol
            · intro r0 h0
              cases h0
            · intro k sl hk hs
              exact ⟨sl, by simpa using hk, hs⟩
          obtain ⟨sl, hsl, hso⟩ := hQ
          exact hno sl (List.getElem?_mem hsl) hso
      rw [hdrop]
      have henq : b.enqueue_d1031 post now = (false, b) := by
        unfold Buffer.enqueue_d1031
        rw [if_pos hfull]
      rw [henq]
      exact ⟨hB, hT⟩
    · obtain ⟨j, q, ts, hj, hdrop, hWFBd⟩ := Buffer.drop_oldest_spec b hB hsz
      rw [hdrop]
      have hWFTd := Buffer.WFT_set_none b j hT
      have hlt : ({ b with slots := b.slots.set j ⟨none, 0⟩, size := b.size - 1 } : Buffer).size
          < ({ b with slots := b.slots.set j ⟨none, 0⟩, size := b.size - 1 } : Buffer).capacity := by
        show b.size - 1 < b.capacity
        have hsc : b.size = b.capacity := by
          have hf := hfull
          unfold Buffer.is_full at hf
          exact of_decide_eq_true hf
        omega
      obtain ⟨j2, s2, hj2, hnone2, henq, hWFBe, hWFTe, hperm⟩ :=
        Buffer.enqueue_spec _ post now hWFBd hlt
      rw [henq]
      exact ⟨hWFBe, hWFTe hWFTd hnow⟩
  · have hfull' : b.is_full = false := by
      cases hv : b.is_full
      · rfl
      · exact absurd hv hfull
    rw [hfull']
    simp only [Bool.false_eq_true, if_false]
    have hlt : b.size < b.capacity := by
      have hne : ¬ (b.size = b.capacity) := by
        intro hcon
        have : b.is_full = true := by
          unfold Buffer.is_full
          exact decide_eq_true hcon
        rw [this] at hfull'
        cases hfull'
      have hle : b.size ≤ b.capacity := by
        rw [hB.2, ← hB.1]
        exact List.countP_le_length slotOcc
      omega
    obtain ⟨j2, s2, hj2, hnone2, henq, hWFBe, hWFTe, hperm⟩ :=
      Buffer.enqueue_spec b post now hB hlt
    rw [henq]
    exact ⟨hWFBe, hWFTe hT hnow⟩

/-! ## Device-id bookkeeping -/

/-- Ids-are-indices is preserved by a pool pass. -/
theorem PoolStep.ids {p q : DevicePool} (h : PoolStep p q)
    (hids : ∀ i, i < p.devices.length → (p.devices[i]?).map Device.id = some i) :
    ∀ i, i < q.devices.length → (q.devices[i]?).map Device.id = some i := by
  intro i hi
  have hip : i < p.devices.length := by
    obtain ⟨hl, _⟩ := h
    omega
  rcases h.2 i hip with hq | ⟨_, _, hid⟩
  · rw [hq]
    exact hids i hip
  · rw [hid]
    exact hids i hip

theorem ids_pairwise (devs : List Device)
    (hids : ∀ i, i < devs.length → (devs[i]?).map Device.id = some i) :
    List.Pairwise (fun d1 d2 : Device => d1.id ≠ d2.id) devs := by
  rw [List.pairwise_iff_getElem]
  intro i j hi hj hij
  have h1 : devs[i].id = i := by
    have := hids i hi
    rw [List.getElem?_eq_getElem hi] at this
    injection this
  have h2 : devs[j].id = j := by
    have := hids j hj
    rw [List.getElem?_eq_getElem hj] at this
    injection this
  rw [h1, h2]
  omega

theorem mem_ids_lt (devs : List Device)
    (hids : ∀ i, i < devs.length → (devs[i]?).map Device.id = some i)
    (d : Device) (hd : d ∈ devs) : d.id < devs.length := by
  obtain ⟨j, hj, hdj⟩ := List.getElem_of_mem hd
  have := hids j hj
  rw [List.getElem?_eq_getElem hj, hdj] at this
  have hid : d.id = j := by injection this
  omega

/-- One successful pick followed by `start_process` is a pool pass. -/
theorem pick_startAt_poolStep (p : DevicePool) (i : Nat) (pool1 : DevicePool)
    (post : Post) (hpick : p.pick_cyclic_d2p2 = (some i, pool1)) :
    PoolStep p (pool1.startAt i post) := by
  have hfree := (C10_pick_cyclic_frame p).2 i pool1 hpick
  obtain ⟨hdev, hcur, d, hd, hdfree⟩ := hfree
  have hfree2 : (pool1.devices[i]?).map Device.busy = some false := by
    rw [hdev, hd]
    have hb : d.busy = false := by
      unfold Device.is_free at hdfree
      cases hb : d.busy
      · rfl
      · rw [hb] at hdfree; cases hdfree
    show some d.busy = some false
    rw [hb]
  have hps := DevicePool.startAt_poolStep pool1 i post hfree2
  obtain ⟨hl, he⟩ := hps
  refine ⟨by rw [hl, hdev], fun j hj => ?_⟩
  have hj1 : j < pool1.devices.length := by rw [hdev]; exact hj
  rcases he j hj1 with hq | ⟨hb1, hb2, hid⟩
  · rw [hdev] at hq
    exact Or.inl hq
  · rw [hdev] at hb1 hid
    exact Or.inr ⟨hb1, hb2, hid⟩

/-- A failed pick means no device is free. -/
theorem pick_none_any_free (p : DevicePool)
    (h : (p.pick_cyclic_d2p2).1 = none) : p.any_free = false := by
  cases haf : p.any_free with
  | false => rfl
  | true =>
    exfalso
    obtain ⟨i, hi⟩ := DevicePool.pick_of_any_free p haf
    rw [hi] at h
    cases h

/-! ## The reachable-state invariant -/

/-- Invariant maintained by `step()`: device ids equal their pool index; a
busy device has exactly one pending completion and a free one none;
completion ids are in range; the buffer is well-formed; whenever some device
is free the buffer is empty and no packet is pending; and the clock, all
event stamps and the whole oracle stream are non-negative. -/
def SimInv (s : SimState) : Prop :=
  (∀ i, i < s.pool.devices.length →
    (s.pool.devices[i]?).map Device.id = some i) ∧
  (∀ i, i < s.pool.devices.length →
    ((s.pool.devices[i]?).map Device.busy = some true → cnt s.calendar i = 1) ∧
    ((s.pool.devices[i]?).map Device.busy = some false → cnt s.calendar i = 0)) ∧
  (∀ (tt : Rat) (j : Nat), Event.completion tt j ∈ s.calendar →
    j < s.pool.devices.length) ∧
  s.buffer.WFB ∧ s.buffer.WFT ∧
  (s.pool.any_free = true → s.buffer.size = 0 ∧ needForm s.packet = true) ∧
  0 ≤ s.current_time ∧
  (∀ e ∈ s.calendar, 0 ≤ e.time) ∧
  (∀ k, 0 ≤ s.rng k)

/-- The freed buffer stays well-formed through a dispatcher pass. -/
theorem odf_buffer_wf (m : SimState) (now : Rat)
    (hB : m.buffer.WFB) (hT : m.buffer.WFT) (hnow : 0 ≤ now) :
    (on_device_freed m now).buffer.WFB ∧ (on_device_freed m now).buffer.WFT := by
  cases hform : needForm m.packet with
  | false =>
    rw [odf_noform m now hform]
    obtain ⟨_, hb, _, _, _, _⟩ := dispatchPhase_frame m
    rw [hb]
    exact ⟨hB, hT⟩
  | true =>
    cases hp : m.buffer.pick_lifo_d2b2 with
    | mk o b1 =>
      cases o with
      | none =>
        have hfr := Buffer.pick_lifo_none_snd m.buffer (by rw [hp])
        rw [hp] at hfr
        have hb1 : b1 = m.buffer := by cases hfr; rfl
        subst hb1
        rw [odf_form_none m now m.buffer hform hp]
        exact ⟨hB, hT⟩
      | some first =>
        have hsz : m.buffer.size ≠ 0 := by
          intro h0
          have hcnt : m.buffer.slots.countP slotOcc = 0 := hB.2 ▸ h0
          have := Buffer.pick_lifo_none m.buffer hcnt
          rw [hp] at this
          cases this
        obtain ⟨k, p, ts, hks, hts0, hpick, hWFB1, hWFT1, _, _, _, _⟩ :=
          Buffer.pick_lifo_step m.buffer hB hT hsz
        rw [hp] at hpick
        injection hpick with h1 h2
        rw [odf_form_some m now first b1 hform hp]
        obtain ⟨_, hdb, _, _, _, _⟩ :=
          dispatchPhase_frame (formPhase { m with buffer := b1 } now first)
        rw [hdb]
        have hWFB1' : b1.WFB := by rw [h2]; exact hWFB1
        have hWFT1' : b1.WFT := by rw [h2]; exact hWFT1
        obtain ⟨_, hfB, hfT, _, _, _, _⟩ :=
          formPhase_spec { m with buffer := b1 } now first hWFB1' hWFT1' hnow
        exact ⟨hfB, hfT⟩

/-- After a freed-device pass and its safety net, the full invariant holds,
provided the pass is entered with per-device counts bounded by one and the
post-pass free/empty condition is separately established. -/
theorem post_dispatch_inv (m : SimState) (now : Rat)
    (ha : ∀ i, i < m.pool.devices.length →
      (m.pool.devices[i]?).map Device.id = some i)
    (hb1 : ∀ i, i < m.pool.devices.length →
      (m.pool.devices[i]?).map Device.busy = some true → cnt m.calendar i ≤ 1)
    (hb0 : ∀ i, i < m.pool.devices.length →
      (m.pool.devices[i]?).map Device.busy = some false → cnt m.calendar i = 0)
    (hc : ∀ (tt : Rat) (j : Nat), Event.completion tt j ∈ m.calendar →
      j < m.pool.devices.length)
    (hB : m.buffer.WFB) (hT : m.buffer.WFT)
    (hnow : 0 ≤ now) (hct : m.current_time = now)
    (htimes : ∀ e ∈ m.calendar, 0 ≤ e.time)
    (horacle : ∀ k, 0 ≤ m.rng k)
    (hE2 : (on_device_freed m now).pool.any_free = true →
      (on_device_freed m now).buffer.size = 0 ∧
      needForm (on_device_freed m now).packet = true) :
    SimInv (safetyNet (on_device_freed m now) now) := by
  obtain ⟨ho1, ho2, ho3, ho4, ho5⟩ := odf_frame m now
  set m2 : SimState := on_device_freed m now with hm2
  have hlen2 : m2.pool.devices.length = m.pool.devices.length := ho5.1
  have ha2 : ∀ i, i < m2.pool.devices.length →
      (m2.pool.devices[i]?).map Device.id = some i :=
    PoolStep.ids ho5 ha
  have hpw2 : List.Pairwise (fun d1 d2 : Device => d1.id ≠ d2.id) m2.pool.devices :=
    ids_pairwise m2.pool.devices ha2
  have hpre2 : ∀ d ∈ m2.pool.devices, d.busy = true → cnt m2.calendar d.id ≤ 1 := by
    intro d hd hbusy
    obtain ⟨j, hj, hdj⟩ := List.getElem_of_mem hd
    have hidj : d.id = j := by
      have := ha2 j hj
      rw [List.getElem?_eq_getElem hj, hdj] at this
      injection this
    have hjm : j < m.pool.devices.length := by omega
    rw [hidj, ho1]
    rcases ho5.2 j hjm with hq | ⟨hf1, _, _⟩
    · apply hb1 j hjm
      rw [← hq, List.getElem?_eq_getElem hj, hdj]
      show some d.busy = some true
      rw [hbusy]
    · rw [hb0 j hjm hf1]
      omega
  obtain ⟨g1, g2, g3, g4, g5, g6, g7, g8, g9⟩ :=
    netLoop_spec now m2.pool.devices m2 hpw2 hpre2
  show SimInv (netLoop now m2.pool.devices m2)
  refine ⟨?_, ?_, ?_, ?_, ?_, ?_, ?_, ?_, ?_⟩
  · intro i hi
    rw [g3]
    rw [g3] at hi
    exact ha2 i hi
  · intro i hi
    rw [g3] at hi
    constructor
    · intro hbusy
      rw [g3] at hbusy
      obtain ⟨d, hd⟩ : ∃ d, m2.pool.devices[i]? = some d := by
        cases hv : m2.pool.devices[i]? with
        | none => rw [hv] at hbusy; cases hbusy
        | some d => exact ⟨d, rfl⟩
      have hdb : d.busy = true := by
        rw [hd] at hbusy
        injection hbusy
      have hdid : d.id = i := by
        have := ha2 i hi
        rw [hd] at this
        injection this
      have := g1 d (List.getElem?_mem hd) hdb
      rw [hdid] at this
      exact this
    · intro hfree
      rw [g3] at hfree
      obtain ⟨d, hd⟩ : ∃ d, m2.pool.devices[i]? = some d := by
        cases hv : m2.pool.devices[i]? with
        | none => rw [hv] at hfree; cases hfree
        | some d => exact ⟨d, rfl⟩
      have hdb : d.busy = false := by
        rw [hd] at hfree
        injection hfree
      have hnone : ∀ d2 ∈ m2.pool.devices, d2.busy = true → d2.id ≠ i := by
        intro d2 hd2 hb2
        obtain ⟨j, hj, hdj⟩ := List.getElem_of_mem hd2
        have hidj : d2.id = j := by
          have := ha2 j hj
          rw [List.getElem?_eq_getElem hj, hdj] at this
          injection this
        rw [hidj]
        intro hji
        subst hji
        rw [List.getElem?_eq_getElem hj, hdj] at hd
        have : d2 = d := by injection hd
        rw [this] at hb2
        rw [hb2] at hdb
        cases hdb
      rw [g2 i hnone]
      -- count in `m2` equals count in `m`, and the device was already free
      have him : i < m.pool.devices.length := by omega
      rw [ho1]
      rcases ho5.2 i him with hq | ⟨_, hb2, _⟩
      · apply hb0 i him
        rw [← hq, hd]
        show some d.busy = some false
        rw [hdb]
      · rw [hd] at hb2
        have : d.busy = true := by injection hb2
        rw [this] at hdb
        cases hdb
  · intro tt j hmem
    rw [g3]
    rcases g9 _ hmem with hin | ⟨d, hd, k, hk⟩
    · rw [ho1] at hin
      have := hc tt j hin
      omega
    · have hdid := mem_ids_lt m2.pool.devices ha2 d hd
      have : j = d.id := by
        injection hk with h1 h2
      omega
  · rw [g4]
    exact (odf_buffer_wf m now hB hT hnow).1
  · rw [g4]
    exact (odf_buffer_wf m now hB hT hnow).2
  · rw [g3, g4, g5]
    exact hE2
  · rw [g6, ho2, hct]
    exact hnow
  · intro e hmem
    rcases g9 e hmem with hin | ⟨d, hd, k, hk⟩
    · rw [ho1] at hin
      exact htimes e hin
    · rw [hk]
      show 0 ≤ now + m2.rng k
      have : m2.rng = m.rng := ho4
      rw [this]
      have := horacle k
      linarith
  · intro k
    rw [g8, ho4]
    exact horacle k

/-! ## Pool scan helpers -/

/-- No device is free exactly when every slot of the pool holds a busy
device. -/
theorem any_free_false_iff (p : DevicePool) :
    p.any_free = false ↔
    ∀ j, j < p.devices.length →
      (p.devices[j]?).map Device.busy = some true := by
  unfold DevicePool.any_free
  rw [List.any_eq_false]
  constructor
  · intro h j hj
    rw [List.getElem?_eq_getElem hj]
    have hx := h p.devices[j] (List.getElem_mem hj)
    unfold Device.is_free at hx
    show some (p.devices[j]).busy = some true
    cases hb : (p.devices[j]).busy with
    | true => rfl
    | false =>
      exfalso
      rw [hb] at hx
      exact hx rfl
  · intro h d hd
    obtain ⟨j, hj, hdj⟩ := List.getElem_of_mem hd
    have hx := h j hj
    rw [List.getElem?_eq_getElem hj, hdj] at hx
    have hb : d.busy = true := by injection hx
    unfold Device.is_free
    rw [hb]
    decide

/-- A pool with one visibly free slot answers `any_free`. -/
theorem any_free_of_free (p : DevicePool) (j : Nat)
    (h : (p.devices[j]?).map Device.busy = some false) :
    p.any_free = true := by
  obtain ⟨d, hd⟩ : ∃ d, p.devices[j]? = some d := by
    cases hv : p.devices[j]? with
    | none => rw [hv] at h; cases h
    | some d => exact ⟨d, rfl⟩
  rw [hd] at h
  have hb : d.busy = false := by injection h
  unfold DevicePool.any_free
  rw [List.any_eq_true]
  refine ⟨d, List.getElem?_mem hd, ?_⟩
  unfold Device.is_free
  rw [hb]
  decide

/-- `start_process` marks the chosen slot busy. -/
theorem DevicePool.startAt_busy (p : DevicePool) (i : Nat) (post : Post)
    (d : Device) (hd : p.devices[i]? = some d) (hlt : i < p.devices.length) :
    ((p.startAt i post).devices[i]?).map Device.busy = some true := by
  unfold DevicePool.startAt
  rw [hd]
  show (((p.devices.set i { d with busy := true, current_post := some post })[i]?).map
    Device.busy) = some true
  rw [List.getElem?_set_self hlt]
  rfl

/-- `start_process` leaves every other slot alone. -/
theorem DevicePool.startAt_other (p : DevicePool) (i j : Nat) (post : Post)
    (hne : j ≠ i) : (p.startAt i post).devices[j]? = p.devices[j]? := by
  unfold DevicePool.startAt
  cases hd : p.devices[i]? with
  | none => rfl
  | some d =>
    show (p.devices.set i { d with busy := true, current_post := some post })[j]?
      = p.devices[j]?
    exact List.getElem?_set_ne (fun hh => hne hh.symm)

/-- `drop_oldest` on a buffer with no occupied slot is the identity. -/
theorem Buffer.drop_oldest_empty (b : Buffer)
    (hcnt : b.slots.countP slotOcc = 0) : b.drop_oldest_d10o3 = (none, b) := by
  unfold Buffer.drop_oldest_d10o3
  cases hol : Buffer.oldestLoop b.slots 0 none with
  | none => rfl
  | some r =>
    exfalso
    have hno : ∀ sl ∈ b.slots, ¬ (slotOcc sl = true) := List.countP_eq_zero.mp hcnt
    have hQ : ∃ sl, b.slots[r.2]? = some sl ∧ sl.post.isSome = true := by
      refine Buffer.oldestLoop_valid
        (fun r => ∃ sl, b.slots[r.2]? = some sl ∧ sl.post.isSome = true)
        b.slots 0 none ?_ ?_ r hol
      · intro r0 h0
        cases h0
      · intro k sl hk hs
        exact ⟨sl, by simpa using hk, hs⟩
    obtain ⟨sl, hsl, hso⟩ := hQ
    exact hno sl (List.getElem?_mem hsl) hso

/-- A formation pass seeded from the single post of a one-post buffer (the
buffer is already down to size 0 after the pick) leaves the buffer empty. -/
theorem formPhase_empty_buffer (s' : SimState) (now : Rat) (first : Post)
    (hB : s'.buffer.WFB) (hT : s'.buffer.WFT) (hnow : 0 ≤ now)
    (hsz : s'.buffer.size = 0) :
    (formPhase s' now first).buffer.size = 0 := by
  obtain ⟨hf1, hf2, hf3, hf4, hf5, hf6, hf7⟩ := formPhase_spec s' now first hB hT hnow
  rw [hsz] at hf4
  have hocc0 : s'.buffer.occList = [] := Buffer.occList_eq_nil s'.buffer hB hsz
  simp [Buffer.drainSeq, Buffer.pickN, stamped, hocc0] at hf4
  rw [Buffer.size_eq_occList_length _ hf2, hf4]
  rfl

/-- With a packet needed and an empty buffer the freed-device pass is the
identity. -/
theorem odf_empty (m : SimState) (now : Rat) (hB : m.buffer.WFB)
    (hform : needForm m.packet = true) (hsz : m.buffer.size = 0) :
    on_device_freed m now = m := by
  have hcnt : m.buffer.slots.countP slotOcc = 0 := hB.2 ▸ hsz
  have hpick := Buffer.pick_lifo_none m.buffer hcnt
  exact odf_form_none m now m.buffer hform hpick

/-- With a packet needed and exactly one buffered post, after the pass either
the buffer is empty with a packet need again, or no device is free. -/
theorem odf_one_post (m : SimState) (now : Rat)
    (hB : m.buffer.WFB) (hT : m.buffer.WFT) (hnow : 0 ≤ now)
    (hform : needForm m.packet = true) (hsz : m.buffer.size = 1) :
    (on_device_freed m now).pool.any_free = true →
    (on_device_freed m now).buffer.size = 0 ∧
    needForm (on_device_freed m now).packet = true := by
  intro haf
  have hne : m.buffer.size ≠ 0 := by rw [hsz]; exact one_ne_zero
  obtain ⟨kk, pp, tss, hg1, hg2, hpick, hWFB1, hWFT1, hg6, hg7, hg8, hg9⟩ :=
    Buffer.pick_lifo_step m.buffer hB hT hne
  have hodf := odf_form_some m now pp _ hform hpick
  have hb1sz : ({ m.buffer with slots := m.buffer.slots.set kk ⟨none, 0⟩, size := m.buffer.size - 1 } : Buffer).size = 0 := by
    show m.buffer.size - 1 = 0
    rw [hsz]
  have hfsz := formPhase_empty_buffer { m with buffer := { m.buffer with slots := m.buffer.slots.set kk ⟨none, 0⟩, size := m.buffer.size - 1 } } now pp hWFB1 hWFT1 hnow hb1sz
  rw [hodf] at haf ⊢
  refine ⟨?_, ?_⟩
  · rw [(dispatchPhase_frame (formPhase { m with buffer := { m.buffer with slots := m.buffer.slots.set kk ⟨none, 0⟩, size := m.buffer.size - 1 } } now pp)).2.1]
    exact hfsz
  · rcases dispatchPhase_exit (formPhase { m with buffer := { m.buffer with slots := m.buffer.slots.set kk ⟨none, 0⟩, size := m.buffer.size - 1 } } now pp) with hx | hx
    · exact hx
    · rw [hx] at haf
      exact absurd haf (by decide)

/-- When exactly one device slot is free and the packet holds a post, one
dispatch pass leaves every device busy. -/
theorem dispatchPhase_lone_free (f : SimState) (sid : Nat) (q : Post)
    (qs : List Post) (hpk : f.packet = some ⟨sid, q :: qs⟩)
    (devIdx : Nat)
    (hdix : (f.pool.devices[devIdx]?).map Device.busy = some false)
    (honly : ∀ j, j < f.pool.devices.length → j ≠ devIdx →
      (f.pool.devices[j]?).map Device.busy = some true) :
    (dispatchPhase f).pool.any_free = false := by
  have haf : f.pool.any_free = true := any_free_of_free f.pool devIdx hdix
  obtain ⟨i, hpick⟩ := DevicePool.pick_of_any_free f.pool haf
  obtain ⟨hdev, hcur, d, hd, hdfree⟩ := (C10_pick_cyclic_frame f.pool).2 i _ hpick
  have hilt : i < f.pool.devices.length := (List.getElem?_eq_some_iff.mp hd).1
  have hdb : d.busy = false := by
    unfold Device.is_free at hdfree
    cases hbv : d.busy
    · rfl
    · rw [hbv] at hdfree; cases hdfree
  have hie : i = devIdx := by
    by_contra hne
    have hx := honly i hilt hne
    rw [hd] at hx
    have hbt : d.busy = true := by injection hx
    rw [hbt] at hdb
    cases hdb
  have hlen : packetLen f.packet = qs.length + 1 := by rw [hpk]; rfl
  have hgo := dispatchLoop_succ_go qs.length f sid q qs i
    { f.pool with cursor := (i + 1) % f.pool.devices.length } hpk hpick
  have hps1 := pick_startAt_poolStep f.pool i
    { f.pool with cursor := (i + 1) % f.pool.devices.length }
    (((q :: qs).getLast?).getD ⟨0, 0, 0⟩) hpick
  have hafs3 : (dispatchStep f sid (q :: qs) i
      { f.pool with cursor := (i + 1) % f.pool.devices.length }).pool.any_free = false := by
    have hgoal : (DevicePool.startAt
        { f.pool with cursor := (i + 1) % f.pool.devices.length } i
        (((q :: qs).getLast?).getD ⟨0, 0, 0⟩)).any_free = false := by
      rw [any_free_false_iff]
      intro j hj
      by_cases hji : j = i
      · subst hji
        exact DevicePool.startAt_busy _ j (((q :: qs).getLast?).getD ⟨0, 0, 0⟩) d hd hilt
      · rw [DevicePool.startAt_other _ i j _ hji]
        rw [hps1.1] at hj
        exact honly j hj (fun hh => hji (hh.trans hie.symm))
    exact hgoal
  rcases dispatchPhase_eq f with he | he <;> rw [he, hlen, hgo] <;>
    exact PoolStep.no_new_free
      ((dispatchLoop_frame qs.length (dispatchStep f sid (q :: qs) i
        { f.pool with cursor := (i + 1) % f.pool.devices.length })).2.2.2.2.2) hafs3

/-! ## Step preservation of the invariant -/

/-- `ArrivalEvent.process` preserves the invariant (applied to the state
whose calendar has already had the arrival popped). -/
theorem processArrival_inv (s1 : SimState) (t : Rat) (src : Nat)
    (hI : SimInv s1) (ht : 0 ≤ t) : SimInv (processArrival s1 t src) := by
  obtain ⟨ha, hb, hc, hB, hT, hE, hct0, htimes, horacle⟩ := hI
  rw [processArrival_eq]
  by_cases hdirhit : ∃ i pool1, s1.direct_assign = true ∧
      s1.pool.pick_cyclic_d2p2 = (some i, pool1)
  · -- direct-assignment path
    obtain ⟨i, pool1, hda, hpick⟩ := hdirhit
    obtain ⟨k1, k2, hm1, hm2, hm3, hm4, hm5, hm6, hm7⟩ :=
      arrivalCore_direct s1 t src i pool1 hda hpick
    obtain ⟨hdev, hcur, d, hd, hdfree⟩ := (C10_pick_cyclic_frame s1.pool).2 i pool1 hpick
    have hilt : i < s1.pool.devices.length := (List.getElem?_eq_some_iff.mp hd).1
    have hdb : d.busy = false := by
      unfold Device.is_free at hdfree
      cases hbv : d.busy
      · rfl
      · rw [hbv] at hdfree; cases hdfree
    have hdid : d.id = i := by
      have hx := ha i hilt
      rw [hd] at hx
      injection hx
    have hdevId : (((pool1.devices[i]?).map Device.id).getD i) = i := by
      rw [hdev, hd]
      exact hdid
    have hpd : pool1.devices[i]? = some d := by rw [hdev]; exact hd
    have hilt1 : i < pool1.devices.length := by rw [hdev]; exact hilt
    have hset : ((pool1.startAt i ⟨s1.next_post_id, src, t⟩).devices)[i]?
        = some { d with busy := true, current_post := some ⟨s1.next_post_id, src, t⟩ } := by
      unfold DevicePool.startAt
      rw [hpd]
      show (pool1.devices.set i { d with busy := true, current_post := some ⟨s1.next_post_id, src, t⟩ })[i]? = _
      exact List.getElem?_set_self hilt1
    have hsetne : ∀ j, j ≠ i →
        ((pool1.startAt i ⟨s1.next_post_id, src, t⟩).devices)[j]?
          = s1.pool.devices[j]? := by
      intro j hj
      rw [DevicePool.startAt_other pool1 i j ⟨s1.next_post_id, src, t⟩ hj]
      rw [hdev]
    have hreal : ((((pool1.startAt i ⟨s1.next_post_id, src, t⟩).devices[
        (((pool1.devices[i]?).map Device.id).getD i)]?).map Device.id).getD
        (((pool1.devices[i]?).map Device.id).getD i)) = i := by
      rw [hdevId, hset]
      exact hdid
    have hps : PoolStep s1.pool (pool1.startAt i ⟨s1.next_post_id, src, t⟩) :=
      pick_startAt_poolStep s1.pool i pool1 ⟨s1.next_post_id, src, t⟩ hpick
    have hlenP : (pool1.startAt i ⟨s1.next_post_id, src, t⟩).devices.length
        = s1.pool.devices.length := hps.1
    have hcnt : ∀ j, cnt (arrivalCore s1 t src).1.calendar j
        = cnt s1.calendar j + (if i = j then 1 else 0) := by
      intro j
      rw [hm1, hreal, cnt_heappush, cnt_heappush]
      by_cases hij : i = j <;> simp [isCompFor, hij]
    have hmem2 : ∀ e, e ∈ (arrivalCore s1 t src).1.calendar →
        e = Event.completion (t + s1.rng k2) i ∨
        e = Event.arrival (t + s1.rng k1) src ∨ e ∈ s1.calendar := by
      intro e hmem
      rw [hm1, hreal] at hmem
      have h2 := (heappush_perm _ _).mem_iff.mp hmem
      rcases List.mem_cons.mp h2 with he | h3
      · exact Or.inl he
      · have h4 := (heappush_perm _ _).mem_iff.mp h3
        rcases List.mem_cons.mp h4 with he | h5
        · exact Or.inr (Or.inl he)
        · exact Or.inr (Or.inr h5)
    have hguard : selGuard (arrivalCore s1 t src).1 = false := by
      unfold selGuard
      rw [hm5, hda]
      rfl
    rw [hguard]
    simp only [Bool.false_eq_true, if_false]
    refine ⟨?_, ?_, ?_, ?_, ?_, ?_, ?_, ?_, ?_⟩
    · rw [hm2]
      exact PoolStep.ids hps ha
    · rw [hm2]
      intro j hj
      have hjs : j < s1.pool.devices.length := by rw [← hlenP]; exact hj
      constructor
      · intro hbusy
        rw [hcnt j]
        by_cases hij : j = i
        · subst hij
          have h0 : cnt s1.calendar j = 0 := by
            apply (hb j hjs).2
            rw [hd]
            show some d.busy = some false
            rw [hdb]
          rw [h0]
          simp
        · rw [if_neg (fun hh => hij hh.symm)]
          rw [hsetne j hij] at hbusy
          rw [(hb j hjs).1 hbusy]
      · intro hfree
        by_cases hij : j = i
        · subst hij
          rw [hset] at hfree
          simp at hfree
        · rw [hcnt j, if_neg (fun hh => hij hh.symm)]
          rw [hsetne j hij] at hfree
          rw [(hb j hjs).2 hfree]
    · intro tt j hmem
      rw [hm2]
      rcases hmem2 _ hmem with he | he | hin
      · have hji : j = i := by injection he with h1 h2
        rw [hlenP, hji]
        exact hilt
      · cases he
      · rw [hlenP]
        exact hc tt j hin
    · rw [hm7]
      exact hB
    · rw [hm7]
      exact hT
    · intro haf
      rw [hm2] at haf
      have hfree1 : s1.pool.any_free = true := by
        cases hv : s1.pool.any_free with
        | true => rfl
        | false =>
          rw [PoolStep.no_new_free hps hv] at haf
          cases haf
      obtain ⟨he1, he2⟩ := hE hfree1
      exact ⟨by rw [hm7]; exact he1, by rw [hm3]; exact he2⟩
    · rw [hm4]
      exact ht
    · intro e hmem
      rcases hmem2 e hmem with he | he | hin
      · rw [he]
        show 0 ≤ t + s1.rng k2
        have := horacle k2
        linarith
      · rw [he]
        show 0 ≤ t + s1.rng k1
        have := horacle k1
        linarith
      · exact htimes e hin
    · intro k
      rw [hm6]
      exact horacle k
  · -- buffered path
    have hpath : s1.direct_assign = false ∨ (s1.pool.pick_cyclic_d2p2).1 = none := by
      cases hda : s1.direct_assign with
      | false => exact Or.inl rfl
      | true =>
        cases hpk : s1.pool.pick_cyclic_d2p2 with
        | mk o p2 =>
          cases o with
          | none => exact Or.inr rfl
          | some i => exact absurd ⟨i, p2, hda, hpk⟩ hdirhit
    obtain ⟨k1, hm1, hm2, hm3, hm4, hm5, hm6, hm7⟩ := arrivalCore_buffer s1 t src hpath
    have hcnt : ∀ j, cnt (arrivalCore s1 t src).1.calendar j = cnt s1.calendar j := by
      intro j
      rw [hm1, cnt_heappush]
      simp [isCompFor]
    have hWF := buffer_path_wf s1.buffer ⟨s1.next_post_id, src, t⟩ t hB hT ht
    have hmem2 : ∀ e, e ∈ (arrivalCore s1 t src).1.calendar →
        e = Event.arrival (t + s1.rng k1) src ∨ e ∈ s1.calendar := by
      intro e hmem
      rw [hm1] at hmem
      exact List.mem_cons.mp ((heappush_perm _ _).mem_iff.mp hmem)
    have hIa : ∀ j, j < (arrivalCore s1 t src).1.pool.devices.length →
        ((arrivalCore s1 t src).1.pool.devices[j]?).map Device.id = some j := by
      rw [hm2]
      exact ha
    have hIb : ∀ j, j < (arrivalCore s1 t src).1.pool.devices.length →
        (((arrivalCore s1 t src).1.pool.devices[j]?).map Device.busy = some true →
          cnt (arrivalCore s1 t src).1.calendar j = 1) ∧
        (((arrivalCore s1 t src).1.pool.devices[j]?).map Device.busy = some false →
          cnt (arrivalCore s1 t src).1.calendar j = 0) := by
      rw [hm2]
      intro j hj
      constructor
      · intro hbusy
        rw [hcnt j]
        exact (hb j hj).1 hbusy
      · intro hfree
        rw [hcnt j]
        exact (hb j hj).2 hfree
    have hIc : ∀ (tt : Rat) (j : Nat),
        Event.completion tt j ∈ (arrivalCore s1 t src).1.calendar →
        j < (arrivalCore s1 t src).1.pool.devices.length := by
      intro tt j hmem
      rw [hm2]
      rcases hmem2 _ hmem with he | hin
      · cases he
      · exact hc tt j hin
    have hIB : (arrivalCore s1 t src).1.buffer.WFB := by rw [hm7]; exact hWF.1
    have hIT : (arrivalCore s1 t src).1.buffer.WFT := by rw [hm7]; exact hWF.2
    have hIt : ∀ e ∈ (arrivalCore s1 t src).1.calendar, 0 ≤ e.time := by
      intro e hmem
      rcases hmem2 e hmem with he | hin
      · rw [he]
        show 0 ≤ t + s1.rng k1
        have := horacle k1
        linarith
      · exact htimes e hin
    have hIo : ∀ k, 0 ≤ (arrivalCore s1 t src).1.rng k := by
      intro k
      rw [hm6]
      exact horacle k
    cases hguard : selGuard (arrivalCore s1 t src).1 with
    | false =>
      simp only [Bool.false_eq_true, if_false]
      refine ⟨hIa, hIb, hIc, hIB, hIT, ?_, ?_, hIt, hIo⟩
      · intro haf
        have haf1 : s1.pool.any_free = true := by rw [← hm2]; exact haf
        have hdaf : s1.direct_assign = false := by
          rcases hpath with h | h
          · exact h
          · exfalso
            rw [pick_none_any_free s1.pool h] at haf1
            cases haf1
        have hsz0 : (arrivalCore s1 t src).1.buffer.size = 0 := by
          cases hiev : (arrivalCore s1 t src).1.buffer.is_empty with
          | true =>
            unfold Buffer.is_empty at hiev
            exact of_decide_eq_true hiev
          | false =>
            exfalso
            unfold selGuard at hguard
            rw [hm5, hdaf, hiev, hm2, haf1] at hguard
            exact absurd hguard (by decide)
        exact ⟨hsz0, by rw [hm3]; exact (hE haf1).2⟩
      · rw [hm4]
        exact ht
    | true =>
      rw [if_pos rfl]
      -- the buffer was empty before the arrival, so it now holds one post
      have hg := hguard
      unfold selGuard at hg
      rw [Bool.and_eq_true, Bool.and_eq_true] at hg
      obtain ⟨⟨hgd, hgie⟩, hgaf⟩ := hg
      have haf1 : s1.pool.any_free = true := by rw [← hm2]; exact hgaf
      obtain ⟨hbs0, hnf⟩ := hE haf1
      have hnfm : needForm (arrivalCore s1 t src).1.packet = true := by
        rw [hm3]
        exact hnf
      have hgie' : (arrivalCore s1 t src).1.buffer.is_empty = false := by
        cases hiev : (arrivalCore s1 t src).1.buffer.is_empty with
        | false => rfl
        | true =>
          rw [hiev] at hgie
          exact absurd hgie (by decide)
      have hcnt0 : s1.buffer.slots.countP slotOcc = 0 := hB.2 ▸ hbs0
      have hnotfull : s1.buffer.is_full = false := by
        cases hfv : s1.buffer.is_full with
        | false => rfl
        | true =>
          exfalso
          have henq : s1.buffer.enqueue_d1031 ⟨s1.next_post_id, src, t⟩ t
              = (false, s1.buffer) := by
            unfold Buffer.enqueue_d1031
            rw [if_pos hfv]
          have hmb : (arrivalCore s1 t src).1.buffer = s1.buffer := by
            rw [hm7, if_pos hfv, Buffer.drop_oldest_empty s1.buffer hcnt0]
            show (s1.buffer.enqueue_d1031 ⟨s1.next_post_id, src, t⟩ t).2 = s1.buffer
            rw [henq]
          rw [hmb] at hgie'
          unfold Buffer.is_empty at hgie'
          rw [hbs0] at hgie'
          exact absurd hgie' (by decide)
      have hsize1 : (arrivalCore s1 t src).1.buffer.size = 1 := by
        have hlt : s1.buffer.size < s1.buffer.capacity := by
          have hne : ¬ (s1.buffer.size = s1.buffer.capacity) := by
            intro hcon
            have hx : s1.buffer.is_full = true := by
              unfold Buffer.is_full
              exact decide_eq_true hcon
            rw [hx] at hnotfull
            cases hnotfull
          have hle : s1.buffer.size ≤ s1.buffer.capacity := by
            rw [hB.2, ← hB.1]
            exact List.countP_le_length slotOcc
          omega
        obtain ⟨j2, s2, hj2, hnone2, henq, hWFBe, hWFTe, hperm⟩ :=
          Buffer.enqueue_spec s1.buffer ⟨s1.next_post_id, src, t⟩ t hB hlt
        rw [hm7, hnotfull]
        simp only [Bool.false_eq_true, if_false]
        rw [henq]
        show s1.buffer.size + 1 = 1
        rw [hbs0]
      refine post_dispatch_inv _ t hIa ?_ ?_ hIc hIB hIT ht hm4 hIt hIo ?_
      · intro j hj hbusy
        exact le_of_eq ((hIb j hj).1 hbusy)
      · intro j hj hfree
        exact (hIb j hj).2 hfree
      · exact odf_one_post _ t hIB hIT ht hnfm hsize1

/-- `CompletionEvent.process` preserves the invariant (applied to the state
whose calendar has already had this completion popped: the freed device's
count is already zero, every other busy device still counts one). -/
theorem processCompletion_inv (s1 : SimState) (t : Rat) (devId : Nat)
    (ha : ∀ i, i < s1.pool.devices.length →
      (s1.pool.devices[i]?).map Device.id = some i)
    (hb : ∀ i, i < s1.pool.devices.length →
      ((s1.pool.devices[i]?).map Device.busy = some true → i ≠ devId →
        cnt s1.calendar i = 1) ∧
      ((s1.pool.devices[i]?).map Device.busy = some false →
        cnt s1.calendar i = 0))
    (hbd : cnt s1.calendar devId = 0)
    (hc : ∀ (tt : Rat) (j : Nat), Event.completion tt j ∈ s1.calendar →
      j < s1.pool.devices.length)
    (hB : s1.buffer.WFB) (hT : s1.buffer.WFT)
    (hE : s1.pool.any_free = true → s1.buffer.size = 0 ∧
      needForm s1.packet = true)
    (ht : 0 ≤ t)
    (htimes : ∀ e ∈ s1.calendar, 0 ≤ e.time)
    (horacle : ∀ k, 0 ≤ s1.rng k)
    (hdlt : devId < s1.pool.devices.length) :
    SimInv (processCompletion s1 t devId) := by
  obtain ⟨d, hd⟩ : ∃ d, s1.pool.devices[devId]? = some d := by
    cases hv : s1.pool.devices[devId]? with
    | none =>
      exfalso
      rw [List.getElem?_eq_none_iff] at hv
      omega
    | some d => exact ⟨d, rfl⟩
  rw [processCompletion_eq s1 t devId d hd]
  have hdid : d.id = devId := by
    have hx := ha devId hdlt
    rw [hd] at hx
    injection hx
  obtain ⟨s3, hs3eq, hp3, hc3, hb3, hk3, ht3, hr3, hd3⟩ :
      ∃ s3 : SimState,
        ((if (d.current_post).isSome = true then
            ({ s1 with current_time := t, pool := { s1.pool with devices := s1.pool.devices.set devId ⟨d.id, false, none⟩ }, served := s1.served + 1 } : SimState)
          else
            ({ s1 with current_time := t, pool := { s1.pool with devices := s1.pool.devices.set devId ⟨d.id, false, none⟩ } } : SimState)).addLog
          .serviceComplete ((d.current_post).map Post.id)
          ((d.current_post).map Post.source_id) (some devId)) = s3 ∧
        s3.pool = { s1.pool with devices := s1.pool.devices.set devId ⟨d.id, false, none⟩ } ∧
        s3.calendar = s1.calendar ∧ s3.buffer = s1.buffer ∧
        s3.packet = s1.packet ∧ s3.current_time = t ∧ s3.rng = s1.rng ∧
        s3.direct_assign = s1.direct_assign := by
    cases hcp : (d.current_post).isSome with
    | true => exact ⟨_, rfl, rfl, rfl, rfl, rfl, rfl, rfl, rfl⟩
    | false => exact ⟨_, rfl, rfl, rfl, rfl, rfl, rfl, rfl, rfl⟩
  rw [hs3eq]
  have hB3 : s3.buffer.WFB := by rw [hb3]; exact hB
  have hT3 : s3.buffer.WFT := by rw [hb3]; exact hT
  have hfree3 : (s3.pool.devices[devId]?).map Device.busy = some false := by
    rw [hp3]
    show ((s1.pool.devices.set devId ⟨d.id, false, none⟩)[devId]?).map Device.busy
      = some false
    rw [List.getElem?_set_self hdlt]
    rfl
  have ha3 : ∀ i, i < s3.pool.devices.length →
      (s3.pool.devices[i]?).map Device.id = some i := by
    intro i hi
    rw [hp3] at hi ⊢
    have hi' : i < (s1.pool.devices.set devId ⟨d.id, false, none⟩).length := hi
    rw [List.length_set] at hi'
    by_cases hii : i = devId
    · subst hii
      show ((s1.pool.devices.set i ⟨d.id, false, none⟩)[i]?).map Device.id = some i
      rw [List.getElem?_set_self hi']
      show some d.id = some i
      rw [hdid]
    · show ((s1.pool.devices.set devId ⟨d.id, false, none⟩)[i]?).map Device.id = some i
      rw [List.getElem?_set_ne (fun hh => hii hh.symm)]
      exact ha i hi'
  have hb1' : ∀ i, i < s3.pool.devices.length →
      (s3.pool.devices[i]?).map Device.busy = some true →
      cnt s3.calendar i ≤ 1 := by
    intro i hi hbusy
    rw [hc3]
    rw [hp3] at hi hbusy
    have hi' : i < (s1.pool.devices.set devId ⟨d.id, false, none⟩).length := hi
    rw [List.length_set] at hi'
    have hbusy' : ((s1.pool.devices.set devId ⟨d.id, false, none⟩)[i]?).map Device.busy
        = some true := hbusy
    by_cases hii : i = devId
    · subst hii
      rw [List.getElem?_set_self hi'] at hbusy'
      simp at hbusy'
    · rw [List.getElem?_set_ne (fun hh => hii hh.symm)] at hbusy'
      exact le_of_eq ((hb i hi').1 hbusy' hii)
  have hb0' : ∀ i, i < s3.pool.devices.length →
      (s3.pool.devices[i]?).map Device.busy = some false →
      cnt s3.calendar i = 0 := by
    intro i hi hfree
    rw [hc3]
    rw [hp3] at hi hfree
    have hi' : i < (s1.pool.devices.set devId ⟨d.id, false, none⟩).length := hi
    rw [List.length_set] at hi'
    have hfree' : ((s1.pool.devices.set devId ⟨d.id, false, none⟩)[i]?).map Device.busy
        = some false := hfree
    by_cases hii : i = devId
    · subst hii
      exact hbd
    · rw [List.getElem?_set_ne (fun hh => hii hh.symm)] at hfree'
      exact (hb i hi').2 hfree'
  have hc' : ∀ (tt : Rat) (j : Nat), Event.completion tt j ∈ s3.calendar →
      j < s3.pool.devices.length := by
    intro tt j hmem
    rw [hc3] at hmem
    rw [hp3]
    have hlt := hc tt j hmem
    show j < (s1.pool.devices.set devId ⟨d.id, false, none⟩).length
    rw [List.length_set]
    exact hlt
  have ht' : ∀ e ∈ s3.calendar, 0 ≤ e.time := by
    rw [hc3]
    exact htimes
  have ho' : ∀ k, 0 ≤ s3.rng k := by
    intro k
    rw [hr3]
    exact horacle k
  refine post_dispatch_inv s3 t ha3 hb1' hb0' hc' hB3 hT3 ht ht3 ht' ho' ?_
  cases hafp : s1.pool.any_free with
  | true =>
    obtain ⟨hbs0, hnf⟩ := hE hafp
    have hnf3 : needForm s3.packet = true := by rw [hk3]; exact hnf
    have hsz3 : s3.buffer.size = 0 := by rw [hb3]; exact hbs0
    intro _
    rw [odf_empty s3 t hB3 hnf3 hsz3]
    exact ⟨hsz3, hnf3⟩
  | false =>
    have hall := (any_free_false_iff s1.pool).mp hafp
    have honly3 : ∀ j, j < s3.pool.devices.length → j ≠ devId →
        (s3.pool.devices[j]?).map Device.busy = some true := by
      intro j hj hne
      rw [hp3] at hj ⊢
      have hj' : j < (s1.pool.devices.set devId ⟨d.id, false, none⟩).length := hj
      rw [List.length_set] at hj'
      show ((s1.pool.devices.set devId ⟨d.id, false, none⟩)[j]?).map Device.busy
        = some true
      rw [List.getElem?_set_ne (fun hh => hne hh.symm)]
      exact hall j hj'
    intro haf
    cases hform3 : needForm s3.packet with
    | true =>
      cases hpick2 : s3.buffer.pick_lifo_d2b2 with
      | mk o b1 =>
        cases o with
        | none =>
          have hfr := Buffer.pick_lifo_none_snd s3.buffer (by rw [hpick2])
          rw [hpick2] at hfr
          have hb1 : b1 = s3.buffer := by cases hfr; rfl
          subst hb1
          have hodf := odf_form_none s3 t s3.buffer hform3 hpick2
          have hsz3 : s3.buffer.size = 0 := by
            by_contra hneq
            obtain ⟨kk, pp, tss, hx1, hx2, hpx, hx4, hx5, hx6, hx7, hx8, hx9⟩ :=
              Buffer.pick_lifo_step s3.buffer hB3 hT3 hneq
            rw [hpick2] at hpx
            cases hpx
          rw [hodf]
          exact ⟨hsz3, hform3⟩
        | some first =>
          exfalso
          have hodf := odf_form_some s3 t first b1 hform3 hpick2
          rw [hodf] at haf
          obtain ⟨hf1, hf2, hf3, hf4, hf5, ps, hf6⟩ :=
            formPhase_frame { s3 with buffer := b1 } t first
          have hlone := dispatchPhase_lone_free
            (formPhase { s3 with buffer := b1 } t first) first.source_id first ps hf6
            devId (by rw [hf2]; exact hfree3) (by rw [hf2]; exact honly3)
          rw [hlone] at haf
          exact absurd haf (by decide)
    | false =>
      exfalso
      obtain ⟨pk, hpk3⟩ : ∃ pk, s3.packet = some pk := by
        cases hv : s3.packet with
        | none =>
          exfalso
          rw [hv] at hform3
          exact absurd hform3 (by decide)
        | some pk => exact ⟨pk, rfl⟩
      cases pk with
      | mk sid posts =>
        cases hposts : posts with
        | nil =>
          rw [hposts] at hpk3
          rw [hpk3] at hform3
          exact Bool.noConfusion hform3
        | cons q qs =>
          rw [hposts] at hpk3
          have hodf := odf_noform s3 t hform3
          rw [hodf] at haf
          have hlone := dispatchPhase_lone_free s3 sid q qs hpk3 devId hfree3 honly3
          rw [hlone] at haf
          exact absurd haf (by decide)

/-- Unrolling the bootstrap fold by one source. -/
theorem bootstrap_succ (s : SimState) (n : Nat) :
    bootstrap s (n + 1) = (bootstrap s n).schedule (.arrival 0 (n + 1)) := by
  unfold bootstrap
  rw [List.range_succ, List.foldl_append]
  rfl

/-- The bootstrap only pushes time-0 arrivals: completion counts and every
other component are untouched. -/
theorem bootstrap_effects (s : SimState) (n : Nat) :
    (∀ e ∈ (bootstrap s n).calendar, e ∈ s.calendar ∨ ∃ k, e = Event.arrival 0 k) ∧
    (∀ i, cnt (bootstrap s n).calendar i = cnt s.calendar i) ∧
    (bootstrap s n).pool = s.pool ∧
    (bootstrap s n).buffer = s.buffer ∧
    (bootstrap s n).packet = s.packet ∧
    (bootstrap s n).current_time = s.current_time ∧
    (bootstrap s n).rng = s.rng ∧
    (bootstrap s n).direct_assign = s.direct_assign := by
  induction n with
  | zero =>
    exact ⟨fun e he => Or.inl he, fun i => rfl, rfl, rfl, rfl, rfl, rfl, rfl⟩
  | succ n ih =>
    obtain ⟨ih1, ih2, ih3, ih4, ih5, ih6, ih7, ih8⟩ := ih
    rw [bootstrap_succ]
    refine ⟨?_, ?_, ih3, ih4, ih5, ih6, ih7, ih8⟩
    · intro e he
      have he' : e ∈ heappush (bootstrap s n).calendar (Event.arrival 0 (n + 1)) := he
      have h2 := (heappush_perm _ _).mem_iff.mp he'
      rcases List.mem_cons.mp h2 with h | h
      · exact Or.inr ⟨n + 1, h⟩
      · exact ih1 e h
    · intro i
      show cnt (heappush (bootstrap s n).calendar (Event.arrival 0 (n + 1))) i
        = cnt s.calendar i
      rw [cnt_heappush]
      simp only [isCompFor, Bool.false_eq_true, if_false]
      rw [ih2 i]
      omega

/-- The constructed-and-bootstrapped simulation satisfies the invariant. -/
theorem startState_inv (p : Params) (rng : Nat → Rat)
    (horacle : ∀ k, 0 ≤ rng k) : SimInv (startState p rng) := by
  obtain ⟨h1, h2, h3, h4, h5, h6, h7, h8⟩ := bootstrap_effects (initSim p rng) p.sources
  unfold startState
  refine ⟨?_, ?_, ?_, ?_, ?_, ?_, ?_, ?_, ?_⟩
  · intro i hi
    rw [h3] at hi ⊢
    have hi' : i < ((List.range p.devices).map
        (fun i => (⟨i, false, none⟩ : Device))).length := hi
    rw [List.length_map, List.length_range] at hi'
    show (((List.range p.devices).map
      (fun i => (⟨i, false, none⟩ : Device)))[i]?).map Device.id = some i
    rw [List.getElem?_map, List.getElem?_range hi']
    rfl
  · intro i hi
    constructor
    · intro hbusy
      exfalso
      rw [h3] at hi hbusy
      have hi' : i < ((List.range p.devices).map
          (fun i => (⟨i, false, none⟩ : Device))).length := hi
      rw [List.length_map, List.length_range] at hi'
      have hbusy' : ((((List.range p.devices).map
          (fun i => (⟨i, false, none⟩ : Device)))[i]?).map Device.busy)
          = some true := hbusy
      rw [List.getElem?_map, List.getElem?_range hi'] at hbusy'
      simp at hbusy'
    · intro hfree
      rw [h2 i]
      rfl
  · intro tt j hmem
    rcases h1 _ hmem with h | ⟨k, hk⟩
    · have h' : Event.completion tt j ∈ ([] : List Event) := h
      cases h'
    · cases hk
  · rw [h4]
    constructor
    · show (List.replicate p.buffer (⟨none, 0⟩ : BufferSlot)).length = p.buffer
      rw [List.length_replicate]
    · show (0 : Nat) = (List.replicate p.buffer (⟨none, 0⟩ : BufferSlot)).countP slotOcc
      have hz : (List.replicate p.buffer (⟨none, 0⟩ : BufferSlot)).countP slotOcc = 0 := by
        rw [List.countP_eq_zero]
        intro a ha
        have haz := List.eq_of_mem_replicate ha
        rw [haz]
        decide
      rw [hz]
  · rw [h4]
    intro sl hsl hocc
    have haz := List.eq_of_mem_replicate hsl
    rw [haz] at hocc
    exact absurd hocc (by decide)
  · intro _
    rw [h4, h5]
    exact ⟨rfl, rfl⟩
  · rw [h6]
    exact le_refl 0
  · intro e hmem
    rcases h1 e hmem with h | ⟨k, hk⟩
    · have h' : e ∈ ([] : List Event) := h
      cases h'
    · rw [hk]
      show (0 : Rat) ≤ 0
      exact le_refl 0
  · intro k
    rw [h7]
    exact horacle k

/-- One `step()` preserves the invariant. -/
theorem step_inv (s : SimState) (hI : SimInv s) : SimInv (stepState s) := by
  obtain ⟨ha, hb, hc, hB, hT, hE, hct, htimes, horacle⟩ := hI
  cases hpop : heappop s.calendar with
  | none =>
    rw [stepState_none s hpop]
    exact ⟨ha, hb, hc, hB, hT, hE, hct, htimes, horacle⟩
  | some pr =>
    cases pr with
    | mk e cal1 =>
      have hperm := (heappop_perm s.calendar).2 e cal1 hpop
      have hmem1 : ∀ x ∈ cal1, x ∈ s.calendar := by
        intro x hx
        exact hperm.mem_iff.mpr (List.mem_cons_of_mem e hx)
      have htimes1 : ∀ x ∈ cal1, 0 ≤ x.time := fun x hx => htimes x (hmem1 x hx)
      have hte : 0 ≤ e.time := htimes e (hperm.mem_iff.mpr (List.mem_cons_self e cal1))
      cases e with
      | arrival t src =>
        rw [stepState_arrival s t src cal1 hpop]
        refine processArrival_inv { s with calendar := cal1 } t src
          ⟨ha, ?_, ?_, hB, hT, hE, hct, htimes1, horacle⟩ hte
        · intro i hi
          have hcnt1 : cnt cal1 i = cnt s.calendar i := by
            have h0 := cnt_heappop s.calendar _ cal1 hpop i
            simp only [isCompFor, Bool.false_eq_true, if_false] at h0
            omega
          refine ⟨fun hbusy => ?_, fun hfree => ?_⟩
          · show cnt cal1 i = 1
            rw [hcnt1]
            exact (hb i hi).1 hbusy
          · show cnt cal1 i = 0
            rw [hcnt1]
            exact (hb i hi).2 hfree
        · intro tt j hmem
          exact hc tt j (hmem1 _ hmem)
      | completion t devId =>
        rw [stepState_completion s t devId cal1 hpop]
        have hmemc : Event.completion t devId ∈ s.calendar :=
          hperm.mem_iff.mpr (List.mem_cons_self _ _)
        have hdlt : devId < s.pool.devices.length := hc t devId hmemc
        have hcnt1 : ∀ i, cnt s.calendar i
            = cnt cal1 i + (if devId = i then 1 else 0) := by
          intro i
          have h0 := cnt_heappop s.calendar _ cal1 hpop i
          simp only [isCompFor] at h0
          by_cases hdi : devId = i
          · rw [h0]
            simp [hdi]
          · rw [h0]
            simp [hdi]
        obtain ⟨dd, hdd⟩ : ∃ dd, s.pool.devices[devId]? = some dd := by
          cases hv : s.pool.devices[devId]? with
          | none =>
            exfalso
            rw [List.getElem?_eq_none_iff] at hv
            omega
          | some dd => exact ⟨dd, rfl⟩
        have hddbusy : dd.busy = true := by
          cases hbv : dd.busy with
          | true => rfl
          | false =>
            exfalso
            have h0 : cnt s.calendar devId = 0 := by
              apply (hb devId hdlt).2
              rw [hdd]
              show some dd.busy = some false
              rw [hbv]
            have hpos : 0 < cnt s.calendar devId := by
              unfold cnt
              rw [List.countP_pos_iff]
              exact ⟨_, hmemc, by simp [isCompFor]⟩
            omega
        refine processCompletion_inv { s with calendar := cal1 } t devId
          ha ?_ ?_ ?_ hB hT hE hte ?_ horacle hdlt
        · intro i hi
          refine ⟨fun hbusy hne => ?_, fun hfree => ?_⟩
          · show cnt cal1 i = 1
            have h1 : cnt s.calendar i = 1 := (hb i hi).1 hbusy
            have h2 := hcnt1 i
            rw [if_neg (fun hh => hne hh.symm)] at h2
            omega
          · show cnt cal1 i = 0
            have h1 : cnt s.calendar i = 0 := (hb i hi).2 hfree
            have h2 := hcnt1 i
            by_cases hdi : devId = i
            · rw [if_pos hdi] at h2
              omega
            · rw [if_neg hdi] at h2
              omega
        · show cnt cal1 devId = 0
          have h1 : cnt s.calendar devId = 1 := by
            apply (hb devId hdlt).1
            rw [hdd]
            show some dd.busy = some true
            rw [hddbusy]
          have h2 := hcnt1 devId
          rw [if_pos rfl] at h2
          omega
        · intro tt j hmem
          exact hc tt j (hmem1 _ hmem)
        · exact htimes1

/-- Every state reachable by repeated `step()` satisfies the invariant. -/
theorem reach_inv (p : Params) (rng : Nat → Rat) (horacle : ∀ k, 0 ≤ rng k)
    (s : SimState) (hs : Reachable p rng s) : SimInv s := by
  obtain ⟨k, hk⟩ := hs
  subst hk
  induction k with
  | zero => exact startState_inv p rng horacle
  | succ k ih =>
    rw [Function.iterate_succ_apply']
    exact step_inv _ ih

/-- The concrete oracle stream of the corrected C2 run is non-negative. -/
theorem c2rngA_nonneg : ∀ k, 0 ≤ c2rngA k := by
  intro k
  unfold c2rngA
  split
  · norm_num
  · split <;> norm_num

/-- C7: in every state reachable from a constructed-and-bootstrapped
simulation by repeated `step()` calls (under a non-negative service/arrival
oracle, as `random.expovariate` always returns), once the event is fully
processed every busy device has exactly one pending `CompletionEvent` for its
id in the calendar — never zero and never two or more — and every free
device has none. -/
theorem C7_busy_one_pending (p : Params) (rng : Nat → Rat)
    (horacle : ∀ k, 0 ≤ rng k) (s : SimState) (hs : Reachable p rng s) :
    ∀ d ∈ s.pool.devices,
      (d.busy = true → cnt s.calendar d.id = 1) ∧
      (d.busy = false → cnt s.calendar d.id = 0) := by
  obtain ⟨ha, hb, _, _, _, _, _, _, _⟩ := reach_inv p rng horacle s hs
  intro d hd
  obtain ⟨j, hj, hdj⟩ := List.getElem_of_mem hd
  have hid : d.id = j := by
    have hx := ha j hj
    rw [List.getElem?_eq_getElem hj, hdj] at hx
    injection hx
  constructor
  · intro hbusy
    rw [hid]
    refine (hb j hj).1 ?_
    rw [List.getElem?_eq_getElem hj, hdj]
    show some d.busy = some true
    rw [hbusy]
  · intro hfree
    rw [hid]
    refine (hb j hj).2 ?_
    rw [List.getElem?_eq_getElem hj, hdj]
    show some d.busy = some false
    rw [hfree]

/-- Witness for C7 on a concrete run: after the first step of the
capacity-1/1-device buffered scenario the lone device is busy serving post 1
and carries exactly one pending completion. -/
theorem C7_busy_one_pending_witness :
    (⟨0, true, some ⟨1, 1, 0⟩⟩ : Device) ∈
      (stepState (startState pC2 c2rngA)).pool.devices ∧
    cnt (stepState (startState pC2 c2rngA)).calendar 0 = 1 := by
  have hdev : (stepState (startState pC2 c2rngA)).pool.devices
      = [⟨0, true, some ⟨1, 1, 0⟩⟩] := by with_unfolding_all rfl
  have hmem : (⟨0, true, some ⟨1, 1, 0⟩⟩ : Device) ∈
      (stepState (startState pC2 c2rngA)).pool.devices := by
    rw [hdev]
    exact List.mem_cons_self _ _
  have h := C7_busy_one_pending pC2 c2rngA c2rngA_nonneg
    (stepState (startState pC2 c2rngA)) ⟨1, rfl⟩ _ hmem
  exact ⟨hmem, (h.1 rfl : _)⟩

/-- C5: in every reachable configuration (whatever the direct-placement
flag), when processing an Arrival event leaves the buffer non-empty while at
least one device is free, the opportunistic guard fires, so the step is
exactly the Selection Dispatcher pass followed by the safety net — after
which every busy device that lacked a pending Completion has had one
scheduled: each busy device holds exactly one pending Completion. -/
theorem C5_arrival_selection_net (p : Params) (rng : Nat → Rat)
    (horacle : ∀ k, 0 ≤ rng k) (s : SimState) (hs : Reachable p rng s)
    (t : Rat) (src : Nat) (cal1 : List Event)
    (hpop : heappop s.calendar = some (.arrival t src, cal1))
    (hne : (arrivalCore { s with calendar := cal1 } t src).1.buffer.is_empty = false)
    (hfree : (arrivalCore { s with calendar := cal1 } t src).1.pool.any_free = true) :
    selGuard (arrivalCore { s with calendar := cal1 } t src).1 = true ∧
    stepState s
      = safetyNet (on_device_freed (arrivalCore { s with calendar := cal1 } t src).1 t) t ∧
    ∀ d ∈ (stepState s).pool.devices, d.busy = true →
      cnt (stepState s).calendar d.id = 1 := by
  obtain ⟨ha, hb, hc, hB, hT, hE, hct0, htimes, horc⟩ := reach_inv p rng horacle s hs
  have hdaf : s.direct_assign = false := by
    cases hdav : s.direct_assign with
    | false => rfl
    | true =>
      exfalso
      cases hpk : ({ s with calendar := cal1 } : SimState).pool.pick_cyclic_d2p2 with
      | mk o pool1 =>
        cases o with
        | some i =>
          obtain ⟨k1, k2, hm1, hm2, hm3, hm4, hm5, hm6, hm7⟩ :=
            arrivalCore_direct { s with calendar := cal1 } t src i pool1
              (by show s.direct_assign = true; exact hdav) hpk
          have hps := pick_startAt_poolStep
            ({ s with calendar := cal1 } : SimState).pool i pool1
            ⟨({ s with calendar := cal1 } : SimState).next_post_id, src, t⟩ hpk
          have hfree1 : ({ s with calendar := cal1 } : SimState).pool.any_free = true := by
            cases hv : ({ s with calendar := cal1 } : SimState).pool.any_free with
            | true => rfl
            | false =>
              rw [hm2] at hfree
              rw [PoolStep.no_new_free hps hv] at hfree
              cases hfree
          have hE1 := hE hfree1
          rw [hm7] at hne
          have hne' : Buffer.is_empty s.buffer = false := hne
          unfold Buffer.is_empty at hne'
          rw [hE1.1] at hne'
          exact absurd hne' (by decide)
        | none =>
          obtain ⟨k1, hm1, hm2, hm3, hm4, hm5, hm6, hm7⟩ :=
            arrivalCore_buffer { s with calendar := cal1 } t src (Or.inr (by rw [hpk]))
          rw [hm2] at hfree
          have haf0 := pick_none_any_free
            ({ s with calendar := cal1 } : SimState).pool (by rw [hpk])
          rw [haf0] at hfree
          cases hfree
  have hguard : selGuard (arrivalCore { s with calendar := cal1 } t src).1 = true := by
    have hda2 : (arrivalCore { s with calendar := cal1 } t src).1.direct_assign
        = false := by
      obtain ⟨k1, hm1, hm2, hm3, hm4, hm5, hm6, hm7⟩ :=
        arrivalCore_buffer { s with calendar := cal1 } t src
          (Or.inl (by show s.direct_assign = false; exact hdaf))
      rw [hm5]
      exact hdaf
    unfold selGuard
    rw [hda2, hne, hfree]
    rfl
  refine ⟨hguard, ?_, ?_⟩
  · rw [stepState_arrival s t src cal1 hpop, processArrival_eq, if_pos hguard]
  · have hreach2 : Reachable p rng (stepState s) := by
      obtain ⟨k, hk⟩ := hs
      exact ⟨k + 1, by rw [Function.iterate_succ_apply', hk]⟩
    obtain ⟨ha2, hb2, _, _, _, _, _, _, _⟩ :=
      reach_inv p rng horacle (stepState s) hreach2
    intro d hd hbusy
    obtain ⟨j, hj, hdj⟩ := List.getElem_of_mem hd
    have hid : d.id = j := by
      have hx := ha2 j hj
      rw [List.getElem?_eq_getElem hj, hdj] at hx
      injection hx
    rw [hid]
    refine (hb2 j hj).1 ?_
    rw [List.getElem?_eq_getElem hj, hdj]
    show some d.busy = some true
    rw [hbusy]

/-- Witness for C5 on a concrete run: the first arrival of the buffered
capacity-1/1-device scenario buffers post 1 with the device idle, the guard
fires, the step runs dispatcher plus net, and the busy device ends with one
pending completion. -/
theorem C5_arrival_selection_net_witness :
    selGuard (arrivalCore { startState pC2 c2rngA with calendar := [] } 0 1).1 = true ∧
    stepState (startState pC2 c2rngA)
      = safetyNet (on_device_freed
          (arrivalCore { startState pC2 c2rngA with calendar := [] } 0 1).1 0) 0 ∧
    ∀ d ∈ (stepState (startState pC2 c2rngA)).pool.devices, d.busy = true →
      cnt (stepState (startState pC2 c2rngA)).calendar d.id = 1 :=
  C5_arrival_selection_net pC2 c2rngA c2rngA_nonneg (startState pC2 c2rngA)
    ⟨0, rfl⟩ 0 1 [] (by with_unfolding_all rfl) (by with_unfolding_all rfl)
    (by with_unfolding_all rfl)
